import Mathlib

/-!
ConnectFour: board, alignment tracker, evaluator and alpha-beta search

A shallow embedding of `src/ConnectFour.h`, `src/ConnectFour.cpp` and `src/IConnectFour.h`.

* `unsigned` values are natural numbers below `2^32`; `x + 1` and `x - 1` are taken modulo `2^32`
  (`uadd1`, `usub1`).
* `int` values are integers reduced to the 32-bit two's complement range by `wrapInt`.
* An access outside an array has no defined result in the source: every function that indexes
  the grid returns an `Option`, and `none` stands for such an access.
* `std::random_shuffle` is an oracle `shuffle : Nat → List Nat`: the `n`-th shuffle performed by a
  search yields `shuffle n`; the number of shuffles performed so far is threaded through the search.
-/

/-- Cell content, `enum Player { O = -1, EMPTY = 0, X = 1 }`. -/
inductive Player where
  | O
  | EMPTY
  | X
deriving DecidableEq, Repr, Fintype

/-- The cast `Player(-p)`: negation of the numeric tag. -/
def Player.neg : Player → Player
  | Player.O => Player.X
  | Player.EMPTY => Player.EMPTY
  | Player.X => Player.O

/-- Source constant `#define MAX_ROW 6`. -/
@[reducible] def MAX_ROW : Nat := 6

/-- Source constant `#define MAX_COLUMN 7`. -/
@[reducible] def MAX_COLUMN : Nat := 7

/-- Source constant `#define WIN_SCORE 4`. -/
@[reducible] def WIN_SCORE : Nat := 4

/-- Value of `std::numeric_limits<int>::max()`. -/
def INT_MAX : Int := 2147483647

/-- Reduction of an integer to the range of a 32-bit `int` (two's complement). -/
def wrapInt (x : Int) : Int := (x + 2147483648) % 4294967296 - 2147483648

/-- Increment `++x` on an `unsigned`. -/
def uadd1 (x : Nat) : Nat := (x + 1) % 4294967296

/-- Decrement `--x` (or `x - 1`) on an `unsigned`. -/
def usub1 (x : Nat) : Nat := (x + 4294967295) % 4294967296

/-- Type `using Column = std::array<Player, MAX_ROW>`. -/
abbrev Column := Mathlib.Vector Player 6

/-- Type `using Grid = std::array<Column, MAX_COLUMN>`; `(grid.get c).get r` is `grid[c][r]`,
row 0 on top. -/
abbrev Grid := Mathlib.Vector Column 7

/-- Type `std::array<unsigned, 3>`: the buckets for alignments of length 2, 3 and 4. -/
abbrev Alignments := Mathlib.Vector Nat 3

/-- Assignment `grid[c][r] = p`. -/
def setCell (g : Grid) (c : Fin 7) (r : Fin 6) (p : Player) : Grid :=
  g.set c ((g.get c).set r p)

/-- Read of `grid[c][r]`; `none` when an index is outside the array. -/
def readCell (g : Grid) (c r : Nat) : Option Player :=
  if h : c < MAX_COLUMN ∧ r < MAX_ROW then some ((g.get ⟨c, h.1⟩).get ⟨r, h.2⟩) else none

/-- Result of `std::count(col.begin(), col.end(), Player::EMPTY)`. -/
def countEmpty (col : Column) : Nat := col.toList.count Player.EMPTY

/-- The data members of `class ConnectFour`. -/
structure ConnectFour where
  grid : Grid
  lastBoxColumn : Nat
  lastBoxRow : Nat
  alignmentsO : Alignments
  alignmentsX : Alignments
deriving DecidableEq

namespace ConnectFour

/-- Member function `ConnectFour::alignmentsCount`: `score - 2` and `score - 3` are unsigned
subtractions. -/
def alignmentsCount (score : Nat) (playerAlignments : Alignments) : Alignments :=
  let USEFUL_INDEX := (score + 4294967294) % 4294967296
  if hu : USEFUL_INDEX > 2 then playerAlignments
  else
    let PREVIOUS_INDEX := (score + 4294967293) % 4294967296
    let decremented : Alignments :=
      if hp : PREVIOUS_INDEX < 2 then
        if playerAlignments.get ⟨PREVIOUS_INDEX, by omega⟩ ≠ 0 then
          playerAlignments.set ⟨PREVIOUS_INDEX, by omega⟩
            (playerAlignments.get ⟨PREVIOUS_INDEX, by omega⟩ - 1)
        else playerAlignments
      else playerAlignments
    decremented.set ⟨USEFUL_INDEX, by omega⟩ (uadd1 (decremented.get ⟨USEFUL_INDEX, by omega⟩))

/-- Member function `ConnectFour::isValidMove`: `c < MAX_COLUMN && grid[c][0] == Player::EMPTY`. -/
def isValidMove (s : ConnectFour) (c : Nat) : Bool :=
  if h : c < MAX_COLUMN then decide ((s.grid.get ⟨c, h⟩).get ⟨0, by decide⟩ = Player.EMPTY)
  else false

/-- Member function `ConnectFour::isGameOver`: no column of `0 .. MAX_COLUMN - 1` is a valid
move. -/
def isGameOver (s : ConnectFour) : Bool :=
  (List.range MAX_COLUMN).all fun column => !s.isValidMove column

/-- Member function `ConnectFour::isWinner`: the conversion of the length-4 bucket to `bool`. -/
def isWinner (s : ConnectFour) (p : Player) : Bool :=
  if p = Player.O then decide (s.alignmentsO.get 2 ≠ 0) else decide (s.alignmentsX.get 2 ≠ 0)

/-- Weighted sum `int(a[0]) * 1 + int(a[1]) * 10 + int(a[2]) * 100` in `int` arithmetic. -/
def weighted (a : Alignments) : Int :=
  wrapInt (wrapInt (a.get 0) * 1 + wrapInt (a.get 1) * 10 + wrapInt (a.get 2) * 100)

/-- Member function `ConnectFour::nodeValue`. -/
def nodeValue (s : ConnectFour) (p : Player) : Int :=
  let scoreO := weighted s.alignmentsO
  let scoreX := weighted s.alignmentsX
  if p = Player.O then wrapInt (scoreO - scoreX) else wrapInt (scoreX - scoreO)

/-- Member function `ConnectFour::reset`: both bucket arrays and every cell are cleared; the
last-move pointer is not assigned. -/
def reset (s : ConnectFour) : ConnectFour :=
  { s with alignmentsO := Mathlib.Vector.replicate 3 0,
           alignmentsX := Mathlib.Vector.replicate 3 0,
           grid := Mathlib.Vector.replicate 7 (Mathlib.Vector.replicate 6 Player.EMPTY) }

/-- One scanning `for` loop of the `score*` functions. `cond column row` is the part of the loop
condition that precedes `score < WIN_SCORE` (`none` when it indexes outside the grid), `stepC` and
`stepR` are the increments of the loop header. Every iteration increments `score` and the loop
stops at `WIN_SCORE`, so `WIN_SCORE` evaluations of the condition always suffice; the first
argument counts them down. -/
def scanLoop (cond : Nat → Nat → Option Bool) (stepC stepR : Nat → Nat) :
    Nat → Nat → Nat → Nat → Option Nat
  | 0, _, _, _ => none
  | fuel + 1, column, row, score =>
    match cond column row with
    | none => none
    | some b =>
      if b = true ∧ score < WIN_SCORE then
        scanLoop cond stepC stepR fuel (stepC column) (stepR row) (score + 1)
      else some score

/-- Loop condition `column < MAX_COLUMN && row < MAX_ROW && grid[column][row] == p`. -/
def condBoth (g : Grid) (p : Player) (column row : Nat) : Option Bool :=
  if column < MAX_COLUMN ∧ row < MAX_ROW then (readCell g column row).map fun x => decide (x = p)
  else some false

/-- Loop condition `row < MAX_ROW && grid[lastBoxColumn][row] == p`. -/
def condRowOnly (g : Grid) (p : Player) (column row : Nat) : Option Bool :=
  if row < MAX_ROW then (readCell g column row).map fun x => decide (x = p) else some false

/-- Loop condition `column < MAX_COLUMN && grid[column][lastBoxRow] == p`. -/
def condColumnOnly (g : Grid) (p : Player) (column row : Nat) : Option Bool :=
  if column < MAX_COLUMN then (readCell g column row).map fun x => decide (x = p) else some false

/-- The closing `if (p == Player::O) alignmentsCount(score, alignmentsO) else ...` of every
`score*` function. -/
def recordScore (s : ConnectFour) (p : Player) (score : Nat) : ConnectFour :=
  if p = Player.O then { s with alignmentsO := alignmentsCount score s.alignmentsO }
  else { s with alignmentsX := alignmentsCount score s.alignmentsX }

/-- The scan of `ConnectFour::scoreColumn`: downwards from the cell below the last one played. -/
def scanColumn (s : ConnectFour) (p : Player) : Option Nat :=
  scanLoop (condRowOnly s.grid p) id uadd1 WIN_SCORE s.lastBoxColumn (uadd1 s.lastBoxRow) 1

/-- The two scans of `ConnectFour::scoreDiagAsc`: up-right, then down-left. -/
def scanDiagAsc (s : ConnectFour) (p : Player) : Option Nat :=
  (scanLoop (condBoth s.grid p) uadd1 usub1 WIN_SCORE
    (uadd1 s.lastBoxColumn) (usub1 s.lastBoxRow) 1).bind fun score =>
  if score < WIN_SCORE then
    scanLoop (condBoth s.grid p) usub1 uadd1 WIN_SCORE
      (usub1 s.lastBoxColumn) (uadd1 s.lastBoxRow) score
  else some score

/-- The two scans of `ConnectFour::scoreDiagDesc`: down-right, then up-left. -/
def scanDiagDesc (s : ConnectFour) (p : Player) : Option Nat :=
  (scanLoop (condBoth s.grid p) uadd1 uadd1 WIN_SCORE
    (uadd1 s.lastBoxColumn) (uadd1 s.lastBoxRow) 1).bind fun score =>
  if score < WIN_SCORE then
    scanLoop (condBoth s.grid p) usub1 usub1 WIN_SCORE
      (usub1 s.lastBoxColumn) (usub1 s.lastBoxRow) score
  else some score

/-- The two scans of `ConnectFour::scoreRow`: to the right, then to the left. -/
def scanRow (s : ConnectFour) (p : Player) : Option Nat :=
  (scanLoop (condColumnOnly s.grid p) uadd1 id WIN_SCORE
    (uadd1 s.lastBoxColumn) s.lastBoxRow 1).bind fun score =>
  if score < WIN_SCORE then
    scanLoop (condColumnOnly s.grid p) usub1 id WIN_SCORE
      (usub1 s.lastBoxColumn) s.lastBoxRow score
  else some score

/-- Member function `ConnectFour::scoreColumn`. -/
def scoreColumn (s : ConnectFour) (p : Player) : Option ConnectFour :=
  (scanColumn s p).map (recordScore s p)

/-- Member function `ConnectFour::scoreDiagAsc`. -/
def scoreDiagAsc (s : ConnectFour) (p : Player) : Option ConnectFour :=
  (scanDiagAsc s p).map (recordScore s p)

/-- Member function `ConnectFour::scoreDiagDesc`. -/
def scoreDiagDesc (s : ConnectFour) (p : Player) : Option ConnectFour :=
  (scanDiagDesc s p).map (recordScore s p)

/-- Member function `ConnectFour::scoreRow`. -/
def scoreRow (s : ConnectFour) (p : Player) : Option ConnectFour :=
  (scanRow s p).map (recordScore s p)

/-- Member function `ConnectFour::playInColumn`. `c` is a `size_t`; `grid[c]` is outside the grid
when `c ≥ MAX_COLUMN`, and so is the row index when it is not below `MAX_ROW`. -/
def playInColumn (s : ConnectFour) (c : Nat) (p : Player) : Option ConnectFour :=
  if hc : c < MAX_COLUMN then
    let firstFullBox := countEmpty (s.grid.get ⟨c, hc⟩)
    if p = Player.EMPTY then
      if hr : firstFullBox < MAX_ROW then
        some { s with grid := setCell s.grid ⟨c, hc⟩ ⟨firstFullBox, hr⟩ p }
      else none
    else
      let firstFullBox := usub1 firstFullBox
      if hr : firstFullBox < MAX_ROW then
        let placed : ConnectFour :=
          { s with grid := setCell s.grid ⟨c, hc⟩ ⟨firstFullBox, hr⟩ p,
                   lastBoxColumn := c % 4294967296,
                   lastBoxRow := firstFullBox }
        (scoreColumn placed p).bind fun s1 =>
        (scoreDiagAsc s1 p).bind fun s2 =>
        (scoreDiagDesc s2 p).bind fun s3 =>
        scoreRow s3 p
      else none
  else none

/-- Member function `ConnectFour::eraseMove`. -/
def eraseMove (s : ConnectFour) (c : Nat) : Option ConnectFour :=
  s.playInColumn c Player.EMPTY

/-- Result of one `alphabeta` activation: the object and the shuffle counter after the call, the
returned `bestScore`, and the last value assigned to the reference parameter `bestColumn`
(`none` when the activation assigned nothing; `alphabeta` never reads that parameter). -/
structure Outcome where
  game : ConnectFour
  rng : Nat
  score : Int
  bestColumn : Option Nat

/-- The object, the shuffle counter and the locals `bestScore`, `bestColumn`, `alpha` of an
`alphabeta` activation between two iterations of its `for` loop. -/
structure Frame where
  game : ConnectFour
  rng : Nat
  bestScore : Int
  bestColumn : Option Nat
  alpha : Int

/-- The `for (unsigned column : columns)` loop of `ConnectFour::alphabeta`. `child` is the
recursive call `alphabeta(nextBestColumn, depth - 1, ·, ·, Player(-p))`; `previousO` and
`previousX` are the saved bucket arrays. -/
def searchLoop (child : ConnectFour → Nat → Int → Int → Option Outcome) (p : Player)
    (beta : Int) (previousO previousX : Alignments) : List Nat → Frame → Option Frame
  | [], f => some f
  | column :: rest, f =>
    if f.game.isValidMove column then
      (f.game.playInColumn column p).bind fun played =>
      (child played f.rng (wrapInt (-beta)) (wrapInt (-f.alpha))).bind fun sub =>
      let score := wrapInt (-sub.score)
      (sub.game.eraseMove column).bind fun erased =>
      let restored : ConnectFour :=
        { erased with alignmentsO := previousO, alignmentsX := previousX }
      let bestScore := if score > f.bestScore then score else f.bestScore
      let bestColumn := if score > f.bestScore then some column else f.bestColumn
      if score > f.alpha then
        let alpha := bestScore
        if alpha > beta then
          some ⟨restored, sub.rng, bestScore, some column, alpha⟩
        else
          searchLoop child p beta previousO previousX rest
            ⟨restored, sub.rng, bestScore, some column, alpha⟩
      else
        searchLoop child p beta previousO previousX rest
          ⟨restored, sub.rng, bestScore, bestColumn, f.alpha⟩
    else searchLoop child p beta previousO previousX rest f

/-- Member function `ConnectFour::alphabeta`. `depth` is an `unsigned`, so `depth + 1` is reduced
modulo `2^32` before its conversion to `int`. -/
def alphabeta (shuffle : Nat → List Nat) (depth : Nat) (s : ConnectFour) (rng : Nat)
    (alpha beta : Int) (p : Player) : Option Outcome :=
  if s.isWinner p.neg then
    some ⟨s, rng, wrapInt (-100 * wrapInt (uadd1 depth)), none⟩
  else
    match depth with
    | 0 => some ⟨s, rng, s.nodeValue p, none⟩
    | d + 1 =>
      if s.isGameOver then some ⟨s, rng, 0, none⟩
      else
        (searchLoop (fun g r a b => alphabeta shuffle d g r a b p.neg) p beta
          s.alignmentsO s.alignmentsX (shuffle rng) ⟨s, rng + 1, -INT_MAX, none, alpha⟩).map
        fun f => ⟨f.game, f.rng, f.bestScore, f.bestColumn⟩

/-- Member function `ConnectFour::chooseNextMove`: the object after the call, the shuffle counter
and the returned column. -/
def chooseNextMove (shuffle : Nat → List Nat) (s : ConnectFour) (rng : Nat) (p : Player)
    (depth : Nat) : Option (ConnectFour × Nat × Nat) :=
  let bestColumn := MAX_COLUMN / 2
  if (s.grid.get ⟨bestColumn, by decide⟩).get ⟨MAX_ROW - 1, by decide⟩ = Player.EMPTY then
    some (s, rng, bestColumn)
  else
    (alphabeta shuffle depth s rng (-INT_MAX) INT_MAX p).map fun out =>
      (out.game, out.rng, out.bestColumn.getD bestColumn)

end ConnectFour

/-! ## Notions used to state the properties -/

/-- Gravity in one column: below an occupied cell every cell is occupied (row 0 is the top). -/
def gravityColumn (col : Column) : Prop :=
  ∀ r r2 : Fin 6, r < r2 → col.get r ≠ Player.EMPTY → col.get r2 ≠ Player.EMPTY

instance (col : Column) : Decidable (gravityColumn col) := by
  unfold gravityColumn; infer_instance

/-- Gravity: in every column the occupied cells are contiguous from the bottom row upward. -/
def Gravity (g : Grid) : Prop := ∀ c : Fin 7, gravityColumn (g.get c)

instance (g : Grid) : Decidable (Gravity g) := by
  unfold Gravity; infer_instance

/-- The column with the given cells, row 0 first. -/
def mkColumn (a b c d e f : Player) : Column := ⟨[a, b, c, d, e, f], rfl⟩

/-- Encoding of an integer as an `unsigned`. -/
def enc (x : Int) : Nat := (x % 4294967296).toNat

/-- Test `cellIs g p c r`: `(c, r)` lies inside the grid and `grid[c][r] == p`. -/
def cellIs (g : Grid) (p : Player) (c r : Int) : Bool :=
  decide (0 ≤ c ∧ 0 ≤ r ∧ readCell g c.toNat r.toNat = some p)

/-- The cells of the line through `(c, r)` with direction `(dc, dr)` that hold `p`, indexed by
their signed distance to `(c, r)`. -/
def lineSample (g : Grid) (p : Player) (c r dc dr : Int) : Int → Bool :=
  fun k => cellIs g p (c + k * dc) (r + k * dr)

/-- Number of consecutive `true` values of `f` at `k`, `k + step`, ..., at most `n` of them. -/
def runLength (f : Int → Bool) (step : Int) : Nat → Int → Nat
  | 0, _ => 0
  | n + 1, k => if f k then 1 + runLength f step n (k + step) else 0

/-- Length found by a two-sided scan along a line: forward from the cell, then, when the
length is still below `WIN_SCORE`, backward. -/
def biScan (f : Int → Bool) : Nat :=
  let forward := 1 + runLength f 1 3 1
  if forward < WIN_SCORE then forward + runLength f (-1) (WIN_SCORE - forward) (-1) else forward

/-- Length found by the one-sided scan of a column. -/
def downScan (f : Int → Bool) : Nat := 1 + runLength f 1 3 1

/-- Four consecutive `true` values of `f` starting at `k`. -/
def fourAt (f : Int → Bool) (k : Int) : Prop :=
  f k = true ∧ f (k + 1) = true ∧ f (k + 2) = true ∧ f (k + 3) = true

instance (f : Int → Bool) (k : Int) : Decidable (fourAt f k) := by
  unfold fourAt; infer_instance

/-- The four directions of an alignment: row, column, ascending and descending diagonal. -/
def directions : List (Int × Int) := [(1, 0), (0, 1), (1, -1), (1, 1)]

/-- The grid contains four consecutive cells equal to `p` along a row, a column or a diagonal. -/
def hasFour (g : Grid) (p : Player) : Prop :=
  ∃ c : Fin 7, ∃ r : Fin 6, ∃ d ∈ directions, fourAt (lineSample g p c r d.1 d.2) 0

instance (g : Grid) (p : Player) : Decidable (hasFour g p) := by
  unfold hasFour; infer_instance

/-- Four consecutive cells equal to `p` in direction `d` that include the cell `(c, r)`. -/
def fourThrough (g : Grid) (p : Player) (c r : Nat) (d : Int × Int) : Prop :=
  ∃ i : Fin 4, fourAt (lineSample g p c r d.1 d.2) (-(i.val : Int))

instance (g : Grid) (p : Player) (c r : Nat) (d : Int × Int) : Decidable (fourThrough g p c r d) := by
  unfold fourThrough; infer_instance

/-- Lengths found by the four scans after `p` is placed in cell `(c, r)` of `g` (`g` is the grid
after the placement), in the order of `playInColumn`: column, ascending diagonal, descending
diagonal, row. -/
def scanLengths (g : Grid) (p : Player) (c r : Nat) : List Nat :=
  [downScan (lineSample g p c r 0 1), biScan (lineSample g p c r 1 (-1)),
   biScan (lineSample g p c r 1 1), biScan (lineSample g p c r 1 0)]

/-- Successive bucket updates for a list of scan lengths. -/
def recordAll (a : Alignments) (lengths : List Nat) : Alignments :=
  lengths.foldl (fun b n => ConnectFour.alignmentsCount n b) a

/-- The object after `p` (X or O) is placed in cell `(c, r)`. -/
def placedState (s : ConnectFour) (c : Fin 7) (r : Fin 6) (p : Player) : ConnectFour :=
  { grid := setCell s.grid c r p
    lastBoxColumn := c
    lastBoxRow := r
    alignmentsO :=
      if p = Player.O then recordAll s.alignmentsO (scanLengths (setCell s.grid c r p) p c r)
      else s.alignmentsO
    alignmentsX :=
      if p = Player.O then s.alignmentsX
      else recordAll s.alignmentsX (scanLengths (setCell s.grid c r p) p c r) }

/-- Number of Empty cells of the grid. -/
def emptyCells (g : Grid) : Nat :=
  countEmpty (g.get 0) + countEmpty (g.get 1) + countEmpty (g.get 2) + countEmpty (g.get 3) +
    countEmpty (g.get 4) + countEmpty (g.get 5) + countEmpty (g.get 6)

/-- The four cells `(C, R)`, `(C + dc, R + dr)`, `(C + 2dc, R + 2dr)`, `(C + 3dc, R + 3dr)` lie
inside the grid and hold `p`. -/
def lineOfFour (g : Grid) (p : Player) (C R dc dr : Int) : Prop :=
  cellIs g p C R = true ∧ cellIs g p (C + dc) (R + dr) = true ∧
    cellIs g p (C + 2 * dc) (R + 2 * dr) = true ∧ cellIs g p (C + 3 * dc) (R + 3 * dr) = true

namespace ConnectFour

/-- States reached from `reset()` by calls `playInColumn(c, p)` with `p` in `{X, O}` and
`isValidMove(c)` true at the time of the call. -/
inductive Reachable : ConnectFour → Prop
  | reset (s : ConnectFour) : Reachable s.reset
  | play (s t : ConnectFour) (c : Nat) (p : Player) :
      Reachable s → p ≠ Player.EMPTY → s.isValidMove c = true →
      s.playInColumn c p = some t → Reachable t

/-- A sequence of calls `playInColumn(c, p)`, each with `p` in `{X, O}` and `isValidMove(c)` true
at the time of the call; `none` when a call does not qualify. -/
def playMoves : ConnectFour → List (Nat × Player) → Option ConnectFour
  | s, [] => some s
  | s, (c, p) :: rest =>
    if p ≠ Player.EMPTY ∧ s.isValidMove c = true then
      (s.playInColumn c p).bind fun t => playMoves t rest
    else none

end ConnectFour

/-- Relation between the grids before and after a search: a column that respects gravity is
unchanged, a column that does not still does not. -/
def ColsRel (g g2 : Grid) : Prop :=
  ∀ c : Fin 7, (gravityColumn (g.get c) → g2.get c = g.get c) ∧
    (¬ gravityColumn (g.get c) → ¬ gravityColumn (g2.get c))

namespace ConnectFour

/-- The object with which an iteration of the search loop ends: the move is erased and the saved
buckets are written back. -/
def restoredState (erased : ConnectFour) (previousO previousX : Alignments) : ConnectFour :=
  { erased with alignmentsO := previousO, alignmentsX := previousX }

/-- The frame at the end of an iteration of the search loop that found `score` for `column`. -/
def stepFrame (f : Frame) (game : ConnectFour) (rng : Nat) (score : Int) (column : Nat) : Frame :=
  { game := game
    rng := rng
    bestScore := if score > f.bestScore then score else f.bestScore
    bestColumn :=
      if score > f.alpha then some column
      else if score > f.bestScore then some column else f.bestColumn
    alpha :=
      if score > f.alpha then (if score > f.bestScore then score else f.bestScore) else f.alpha }

/-- The iteration that found `score` ends the loop by the pruning `break`. -/
def breaksLoop (f : Frame) (score beta : Int) : Prop :=
  score > f.alpha ∧ (if score > f.bestScore then score else f.bestScore) > beta

instance (f : Frame) (score beta : Int) : Decidable (breaksLoop f score beta) := by
  unfold breaksLoop; infer_instance

end ConnectFour

/-- Weighted bucket sum `1·count2 + 10·count3 + 100·count4` as an integer. -/
def weightedSum (a : Alignments) : Int := 1 * (a.get 0 : Int) + 10 * (a.get 1 : Int) + 100 * (a.get 2 : Int)

/-- The base order of the columns: every shuffle returns it. -/
def baseShuffle : Nat → List Nat := fun _ => [3, 4, 5, 0, 1, 2, 6]

/-- The empty column. -/
def emptyColumn : Column := mkColumn Player.EMPTY Player.EMPTY Player.EMPTY Player.EMPTY Player.EMPTY Player.EMPTY

/-- The empty board with cleared buckets. -/
def emptyBoard : ConnectFour :=
  { grid := ⟨[emptyColumn, emptyColumn, emptyColumn, emptyColumn, emptyColumn, emptyColumn,
      emptyColumn], rfl⟩
    lastBoxColumn := 0
    lastBoxRow := 0
    alignmentsO := ⟨[0, 0, 0], rfl⟩
    alignmentsX := ⟨[0, 0, 0], rfl⟩ }

/-- The board reached from the empty one by X and O playing column 3 in turn six times: the center
column is full, no bucket has changed. -/
def centerFull : ConnectFour :=
  { grid := ⟨[emptyColumn, emptyColumn, emptyColumn,
      mkColumn Player.O Player.X Player.O Player.X Player.O Player.X,
      emptyColumn, emptyColumn, emptyColumn], rfl⟩
    lastBoxColumn := 3
    lastBoxRow := 0
    alignmentsO := ⟨[0, 0, 0], rfl⟩
    alignmentsX := ⟨[0, 0, 0], rfl⟩ }

/-- The state after X played columns 0, 1, 2 on the empty board: X on (col0,row5), (col1,row5),
(col2,row5). -/
def threeInRow : ConnectFour :=
  (emptyBoard.reset.playMoves [(0, Player.X), (1, Player.X), (2, Player.X)]).getD emptyBoard

/-- The state after X played columns 0, 1, 2, 3 on the empty board. -/
def fourInRow : ConnectFour :=
  (emptyBoard.reset.playMoves
    [(0, Player.X), (1, Player.X), (2, Player.X), (3, Player.X)]).getD emptyBoard

/-- The state after X and O played in turn X:1, O:0, X:1, O:0, X:1, O:0, X:2, O:0 on the empty
board: O has four in column 0 (completed by the last move), X has three in column 1. -/
def wonByO : ConnectFour :=
  (emptyBoard.reset.playMoves [(1, Player.X), (0, Player.O), (1, Player.X), (0, Player.O),
    (1, Player.X), (0, Player.O), (2, Player.X), (0, Player.O)]).getD emptyBoard

namespace ConnectFour

/-- The object after `p` plays column `c` (the object itself if the call has no result, which
does not happen on a valid column). -/
def afterPlay (s : ConnectFour) (c : Nat) (p : Player) : ConnectFour :=
  (s.playInColumn c p).getD s

/-- The valid columns, in increasing order. -/
def validColumns (s : ConnectFour) : List Nat :=
  (List.range MAX_COLUMN).filter fun c => s.isValidMove c

end ConnectFour

/-- Maximum of a list of integers (0 for the empty list). -/
def maxOf : List Int → Int
  | [] => 0
  | [x] => x
  | x :: y :: l => max x (maxOf (y :: l))

namespace ConnectFour

/-- The unpruned negamax of depth `d`, with the terminal rules of `alphabeta`: the opponent has
won: `-100 * (d + 1)`; `d = 0`: `nodeValue(p)`; no valid column: `0`; otherwise the maximum over
the valid columns of minus the value of the position after the move. Integers are not bounded
here. -/
def negamax : Nat → ConnectFour → Player → Int
  | 0, s, p => if s.isWinner p.neg then -100 * ((0 : Int) + 1) else s.nodeValue p
  | d + 1, s, p =>
    if s.isWinner p.neg then -100 * (((d + 1 : Nat) : Int) + 1)
    else if s.validColumns = [] then 0
    else maxOf (s.validColumns.map fun c => - negamax d (s.afterPlay c p) p.neg)

/-- The unpruned negamax score of the move `c` for `p` at depth `d + 1`. -/
def moveValue (d : Nat) (s : ConnectFour) (p : Player) (c : Nat) : Int :=
  - negamax d (s.afterPlay c p) p.neg

/-- Same grid and same buckets; the last-move pointer may differ. -/
def SameBoard (s t : ConnectFour) : Prop :=
  t.grid = s.grid ∧ t.alignmentsO = s.alignmentsO ∧ t.alignmentsX = s.alignmentsX

/-- Every bucket of both players is at most `k`. -/
def bucketsAtMost (k : Nat) (s : ConnectFour) : Prop :=
  ∀ i : Fin 3, s.alignmentsO.get i ≤ k ∧ s.alignmentsX.get i ≤ k

instance (k : Nat) (s : ConnectFour) : Decidable (bucketsAtMost k s) := by
  unfold bucketsAtMost; infer_instance

/-- Every bucket plus four times the number of Empty cells is at most `n`: a bound that no
placement breaks. -/
def Tame (n : Nat) (s : ConnectFour) : Prop :=
  ∀ i : Fin 3, s.alignmentsO.get i + 4 * emptyCells s.grid ≤ n ∧
    s.alignmentsX.get i + 4 * emptyCells s.grid ≤ n

end ConnectFour

/-- The columns in the base order of `alphabeta`. -/
def baseColumns : List Nat := [3, 4, 5, 0, 1, 2, 6]

/-- Every shuffle returns a permutation of the base order. -/
def IsShuffle (shuffle : Nat → List Nat) : Prop := ∀ n, (shuffle n).Perm baseColumns

/-- Every cell of the grid is occupied. -/
def fullGrid (g : Grid) : Prop := ∀ c : Fin 7, ∀ r : Fin 6, (g.get c).get r ≠ Player.EMPTY

instance (g : Grid) : Decidable (fullGrid g) := by
  unfold fullGrid; infer_instance

/-- Shape of a column under gravity: Empty cells at rows `0 .. k - 1`, occupied cells at rows
`k .. 5`. -/
def columnShape (col : Column) (k : Nat) : Prop :=
  ∀ r : Fin 6, (r.val < k → col.get r = Player.EMPTY) ∧ (k ≤ r.val → col.get r ≠ Player.EMPTY)

instance (col : Column) (k : Nat) : Decidable (columnShape col k) := by
  unfold columnShape; infer_instance

namespace ConnectFour

/-- States reached from `reset()` by calls `playInColumn(c, p)` with `p` in `{X, O}` on a valid
column and by calls `eraseMove(c)` on a column that holds at least one piece. -/
inductive ReachableUndo : ConnectFour → Prop
  | reset (s : ConnectFour) : ReachableUndo s.reset
  | play (s t : ConnectFour) (c : Nat) (p : Player) :
      ReachableUndo s → p ≠ Player.EMPTY → s.isValidMove c = true →
      s.playInColumn c p = some t → ReachableUndo t
  | erase (s t : ConnectFour) (c : Nat) (hc : c < 7) :
      ReachableUndo s → (∃ r : Fin 6, (s.grid.get ⟨c, hc⟩).get r ≠ Player.EMPTY) →
      s.eraseMove c = some t → ReachableUndo t

/-- The bucket array that the `score*` functions update for `p`: `alignmentsO` when
`p == Player::O`, `alignmentsX` otherwise. -/
def bucketsOf (s : ConnectFour) (p : Player) : Alignments :=
  if p = Player.O then s.alignmentsO else s.alignmentsX

/-- The object inside `playInColumn(c, p)` after `grid[c][r] = p`, `lastBoxColumn = c` and
`lastBoxRow = r`, before the four scans. -/
def placedCell (s : ConnectFour) (c : Fin 7) (r : Fin 6) (p : Player) : ConnectFour :=
  { s with grid := setCell s.grid c r p, lastBoxColumn := c.val, lastBoxRow := r.val }

/-- The content of a loop frame apart from the last-move pointer of its object. -/
def Frame.core (f : Frame) : Grid × Alignments × Alignments × Nat × Int × Option Nat × Int :=
  (f.game.grid, f.game.alignmentsO, f.game.alignmentsX, f.rng, f.bestScore, f.bestColumn,
    f.alpha)

/-- The content of a search result apart from the last-move pointer of its object. -/
def Outcome.core (o : Outcome) : Grid × Alignments × Alignments × Nat × Int × Option Nat :=
  (o.game.grid, o.game.alignmentsO, o.game.alignmentsX, o.rng, o.score, o.bestColumn)

end ConnectFour

/-- The maximal run of `true` values of `f` that contains index 0 reaches exactly `a` steps
forward and `b` steps backward: it has `a + b + 1` elements. -/
def runAround (f : Int → Bool) (a b : Nat) : Prop :=
  (∀ k : Int, -(b : Int) ≤ k → k ≤ (a : Int) → f k = true) ∧
    f ((a : Int) + 1) = false ∧ f (-(b : Int) - 1) = false

/-- A complete game of 42 valid moves, X and O in turn, in which nobody aligns four. -/
def drawnMoves : List (Nat × Player) :=
  [(5, Player.X), (3, Player.O), (2, Player.X), (3, Player.O), (1, Player.X), (5, Player.O),
   (3, Player.X), (1, Player.O), (0, Player.X), (1, Player.O), (4, Player.X), (1, Player.O),
   (2, Player.X), (5, Player.O), (0, Player.X), (5, Player.O), (6, Player.X), (6, Player.O),
   (2, Player.X), (0, Player.O), (6, Player.X), (0, Player.O), (4, Player.X), (2, Player.O),
   (3, Player.X), (0, Player.O), (3, Player.X), (4, Player.O), (2, Player.X), (3, Player.O),
   (2, Player.X), (6, Player.O), (0, Player.X), (4, Player.O), (1, Player.X), (1, Player.O),
   (5, Player.X), (4, Player.O), (4, Player.X), (5, Player.O), (6, Player.X), (6, Player.O)]

/-- The full board at the end of the game `drawnMoves`. -/
def drawnBoard : ConnectFour := (emptyBoard.reset.playMoves drawnMoves).getD emptyBoard

/-- The state after X:0, O:4, X:4, O:6, X:4, O:6, X:2, O:6 on the empty board: X holds
(col0,row5) and (col2,row5), not adjacent, and the vertical pair (col4,row4), (col4,row3). -/
def spread : ConnectFour :=
  (emptyBoard.reset.playMoves [(0, Player.X), (4, Player.O), (4, Player.X), (6, Player.O),
    (4, Player.X), (6, Player.O), (2, Player.X), (6, Player.O)]).getD emptyBoard

/-- The board `centerFull` with other values in the last-move pointer. -/
def centerFullStale : ConnectFour :=
  { centerFull with lastBoxColumn := 4000000000, lastBoxRow := 77 }

namespace ConnectFour

/-- The positions `(column, row)` at which a scanning `for` loop evaluates its condition, in
order: the loop of `scanLoop`, recording the position instead of the score. -/
def scanVisits (cond : Nat → Nat → Option Bool) (stepC stepR : Nat → Nat) :
    Nat → Nat → Nat → Nat → List (Nat × Nat)
  | 0, _, _, _ => []
  | fuel + 1, column, row, score =>
    (column, row) ::
      match cond column row with
      | none => []
      | some b =>
        if b = true ∧ score < WIN_SCORE then
          scanVisits cond stepC stepR fuel (stepC column) (stepR row) (score + 1)
        else []

/-- The positions visited by the two loops of a two-sided scan from the cell `(c, r)`: the
second loop runs when the score after the first one is below `WIN_SCORE`. -/
def twoSidedVisits (cond : Nat → Nat → Option Bool) (fwdC fwdR bwdC bwdR : Nat → Nat)
    (c r : Nat) : List (Nat × Nat) :=
  scanVisits cond fwdC fwdR WIN_SCORE (fwdC c) (fwdR r) 1 ++
    match scanLoop cond fwdC fwdR WIN_SCORE (fwdC c) (fwdR r) 1 with
    | none => []
    | some score =>
      if score < WIN_SCORE then scanVisits cond bwdC bwdR WIN_SCORE (bwdC c) (bwdR r) score
      else []

/-- The indices `(column, row)` at which `scoreColumn` reads `grid[lastBoxColumn][row]`: the
visited positions that pass the test `row < MAX_ROW`. -/
def columnAccesses (s : ConnectFour) (p : Player) : List (Nat × Nat) :=
  (scanVisits (condRowOnly s.grid p) id uadd1 WIN_SCORE s.lastBoxColumn
    (uadd1 s.lastBoxRow) 1).filter fun v => decide (v.2 < MAX_ROW)

/-- The indices at which `scoreDiagAsc` reads `grid[column][row]`: the visited positions that
pass the tests `column < MAX_COLUMN && row < MAX_ROW`. -/
def diagAscAccesses (s : ConnectFour) (p : Player) : List (Nat × Nat) :=
  (twoSidedVisits (condBoth s.grid p) uadd1 usub1 usub1 uadd1 s.lastBoxColumn
    s.lastBoxRow).filter fun v => decide (v.1 < MAX_COLUMN ∧ v.2 < MAX_ROW)

/-- The indices at which `scoreDiagDesc` reads `grid[column][row]`: the visited positions that
pass the tests `column < MAX_COLUMN && row < MAX_ROW`. -/
def diagDescAccesses (s : ConnectFour) (p : Player) : List (Nat × Nat) :=
  (twoSidedVisits (condBoth s.grid p) uadd1 uadd1 usub1 usub1 s.lastBoxColumn
    s.lastBoxRow).filter fun v => decide (v.1 < MAX_COLUMN ∧ v.2 < MAX_ROW)

/-- The indices at which `scoreRow` reads `grid[column][lastBoxRow]`: the visited positions that
pass the test `column < MAX_COLUMN`. -/
def rowAccesses (s : ConnectFour) (p : Player) : List (Nat × Nat) :=
  (twoSidedVisits (condColumnOnly s.grid p) uadd1 id usub1 id s.lastBoxColumn
    s.lastBoxRow).filter fun v => decide (v.1 < MAX_COLUMN)

/-- The cell indices `(column, row)` used by `playInColumn(c, p)` for `p` in `{X, O}`: the
reads of `std::count` over `grid[c]`, the write `grid[c][--firstFullBox] = p`, then the reads of
the four scans, which all run on the grid and the last-move pointer set by the placement. -/
def playAccesses (s : ConnectFour) (c : Nat) (p : Player) : List (Nat × Nat) :=
  (List.range MAX_ROW).map (fun row => (c, row)) ++
    if hc : c < MAX_COLUMN then
      let firstFullBox := usub1 (countEmpty (s.grid.get ⟨c, hc⟩))
      if hr : firstFullBox < MAX_ROW then
        (c, firstFullBox) ::
          (columnAccesses (placedCell s ⟨c, hc⟩ ⟨firstFullBox, hr⟩ p) p ++
            diagAscAccesses (placedCell s ⟨c, hc⟩ ⟨firstFullBox, hr⟩ p) p ++
            diagDescAccesses (placedCell s ⟨c, hc⟩ ⟨firstFullBox, hr⟩ p) p ++
            rowAccesses (placedCell s ⟨c, hc⟩ ⟨firstFullBox, hr⟩ p) p)
      else [(c, firstFullBox)]
    else []

/-- The cell indices used by `eraseMove(c)`: the reads of `std::count` over `grid[c]`, then the
write `grid[c][firstFullBox] = EMPTY`. -/
def eraseAccesses (s : ConnectFour) (c : Nat) : List (Nat × Nat) :=
  (List.range MAX_ROW).map (fun row => (c, row)) ++
    if hc : c < MAX_COLUMN then [(c, countEmpty (s.grid.get ⟨c, hc⟩))] else []

end ConnectFour

/-- The columns in the reverse of the base order: every shuffle returns it. -/
def reverseShuffle : Nat → List Nat := fun _ => [6, 2, 1, 0, 5, 4, 3]

/-- Forty valid moves, X and O in turn, in which nobody aligns four; they leave the top cells of
columns 1 and 6 Empty, with X to move. -/
def lateMoves : List (Nat × Player) :=
  [(6, Player.X), (4, Player.O), (0, Player.X), (5, Player.O), (6, Player.X), (0, Player.O),
   (5, Player.X), (2, Player.O), (3, Player.X), (5, Player.O), (4, Player.X), (3, Player.O),
   (4, Player.X), (6, Player.O), (3, Player.X), (1, Player.O), (0, Player.X), (0, Player.O),
   (5, Player.X), (3, Player.O), (4, Player.X), (4, Player.O), (6, Player.X), (2, Player.O),
   (0, Player.X), (2, Player.O), (3, Player.X), (0, Player.O), (3, Player.X), (4, Player.O),
   (1, Player.X), (1, Player.O), (2, Player.X), (6, Player.O), (1, Player.X), (2, Player.O),
   (5, Player.X), (2, Player.O), (5, Player.X), (1, Player.O)]

/-- The board after the moves `lateMoves`: X completes four by playing column 6 and does not by
playing column 1. -/
def lateBoard : ConnectFour := (emptyBoard.reset.playMoves lateMoves).getD emptyBoard

open ConnectFour

/-! ## Unsigned encoding -/

theorem enc_ofNat (n : Nat) (h : n < 4294967296) : enc (n : Int) = n := by
  unfold enc; omega

theorem uadd1_enc (x : Int) : uadd1 (enc x) = enc (x + 1) := by
  unfold uadd1 enc; omega

theorem usub1_enc (x : Int) : usub1 (enc x) = enc (x + -1) := by
  unfold usub1 enc; omega

theorem id_enc (x : Int) : id (enc x) = enc (x + 0) := by
  simp

theorem enc_lt_iff (x : Int) (n : Nat) (hn : n ≤ 7) (h1 : -8 ≤ x) (h2 : x ≤ 16) :
    enc x < n ↔ 0 ≤ x ∧ x < n := by
  unfold enc; omega

theorem enc_eq_toNat (x : Int) (h0 : 0 ≤ x) (h1 : x < 4294967296) : enc x = x.toNat := by
  unfold enc; omega

theorem readCell_none_iff (g : Grid) (c r : Nat) : readCell g c r = none ↔ ¬ (c < 7 ∧ r < 6) := by
  unfold readCell; split <;> simp_all

/-! ## The scanning loops -/

theorem condBoth_enc (g : Grid) (p : Player) (C R : Int)
    (hC1 : -8 ≤ C) (hC2 : C ≤ 16) (hR1 : -8 ≤ R) (hR2 : R ≤ 16) :
    condBoth g p (enc C) (enc R) = some (cellIs g p C R) := by
  unfold condBoth cellIs
  have e1 := enc_lt_iff C 7 (by omega) hC1 hC2
  have e2 := enc_lt_iff R 6 (by omega) hR1 hR2
  by_cases h : enc C < MAX_COLUMN ∧ enc R < MAX_ROW
  · have hc : 0 ≤ C ∧ C < 7 := e1.1 h.1
    have hr : 0 ≤ R ∧ R < 6 := e2.1 h.2
    rw [if_pos h, enc_eq_toNat C hc.1 (by omega), enc_eq_toNat R hr.1 (by omega)]
    have hrd : readCell g C.toNat R.toNat = some ((g.get ⟨C.toNat, by omega⟩).get ⟨R.toNat, by omega⟩) := by
      unfold readCell; rw [dif_pos]; constructor <;> simp only [MAX_COLUMN, MAX_ROW] <;> omega
    rw [hrd]
    simp [hc.1, hr.1]
  · rw [if_neg h]
    have hrd : readCell g C.toNat R.toNat = none ∨ ¬ (0 ≤ C ∧ 0 ≤ R) := by
      by_cases h0 : 0 ≤ C ∧ 0 ≤ R
      · left
        rw [readCell_none_iff]
        intro hh
        apply h
        simp only [MAX_COLUMN, MAX_ROW]
        exact ⟨e1.2 ⟨h0.1, by omega⟩, e2.2 ⟨h0.2, by omega⟩⟩
      · right; exact h0
    rcases hrd with hrd | hrd
    · simp [hrd]
    · have : ¬ (0 ≤ C ∧ 0 ≤ R ∧ readCell g C.toNat R.toNat = some p) := fun hh => hrd ⟨hh.1, hh.2.1⟩
      simp [this]

theorem condRowOnly_enc (g : Grid) (p : Player) (C R : Int)
    (hC1 : 0 ≤ C) (hC2 : C < 7) (hR1 : -8 ≤ R) (hR2 : R ≤ 16) :
    condRowOnly g p (enc C) (enc R) = some (cellIs g p C R) := by
  have h := condBoth_enc g p C R (by omega) (by omega) hR1 hR2
  have e1 := enc_lt_iff C 7 (by omega) (by omega) (by omega)
  have hc : enc C < MAX_COLUMN := e1.2 ⟨hC1, by omega⟩
  unfold condBoth at h
  unfold condRowOnly
  by_cases hr : enc R < MAX_ROW
  · rw [if_pos hr]; rw [if_pos ⟨hc, hr⟩] at h; exact h
  · rw [if_neg hr]; rw [if_neg (fun hh => hr hh.2)] at h; exact h

theorem condColumnOnly_enc (g : Grid) (p : Player) (C R : Int)
    (hC1 : -8 ≤ C) (hC2 : C ≤ 16) (hR1 : 0 ≤ R) (hR2 : R < 6) :
    condColumnOnly g p (enc C) (enc R) = some (cellIs g p C R) := by
  have h := condBoth_enc g p C R hC1 hC2 (by omega) (by omega)
  have e2 := enc_lt_iff R 6 (by omega) (by omega) (by omega)
  have hr : enc R < MAX_ROW := e2.2 ⟨hR1, by omega⟩
  unfold condBoth at h
  unfold condColumnOnly
  by_cases hc : enc C < MAX_COLUMN
  · rw [if_pos hc]; rw [if_pos ⟨hc, hr⟩] at h; exact h
  · rw [if_neg hc]; rw [if_neg (fun hh => hc hh.1)] at h; exact h

/-- A scanning loop started on the `k`-th cell of a line with the length `score` found so far
returns `score` plus the number of further cells of the line that hold the player, capped at
`WIN_SCORE`; it never runs out of evaluations. -/
theorem scanLoop_eq (cond : Nat → Nat → Option Bool) (stepC stepR : Nat → Nat)
    (posC posR : Int → Int) (f : Int → Bool) (sg : Int)
    (hC : ∀ k, stepC (enc (posC k)) = enc (posC (k + sg)))
    (hR : ∀ k, stepR (enc (posR k)) = enc (posR (k + sg)))
    (hsg : sg = 1 ∨ sg = -1)
    (hcond : ∀ k : Int, -4 ≤ k → k ≤ 4 → cond (enc (posC k)) (enc (posR k)) = some (f k)) :
    ∀ (fuel : Nat) (k : Int) (score : Nat), score ≤ 4 → 4 - score < fuel →
      -(score : Int) ≤ k → k ≤ score →
      scanLoop cond stepC stepR fuel (enc (posC k)) (enc (posR k)) score
        = some (score + runLength f sg (4 - score) k) := by
  intro fuel
  induction fuel with
  | zero => intro k score _ h; omega
  | succ fuel ih =>
    intro k score hs hf hk1 hk2
    rw [scanLoop, hcond k (by omega) (by omega)]
    by_cases hlt : score < 4
    · obtain ⟨m, hm⟩ : ∃ m, 4 - score = m + 1 := ⟨3 - score, by omega⟩
      rw [hm, runLength]
      by_cases hfk : f k = true
      · simp only [hfk, WIN_SCORE, hlt, and_self, if_true]
        rw [hC, hR, ih (k + sg) (score + 1) (by omega) (by omega) (by omega) (by omega)]
        have : 4 - (score + 1) = m := by omega
        rw [this]
        congr 1; omega
      · simp [hfk]
    · have : 4 - score = 0 := by omega
      rw [this, runLength]
      simp [WIN_SCORE, hlt]

theorem twoSided_eq (cond : Nat → Nat → Option Bool) (fwdC fwdR bwdC bwdR : Nat → Nat)
    (dc dr : Int) (f : Int → Bool) (c r : Nat) (hc : c < 7) (hr : r < 6)
    (hfC : ∀ x, fwdC (enc x) = enc (x + dc)) (hfR : ∀ x, fwdR (enc x) = enc (x + dr))
    (hbC : ∀ x, bwdC (enc x) = enc (x + -dc)) (hbR : ∀ x, bwdR (enc x) = enc (x + -dr))
    (hcond : ∀ k : Int, -4 ≤ k → k ≤ 4 →
      cond (enc (c + k * dc)) (enc (r + k * dr)) = some (f k)) :
    ((scanLoop cond fwdC fwdR WIN_SCORE (fwdC c) (fwdR r) 1).bind fun score =>
      if score < WIN_SCORE then scanLoop cond bwdC bwdR WIN_SCORE (bwdC c) (bwdR r) score
      else some score) = some (biScan f) := by
  have ec : enc (c : Int) = c := enc_ofNat c (by omega)
  have er : enc (r : Int) = r := enc_ofNat r (by omega)
  have s1 : fwdC c = enc ((c : Int) + (1 : Int) * dc) := by
    conv_lhs => rw [← ec]
    rw [hfC]; simp
  have s2 : fwdR r = enc ((r : Int) + (1 : Int) * dr) := by
    conv_lhs => rw [← er]
    rw [hfR]; simp
  have s3 : bwdC c = enc ((c : Int) + (-1 : Int) * dc) := by
    conv_lhs => rw [← ec]
    rw [hbC]; simp
  have s4 : bwdR r = enc ((r : Int) + (-1 : Int) * dr) := by
    conv_lhs => rw [← er]
    rw [hbR]; simp
  have fwd := scanLoop_eq cond fwdC fwdR (fun k => (c : Int) + k * dc) (fun k => (r : Int) + k * dr)
    f 1 (fun k => by rw [hfC]; congr 1; ring) (fun k => by rw [hfR]; congr 1; ring) (Or.inl rfl)
    hcond 4 1 1 (by omega) (by omega) (by omega) (by omega)
  have bwd := fun score h1 h2 h3 =>
    scanLoop_eq cond bwdC bwdR (fun k => (c : Int) + k * dc) (fun k => (r : Int) + k * dr)
    f (-1) (fun k => by rw [hbC]; congr 1; ring) (fun k => by rw [hbR]; congr 1; ring) (Or.inr rfl)
    hcond 4 (-1) score h1 h2 (by omega) h3
  simp only at fwd bwd
  rw [s1, s2, s3, s4]
  simp only [WIN_SCORE]
  rw [fwd]
  simp only [Option.some_bind]
  unfold biScan
  simp only [WIN_SCORE]
  have h3 : 4 - 1 = 3 := rfl
  rw [h3]
  by_cases hlt : 1 + runLength f 1 3 1 < 4
  · rw [if_pos hlt, if_pos hlt, bwd _ (by omega) (by omega) (by omega)]
  · rw [if_neg hlt, if_neg hlt]

theorem scanRow_eq (s : ConnectFour) (p : Player) (hc : s.lastBoxColumn < 7)
    (hr : s.lastBoxRow < 6) :
    s.scanRow p = some (biScan (lineSample s.grid p s.lastBoxColumn s.lastBoxRow 1 0)) := by
  unfold scanRow
  apply twoSided_eq _ uadd1 id usub1 id 1 0 _ _ _ hc hr uadd1_enc (fun x => by simp) usub1_enc
    (fun x => by simp)
  intro k h1 h2
  unfold lineSample
  apply condColumnOnly_enc <;> omega

theorem scanDiagAsc_eq (s : ConnectFour) (p : Player) (hc : s.lastBoxColumn < 7)
    (hr : s.lastBoxRow < 6) :
    s.scanDiagAsc p = some (biScan (lineSample s.grid p s.lastBoxColumn s.lastBoxRow 1 (-1))) := by
  unfold scanDiagAsc
  apply twoSided_eq _ uadd1 usub1 usub1 uadd1 1 (-1) _ _ _ hc hr uadd1_enc usub1_enc usub1_enc
    (fun x => by rw [uadd1_enc]; simp)
  intro k h1 h2
  unfold lineSample
  apply condBoth_enc <;> omega

theorem scanDiagDesc_eq (s : ConnectFour) (p : Player) (hc : s.lastBoxColumn < 7)
    (hr : s.lastBoxRow < 6) :
    s.scanDiagDesc p = some (biScan (lineSample s.grid p s.lastBoxColumn s.lastBoxRow 1 1)) := by
  unfold scanDiagDesc
  apply twoSided_eq _ uadd1 uadd1 usub1 usub1 1 1 _ _ _ hc hr uadd1_enc uadd1_enc usub1_enc
    usub1_enc
  intro k h1 h2
  unfold lineSample
  apply condBoth_enc <;> omega

theorem scanColumn_eq (s : ConnectFour) (p : Player) (hc : s.lastBoxColumn < 7)
    (hr : s.lastBoxRow < 6) :
    s.scanColumn p = some (downScan (lineSample s.grid p s.lastBoxColumn s.lastBoxRow 0 1)) := by
  unfold scanColumn
  have ec : enc (s.lastBoxColumn : Int) = s.lastBoxColumn := enc_ofNat _ (by omega)
  have er : enc (s.lastBoxRow : Int) = s.lastBoxRow := enc_ofNat _ (by omega)
  have fwd := scanLoop_eq (condRowOnly s.grid p) id uadd1
    (fun k => (s.lastBoxColumn : Int) + k * 0) (fun k => (s.lastBoxRow : Int) + k * 1)
    (lineSample s.grid p s.lastBoxColumn s.lastBoxRow 0 1) 1
    (fun k => by simp) (fun k => by rw [uadd1_enc]; congr 1; ring) (Or.inl rfl)
    (fun k h1 h2 => by unfold lineSample; apply condRowOnly_enc <;> simp only <;> omega)
    4 1 1 (by omega) (by omega) (by omega) (by omega)
  simp only [mul_zero, add_zero, one_mul] at fwd
  rw [ec, ← uadd1_enc, er] at fwd
  simp only [WIN_SCORE]
  rw [fwd]
  rfl

/-! ## Columns -/

theorem column_cases (P : Column → Prop) (h : ∀ a b c d e f, P (mkColumn a b c d e f))
    (col : Column) : P col := by
  obtain ⟨l, hl⟩ := col
  match l, hl with
  | [a, b, c, d, e, f], _ => exact h a b c d e f

theorem countEmpty_le (col : Column) : countEmpty col ≤ 6 := by
  unfold countEmpty
  have := List.count_le_length Player.EMPTY col.toList
  simpa using this

set_option maxRecDepth 100000 in
theorem gravityColumn_iff_aux : ∀ a b c d e f : Player,
    gravityColumn (mkColumn a b c d e f) ↔
      ∀ r : Fin 6, (mkColumn a b c d e f).get r = Player.EMPTY
        ↔ r.val < countEmpty (mkColumn a b c d e f) := by
  decide

/-- Gravity in a column: the Empty cells are exactly the `countEmpty` topmost ones. -/
theorem gravityColumn_iff (col : Column) :
    gravityColumn col ↔ ∀ r : Fin 6, col.get r = Player.EMPTY ↔ r.val < countEmpty col :=
  column_cases (fun col => gravityColumn col ↔
    ∀ r : Fin 6, col.get r = Player.EMPTY ↔ r.val < countEmpty col) gravityColumn_iff_aux col

set_option maxRecDepth 100000 in
theorem column_play_aux : ∀ a b c d e f p : Player, p ≠ Player.EMPTY →
    (mkColumn a b c d e f).get 0 = Player.EMPTY →
    ∃ h : countEmpty (mkColumn a b c d e f) - 1 < 6,
      1 ≤ countEmpty (mkColumn a b c d e f) ∧
      ((∀ r : Fin 6, (mkColumn a b c d e f).get r = Player.EMPTY
          ↔ r.val < countEmpty (mkColumn a b c d e f)) →
        (mkColumn a b c d e f).get ⟨_, h⟩ = Player.EMPTY ∧
        (∀ r : Fin 6, ((mkColumn a b c d e f).set ⟨_, h⟩ p).get r = Player.EMPTY
          ↔ r.val < countEmpty ((mkColumn a b c d e f).set ⟨_, h⟩ p)) ∧
        countEmpty ((mkColumn a b c d e f).set ⟨_, h⟩ p) + 1 = countEmpty (mkColumn a b c d e f) ∧
        ((mkColumn a b c d e f).set ⟨_, h⟩ p).set ⟨_, h⟩ Player.EMPTY = mkColumn a b c d e f) ∧
      (¬ (∀ r : Fin 6, (mkColumn a b c d e f).get r = Player.EMPTY
          ↔ r.val < countEmpty (mkColumn a b c d e f)) →
        ¬ (∀ r : Fin 6, ((mkColumn a b c d e f).set ⟨_, h⟩ p).get r = Player.EMPTY
          ↔ r.val < countEmpty ((mkColumn a b c d e f).set ⟨_, h⟩ p))) := by
  decide

/-- Placement in a column whose top cell is Empty: the written row `countEmpty col - 1` is inside
the column; under gravity the cell was Empty, gravity is kept, one Empty cell is lost and clearing
the same row restores the column; a column without gravity stays without gravity. -/
theorem column_play (col : Column) (p : Player) (hp : p ≠ Player.EMPTY)
    (h0 : col.get 0 = Player.EMPTY) :
    ∃ h : countEmpty col - 1 < 6,
      1 ≤ countEmpty col ∧
      (gravityColumn col →
        col.get ⟨_, h⟩ = Player.EMPTY ∧
        gravityColumn (col.set ⟨_, h⟩ p) ∧
        countEmpty (col.set ⟨_, h⟩ p) + 1 = countEmpty col ∧
        (col.set ⟨_, h⟩ p).set ⟨_, h⟩ Player.EMPTY = col) ∧
      (¬ gravityColumn col → ¬ gravityColumn (col.set ⟨_, h⟩ p)) := by
  have key := column_cases (fun col => col.get 0 = Player.EMPTY →
    ∃ h : countEmpty col - 1 < 6,
      1 ≤ countEmpty col ∧
      ((∀ r : Fin 6, col.get r = Player.EMPTY ↔ r.val < countEmpty col) →
        col.get ⟨_, h⟩ = Player.EMPTY ∧
        (∀ r : Fin 6, (col.set ⟨_, h⟩ p).get r = Player.EMPTY
          ↔ r.val < countEmpty (col.set ⟨_, h⟩ p)) ∧
        countEmpty (col.set ⟨_, h⟩ p) + 1 = countEmpty col ∧
        (col.set ⟨_, h⟩ p).set ⟨_, h⟩ Player.EMPTY = col) ∧
      (¬ (∀ r : Fin 6, col.get r = Player.EMPTY ↔ r.val < countEmpty col) →
        ¬ (∀ r : Fin 6, (col.set ⟨_, h⟩ p).get r = Player.EMPTY
          ↔ r.val < countEmpty (col.set ⟨_, h⟩ p))))
    (fun a b c d e f => column_play_aux a b c d e f p hp) col h0
  obtain ⟨h, h1, h2, h3⟩ := key
  refine ⟨h, h1, ?_, ?_⟩
  · intro hg
    have := h2 ((gravityColumn_iff col).1 hg)
    exact ⟨this.1, (gravityColumn_iff _).2 this.2.1, this.2.2⟩
  · intro hg hg2
    exact h3 (fun hh => hg ((gravityColumn_iff col).2 hh)) ((gravityColumn_iff _).1 hg2)

set_option maxRecDepth 100000 in
theorem column_erase_aux : ∀ a b c d e f : Player,
    (¬ (∀ r : Fin 6, (mkColumn a b c d e f).get r = Player.EMPTY
          ↔ r.val < countEmpty (mkColumn a b c d e f)) →
      countEmpty (mkColumn a b c d e f) < 6) ∧
    ∀ h : countEmpty (mkColumn a b c d e f) < 6,
      ((∀ r : Fin 6, (mkColumn a b c d e f).get r = Player.EMPTY
          ↔ r.val < countEmpty (mkColumn a b c d e f)) ↔
        (∀ r : Fin 6, ((mkColumn a b c d e f).set ⟨_, h⟩ Player.EMPTY).get r = Player.EMPTY
          ↔ r.val < countEmpty ((mkColumn a b c d e f).set ⟨_, h⟩ Player.EMPTY))) ∧
      ((∀ r : Fin 6, (mkColumn a b c d e f).get r = Player.EMPTY
          ↔ r.val < countEmpty (mkColumn a b c d e f)) →
        countEmpty ((mkColumn a b c d e f).set ⟨_, h⟩ Player.EMPTY)
          = countEmpty (mkColumn a b c d e f) + 1) := by
  decide

/-- Clearing row `countEmpty col`: a column without gravity holds a piece, so the row is inside
the column; clearing keeps gravity and its absence, and under gravity frees one cell. -/
theorem column_erase (col : Column) :
    (¬ gravityColumn col → countEmpty col < 6) ∧
    ∀ h : countEmpty col < 6,
      (gravityColumn col ↔ gravityColumn (col.set ⟨_, h⟩ Player.EMPTY)) ∧
      (gravityColumn col → countEmpty (col.set ⟨_, h⟩ Player.EMPTY) = countEmpty col + 1) := by
  have key := column_cases (fun col =>
    (¬ (∀ r : Fin 6, col.get r = Player.EMPTY ↔ r.val < countEmpty col) →
      countEmpty col < 6) ∧
    ∀ h : countEmpty col < 6,
      ((∀ r : Fin 6, col.get r = Player.EMPTY ↔ r.val < countEmpty col) ↔
        (∀ r : Fin 6, (col.set ⟨_, h⟩ Player.EMPTY).get r = Player.EMPTY
          ↔ r.val < countEmpty (col.set ⟨_, h⟩ Player.EMPTY))) ∧
      ((∀ r : Fin 6, col.get r = Player.EMPTY ↔ r.val < countEmpty col) →
        countEmpty (col.set ⟨_, h⟩ Player.EMPTY) = countEmpty col + 1))
    column_erase_aux col
  refine ⟨fun hg => key.1 (fun hh => hg ((gravityColumn_iff col).2 hh)), fun h => ?_⟩
  have k2 := key.2 h
  rw [gravityColumn_iff, gravityColumn_iff]
  exact ⟨k2.1, k2.2⟩

/-! ## Cells of the grid -/

theorem get_setCell_same (g : Grid) (c : Fin 7) (r : Fin 6) (p : Player) :
    (setCell g c r p).get c = (g.get c).set r p := by
  unfold setCell; simp

theorem get_setCell_ne (g : Grid) (c c2 : Fin 7) (r : Fin 6) (p : Player) (h : c2 ≠ c) :
    (setCell g c r p).get c2 = g.get c2 := by
  unfold setCell
  rw [Mathlib.Vector.get_set_of_ne (Ne.symm h)]

theorem get_get_setCell (g : Grid) (c c2 : Fin 7) (r r2 : Fin 6) (p : Player) :
    ((setCell g c r p).get c2).get r2 = if c2 = c ∧ r2 = r then p else (g.get c2).get r2 := by
  by_cases hc : c2 = c
  · subst hc
    rw [get_setCell_same, Mathlib.Vector.get_set_eq_if]
    by_cases hr : r = r2
    · subst hr; simp
    · have : ¬ r2 = r := fun h => hr h.symm
      simp [hr, this]
  · rw [get_setCell_ne _ _ _ _ _ hc]; simp [hc]

theorem setCell_setCell (g : Grid) (c : Fin 7) (r : Fin 6) (p q : Player) :
    setCell (setCell g c r p) c r q = setCell g c r q := by
  apply Mathlib.Vector.ext; intro c2
  apply Mathlib.Vector.ext; intro r2
  simp only [get_get_setCell]
  split <;> rfl

theorem setCell_self (g : Grid) (c : Fin 7) (r : Fin 6) :
    setCell g c r ((g.get c).get r) = g := by
  apply Mathlib.Vector.ext; intro c2
  apply Mathlib.Vector.ext; intro r2
  simp only [get_get_setCell]
  split
  · rename_i h; rw [h.1, h.2]
  · rfl

/-! ## `recordScore` and the four `score*` functions -/

theorem recordScore_grid (s : ConnectFour) (p : Player) (n : Nat) :
    (s.recordScore p n).grid = s.grid := by
  unfold recordScore; split <;> rfl

theorem recordScore_lastBoxColumn (s : ConnectFour) (p : Player) (n : Nat) :
    (s.recordScore p n).lastBoxColumn = s.lastBoxColumn := by
  unfold recordScore; split <;> rfl

theorem recordScore_lastBoxRow (s : ConnectFour) (p : Player) (n : Nat) :
    (s.recordScore p n).lastBoxRow = s.lastBoxRow := by
  unfold recordScore; split <;> rfl

theorem recordScore_of_O (s : ConnectFour) (n : Nat) :
    s.recordScore Player.O n = { s with alignmentsO := alignmentsCount n s.alignmentsO } := by
  unfold recordScore; rw [if_pos rfl]

theorem recordScore_of_ne (s : ConnectFour) (p : Player) (n : Nat) (h : p ≠ Player.O) :
    s.recordScore p n = { s with alignmentsX := alignmentsCount n s.alignmentsX } := by
  unfold recordScore; rw [if_neg h]

theorem recordScore_O (s : ConnectFour) (p : Player) (n : Nat) :
    (s.recordScore p n).alignmentsO
      = if p = Player.O then alignmentsCount n s.alignmentsO else s.alignmentsO := by
  by_cases hp : p = Player.O
  · subst hp; rw [recordScore_of_O, if_pos rfl]
  · rw [recordScore_of_ne _ _ _ hp, if_neg hp]

theorem recordScore_X (s : ConnectFour) (p : Player) (n : Nat) :
    (s.recordScore p n).alignmentsX
      = if p = Player.O then s.alignmentsX else alignmentsCount n s.alignmentsX := by
  by_cases hp : p = Player.O
  · subst hp; rw [recordScore_of_O, if_pos rfl]
  · rw [recordScore_of_ne _ _ _ hp, if_neg hp]

theorem recordAll_four (a : Alignments) (n1 n2 n3 n4 : Nat) :
    recordAll a [n1, n2, n3, n4]
      = alignmentsCount n4 (alignmentsCount n3 (alignmentsCount n2 (alignmentsCount n1 a))) := by
  unfold recordAll
  rw [List.foldl_cons, List.foldl_cons, List.foldl_cons, List.foldl_cons, List.foldl_nil]

theorem recordScore4_O (s : ConnectFour) (p : Player) (n1 n2 n3 n4 : Nat) :
    ((((s.recordScore p n1).recordScore p n2).recordScore p n3).recordScore p n4).alignmentsO
      = if p = Player.O then recordAll s.alignmentsO [n1, n2, n3, n4] else s.alignmentsO := by
  rw [recordAll_four]
  by_cases hp : p = Player.O
  · rw [recordScore_O, recordScore_O, recordScore_O, recordScore_O]
    simp only [if_pos hp]
  · rw [recordScore_O, recordScore_O, recordScore_O, recordScore_O]
    simp only [if_neg hp]

theorem recordScore4_X (s : ConnectFour) (p : Player) (n1 n2 n3 n4 : Nat) :
    ((((s.recordScore p n1).recordScore p n2).recordScore p n3).recordScore p n4).alignmentsX
      = if p = Player.O then s.alignmentsX else recordAll s.alignmentsX [n1, n2, n3, n4] := by
  rw [recordAll_four]
  by_cases hp : p = Player.O
  · rw [recordScore_X, recordScore_X, recordScore_X, recordScore_X]
    simp only [if_pos hp]
  · rw [recordScore_X, recordScore_X, recordScore_X, recordScore_X]
    simp only [if_neg hp]

theorem ConnectFour.eq_of_fields (s t : ConnectFour) (h1 : s.grid = t.grid)
    (h2 : s.lastBoxColumn = t.lastBoxColumn) (h3 : s.lastBoxRow = t.lastBoxRow)
    (h4 : s.alignmentsO = t.alignmentsO) (h5 : s.alignmentsX = t.alignmentsX) : s = t := by
  cases s; cases t; simp only [ConnectFour.mk.injEq]; exact ⟨h1, h2, h3, h4, h5⟩

/-- The four scans and bucket updates that follow a placement in an in-range cell. -/
theorem scores_eq (s : ConnectFour) (p : Player) (hc : s.lastBoxColumn < 7)
    (hr : s.lastBoxRow < 6) :
    ((s.scoreColumn p).bind fun s1 => (s1.scoreDiagAsc p).bind fun s2 =>
      (s2.scoreDiagDesc p).bind fun s3 => s3.scoreRow p)
    = some ((((s.recordScore p
        (downScan (lineSample s.grid p s.lastBoxColumn s.lastBoxRow 0 1))).recordScore p
        (biScan (lineSample s.grid p s.lastBoxColumn s.lastBoxRow 1 (-1)))).recordScore p
        (biScan (lineSample s.grid p s.lastBoxColumn s.lastBoxRow 1 1))).recordScore p
        (biScan (lineSample s.grid p s.lastBoxColumn s.lastBoxRow 1 0))) := by
  unfold scoreColumn
  rw [scanColumn_eq s p hc hr]
  simp only [Option.map_some', Option.some_bind]
  unfold scoreDiagAsc
  rw [scanDiagAsc_eq _ p (by rw [recordScore_lastBoxColumn]; exact hc)
    (by rw [recordScore_lastBoxRow]; exact hr)]
  simp only [Option.map_some', Option.some_bind]
  unfold scoreDiagDesc
  rw [scanDiagDesc_eq _ p (by simp only [recordScore_lastBoxColumn]; exact hc)
    (by simp only [recordScore_lastBoxRow]; exact hr)]
  simp only [Option.map_some', Option.some_bind]
  unfold scoreRow
  rw [scanRow_eq _ p (by simp only [recordScore_lastBoxColumn]; exact hc)
    (by simp only [recordScore_lastBoxRow]; exact hr)]
  simp only [Option.map_some', recordScore_grid, recordScore_lastBoxColumn,
    recordScore_lastBoxRow]

theorem isValidMove_iff (s : ConnectFour) (c : Nat) :
    s.isValidMove c = true ↔ ∃ h : c < 7, (s.grid.get ⟨c, h⟩).get 0 = Player.EMPTY := by
  unfold isValidMove
  by_cases h : c < MAX_COLUMN
  · rw [dif_pos h]
    simp only [decide_eq_true_eq]
    exact ⟨fun hh => ⟨h, hh⟩, fun ⟨_, hh⟩ => hh⟩
  · rw [dif_neg h]
    simp only [Bool.false_eq_true, false_iff]
    rintro ⟨h2, _⟩
    exact h h2

theorem usub1_pos (n : Nat) (h1 : 1 ≤ n) (h2 : n ≤ 6) : usub1 n = n - 1 := by
  unfold usub1; omega

/-- What `playInColumn(c, p)` computes for `p` in `{X, O}` on a valid column: the piece goes to
row `countEmpty - 1` of the column, and the four scans update the buckets of `p`. -/
theorem playInColumn_eq (s : ConnectFour) (c : Nat) (p : Player) (hp : p ≠ Player.EMPTY)
    (hv : s.isValidMove c = true) :
    ∃ (hc : c < 7) (hk : countEmpty (s.grid.get ⟨c, hc⟩) - 1 < 6),
      s.playInColumn c p = some (placedState s ⟨c, hc⟩ ⟨_, hk⟩ p) := by
  obtain ⟨hc, h0⟩ := (isValidMove_iff s c).1 hv
  obtain ⟨hk, h1, -, -⟩ := column_play (s.grid.get ⟨c, hc⟩) p hp h0
  refine ⟨hc, hk, ?_⟩
  have hu := usub1_pos _ h1 (countEmpty_le (s.grid.get ⟨c, hc⟩))
  unfold playInColumn
  rw [dif_pos (show c < MAX_COLUMN from hc), if_neg hp]
  simp only
  rw [dif_pos (show usub1 (countEmpty (s.grid.get ⟨c, hc⟩)) < MAX_ROW by rw [hu]; exact hk)]
  have hmod : c % 4294967296 = c := Nat.mod_eq_of_lt (by omega)
  rw [scores_eq _ p (by simp only [hmod]; exact hc) (by simp only [hu]; exact hk)]
  refine congrArg some ?_
  apply ConnectFour.eq_of_fields
  · simp only [recordScore_grid, placedState, hu]
  · simp only [recordScore_lastBoxColumn, placedState, hmod]
  · simp only [recordScore_lastBoxRow, placedState, hu]
  · rw [recordScore4_O]
    simp only [placedState, hu, hmod, scanLengths]
  · rw [recordScore4_X]
    simp only [placedState, hu, hmod, scanLengths]

/-- What `eraseMove(c)` computes when row `countEmpty` is inside the column. -/
theorem eraseMove_eq (s : ConnectFour) (c : Nat) (hc : c < 7)
    (hk : countEmpty (s.grid.get ⟨c, hc⟩) < 6) :
    s.eraseMove c = some { s with grid := setCell s.grid ⟨c, hc⟩ ⟨_, hk⟩ Player.EMPTY } := by
  unfold eraseMove playInColumn
  rw [dif_pos (show c < MAX_COLUMN from hc), if_pos rfl]
  simp only
  rw [dif_pos (show countEmpty (s.grid.get ⟨c, hc⟩) < MAX_ROW from hk)]

/-! ## Frame of the search: grid and buckets -/

theorem colsRel_refl (g : Grid) : ColsRel g g :=
  fun _ => ⟨fun _ => rfl, fun h => h⟩

theorem colsRel_eq_of_gravity {g g2 : Grid} (h : ColsRel g g2) (hg : Gravity g) : g2 = g := by
  apply Mathlib.Vector.ext
  intro c
  exact (h c).1 (hg c)

theorem colsRel_trans {g g2 g3 : Grid} (h1 : ColsRel g g2) (h2 : ColsRel g2 g3) :
    ColsRel g g3 := by
  intro c
  constructor
  · intro hg
    have e := (h1 c).1 hg
    rw [(h2 c).1 (by rw [e]; exact hg), e]
  · intro hg
    exact (h2 c).2 ((h1 c).2 hg)

/-- A placement followed by any exploration that respects `ColsRel` can be erased, and the
erasure brings the grid back in relation with the grid before the placement. -/
theorem play_erase_cols (g g2 : Grid) (c : Fin 7) (p : Player) (hp : p ≠ Player.EMPTY)
    (h0 : (g.get c).get 0 = Player.EMPTY) (hk : countEmpty (g.get c) - 1 < 6)
    (h : ColsRel (setCell g c ⟨_, hk⟩ p) g2) :
    ∃ hk2 : countEmpty (g2.get c) < 6, ColsRel g (setCell g2 c ⟨_, hk2⟩ Player.EMPTY) := by
  obtain ⟨hk', h1, hgrav, hnot⟩ := column_play (g.get c) p hp h0
  have hc := h c
  rw [get_setCell_same] at hc
  have hk2 : countEmpty (g2.get c) < 6 := by
    by_cases hg : gravityColumn (g.get c)
    · obtain ⟨-, hg1, hcnt, -⟩ := hgrav hg
      rw [hc.1 hg1]; omega
    · exact (column_erase _).1 (hc.2 (hnot hg))
  refine ⟨hk2, ?_⟩
  intro c2
  by_cases hcc : c2 = c
  · subst hcc
    rw [get_setCell_same]
    constructor
    · intro hg
      obtain ⟨-, hg1, hcnt, hback⟩ := hgrav hg
      have e := hc.1 hg1
      have e2 : (⟨countEmpty (g2.get c2), hk2⟩ : Fin 6) = ⟨countEmpty (g.get c2) - 1, hk⟩ := by
        apply Fin.ext
        simp only [e]
        omega
      rw [e2, e]
      exact hback
    · intro hg
      have := hc.2 (hnot hg)
      exact fun hh => this (((column_erase _).2 hk2).1.2 hh)
  · rw [get_setCell_ne _ _ _ _ _ hcc]
    have := h c2
    rw [get_setCell_ne _ _ _ _ _ hcc] at this
    exact this

/-- One iteration of the search loop on a valid column, given the results of the placement, of
the recursive call and of the erasure. -/
theorem searchLoop_step (child : ConnectFour → Nat → Int → Int → Option Outcome)
    (p : Player) (beta : Int) (pO pX : Alignments) (column : Nat) (rest : List Nat) (f : Frame)
    (played erased : ConnectFour) (sub : Outcome)
    (hv : f.game.isValidMove column = true)
    (hplay : f.game.playInColumn column p = some played)
    (hchild : child played f.rng (wrapInt (-beta)) (wrapInt (-f.alpha)) = some sub)
    (herase : sub.game.eraseMove column = some erased) :
    searchLoop child p beta pO pX (column :: rest) f =
      if breaksLoop f (wrapInt (-sub.score)) beta then
        some (stepFrame f (restoredState erased pO pX) sub.rng (wrapInt (-sub.score)) column)
      else
        searchLoop child p beta pO pX rest
          (stepFrame f (restoredState erased pO pX) sub.rng (wrapInt (-sub.score)) column) := by
  rw [searchLoop, if_pos hv, hplay]
  simp only [Option.some_bind]
  rw [hchild]
  simp only [Option.some_bind]
  rw [herase]
  simp only [Option.some_bind]
  unfold breaksLoop stepFrame restoredState
  by_cases h1 : wrapInt (-sub.score) > f.alpha
  · by_cases h2 : wrapInt (-sub.score) > f.bestScore
    · by_cases h3 : wrapInt (-sub.score) > beta
      · simp only [h1, h2, h3, if_true, and_self]
      · simp only [h1, h2, h3, if_true, if_false, and_false]
    · by_cases h3 : f.bestScore > beta
      · simp only [h1, h2, h3, if_true, if_false, and_self]
      · simp only [h1, h2, h3, if_true, if_false, and_false]
  · by_cases h2 : wrapInt (-sub.score) > f.bestScore
    · simp only [h1, h2, if_true, if_false, false_and]
    · simp only [h1, h2, if_false, false_and]

theorem searchLoop_skip (child : ConnectFour → Nat → Int → Int → Option Outcome)
    (p : Player) (beta : Int) (pO pX : Alignments) (column : Nat) (rest : List Nat) (f : Frame)
    (hv : ¬ f.game.isValidMove column = true) :
    searchLoop child p beta pO pX (column :: rest) f = searchLoop child p beta pO pX rest f := by
  rw [searchLoop, if_neg hv]

/-- The `for` loop of `alphabeta` always runs to its end or to the pruning `break`; it leaves
the saved buckets in the object, keeps the grid in relation with the grid it started from and
assigns only column numbers below 7 to `bestColumn`. -/
theorem searchLoop_frame (child : ConnectFour → Nat → Int → Int → Option Outcome)
    (p : Player) (hp : p ≠ Player.EMPTY) (beta : Int) (pO pX : Alignments)
    (hchild : ∀ g r a b, ∃ out, child g r a b = some out ∧
      out.game.alignmentsO = g.alignmentsO ∧ out.game.alignmentsX = g.alignmentsX ∧
      ColsRel g.grid out.game.grid) :
    ∀ (cols : List Nat) (f : Frame), f.game.alignmentsO = pO → f.game.alignmentsX = pX →
      (∀ c, f.bestColumn = some c → c < 7) →
      ∃ f2, searchLoop child p beta pO pX cols f = some f2 ∧
        f2.game.alignmentsO = pO ∧ f2.game.alignmentsX = pX ∧
        ColsRel f.game.grid f2.game.grid ∧ (∀ c, f2.bestColumn = some c → c < 7) := by
  intro cols
  induction cols with
  | nil =>
    intro f hO hX hb
    exact ⟨f, rfl, hO, hX, colsRel_refl _, hb⟩
  | cons column rest ih =>
    intro f hO hX hb
    by_cases hv : f.game.isValidMove column = true
    · obtain ⟨hc, hk, hplay⟩ := playInColumn_eq f.game column p hp hv
      obtain ⟨_, h0⟩ := (isValidMove_iff f.game column).1 hv
      obtain ⟨out, hout, -, -, hrel⟩ := hchild (placedState f.game ⟨column, hc⟩ ⟨_, hk⟩ p)
        f.rng (wrapInt (-beta)) (wrapInt (-f.alpha))
      obtain ⟨hk2, hrel2⟩ := play_erase_cols f.game.grid out.game.grid ⟨column, hc⟩ p hp h0 hk hrel
      rw [searchLoop_step child p beta pO pX column rest f _ _ out hv hplay hout
        (eraseMove_eq out.game column hc hk2)]
      have hb2 : ∀ g r c, (stepFrame f g r (wrapInt (-out.score)) column).bestColumn = some c →
          c < 7 := by
        intro g r c
        unfold stepFrame
        simp only
        split
        · intro h; cases h; exact hc
        · split
          · intro h; cases h; exact hc
          · exact hb c
      split
      · exact ⟨_, rfl, rfl, rfl, hrel2, hb2 _ _⟩
      · obtain ⟨f2, h1, h2, h3, h4, h5⟩ := ih (stepFrame f (restoredState
          { out.game with grid := setCell out.game.grid ⟨column, hc⟩ ⟨_, hk2⟩ Player.EMPTY }
          pO pX) out.rng (wrapInt (-out.score)) column) rfl rfl (hb2 _ _)
        exact ⟨f2, h1, h2, h3, colsRel_trans hrel2 h4, h5⟩
    · rw [searchLoop_skip _ _ _ _ _ _ _ _ hv]
      exact ih f hO hX hb

theorem neg_ne_EMPTY (p : Player) (hp : p ≠ Player.EMPTY) : p.neg ≠ Player.EMPTY := by
  cases p <;> simp_all [Player.neg]

theorem alphabeta_zero (shuffle : Nat → List Nat) (s : ConnectFour) (rng : Nat)
    (alpha beta : Int) (p : Player) :
    alphabeta shuffle 0 s rng alpha beta p =
      if s.isWinner p.neg then some ⟨s, rng, wrapInt (-100 * wrapInt (uadd1 0)), none⟩
      else some ⟨s, rng, s.nodeValue p, none⟩ := by
  rw [alphabeta]

theorem alphabeta_succ (shuffle : Nat → List Nat) (d : Nat) (s : ConnectFour) (rng : Nat)
    (alpha beta : Int) (p : Player) :
    alphabeta shuffle (d + 1) s rng alpha beta p =
      if s.isWinner p.neg then some ⟨s, rng, wrapInt (-100 * wrapInt (uadd1 (d + 1))), none⟩
      else if s.isGameOver then some ⟨s, rng, 0, none⟩
      else
        (searchLoop (fun g r a b => alphabeta shuffle d g r a b p.neg) p beta
          s.alignmentsO s.alignmentsX (shuffle rng) ⟨s, rng + 1, -INT_MAX, none, alpha⟩).map
        fun f => ⟨f.game, f.rng, f.bestScore, f.bestColumn⟩ := by
  rw [alphabeta]

/-- Every `alphabeta` call returns, with the buckets it was called with, a grid in relation with
the grid it was called with, and a column number below 7 in `bestColumn` if it assigned one. -/
theorem alphabeta_frame (shuffle : Nat → List Nat) :
    ∀ (d : Nat) (s : ConnectFour) (rng : Nat) (alpha beta : Int) (p : Player),
      p ≠ Player.EMPTY →
      ∃ out, alphabeta shuffle d s rng alpha beta p = some out ∧
        out.game.alignmentsO = s.alignmentsO ∧ out.game.alignmentsX = s.alignmentsX ∧
        ColsRel s.grid out.game.grid ∧ (∀ c, out.bestColumn = some c → c < 7) := by
  intro d
  induction d with
  | zero =>
    intro s rng alpha beta p _
    rw [alphabeta_zero]
    split
    · exact ⟨_, rfl, rfl, rfl, colsRel_refl _, fun c h => by cases h⟩
    · exact ⟨_, rfl, rfl, rfl, colsRel_refl _, fun c h => by cases h⟩
  | succ d ih =>
    intro s rng alpha beta p hp
    rw [alphabeta_succ]
    split
    · exact ⟨_, rfl, rfl, rfl, colsRel_refl _, fun c h => by cases h⟩
    · split
      · exact ⟨_, rfl, rfl, rfl, colsRel_refl _, fun c h => by cases h⟩
      · obtain ⟨f2, h1, h2, h3, h4, h5⟩ := searchLoop_frame
          (fun g r a b => alphabeta shuffle d g r a b p.neg) p hp beta s.alignmentsO
          s.alignmentsX
          (fun g r a b => by
            obtain ⟨out, e1, e2, e3, e4, -⟩ := ih g r a b p.neg (neg_ne_EMPTY p hp)
            exact ⟨out, e1, e2, e3, e4⟩)
          (shuffle rng) ⟨s, rng + 1, -INT_MAX, none, alpha⟩ rfl rfl (fun c h => by cases h)
        rw [h1]
        exact ⟨_, rfl, h2, h3, h4, h5⟩

theorem chooseNextMove_eq (shuffle : Nat → List Nat) (s : ConnectFour) (rng : Nat) (p : Player)
    (depth : Nat) :
    chooseNextMove shuffle s rng p depth =
      if (s.grid.get 3).get 5 = Player.EMPTY then some (s, rng, 3)
      else (alphabeta shuffle depth s rng (-INT_MAX) INT_MAX p).map fun out =>
        (out.game, out.rng, out.bestColumn.getD 3) := by
  rfl

/-! ## Claims on the frame of the search, the round trip and the evaluator -/

/-- C3: on a gravity-respecting state, for a player in {X, O}, any depth and any shuffles,
`chooseNextMove` returns with the grid and both bucket arrays equal to their values before the
call, and so does every `alphabeta` call, whatever its window (pruning included). -/
theorem chooseNextMove_restores_state (shuffle : Nat → List Nat) (s : ConnectFour) (rng : Nat)
    (p : Player) (depth : Nat) (hg : Gravity s.grid) (hp : p ≠ Player.EMPTY) :
    (∃ t rng2 c, chooseNextMove shuffle s rng p depth = some (t, rng2, c) ∧
      t.grid = s.grid ∧ t.alignmentsO = s.alignmentsO ∧ t.alignmentsX = s.alignmentsX) ∧
    (∀ alpha beta : Int, ∃ out, alphabeta shuffle depth s rng alpha beta p = some out ∧
      out.game.grid = s.grid ∧ out.game.alignmentsO = s.alignmentsO ∧
      out.game.alignmentsX = s.alignmentsX) := by
  have key : ∀ alpha beta : Int, ∃ out, alphabeta shuffle depth s rng alpha beta p = some out ∧
      out.game.grid = s.grid ∧ out.game.alignmentsO = s.alignmentsO ∧
      out.game.alignmentsX = s.alignmentsX := by
    intro alpha beta
    obtain ⟨out, h1, h2, h3, h4, -⟩ := alphabeta_frame shuffle depth s rng alpha beta p hp
    exact ⟨out, h1, colsRel_eq_of_gravity h4 hg, h2, h3⟩
  refine ⟨?_, key⟩
  rw [chooseNextMove_eq]
  split
  · exact ⟨s, rng, 3, rfl, rfl, rfl, rfl⟩
  · obtain ⟨out, h1, h2, h3, h4⟩ := key (-INT_MAX) INT_MAX
    rw [h1]
    exact ⟨out.game, out.rng, _, rfl, h2, h3, h4⟩

theorem chooseNextMove_restores_state_witness :
    Gravity centerFull.grid ∧ Player.X ≠ Player.EMPTY ∧
    ((∃ t rng2 c, chooseNextMove baseShuffle centerFull 0 Player.X 2 = some (t, rng2, c) ∧
      t.grid = centerFull.grid ∧ t.alignmentsO = centerFull.alignmentsO ∧
      t.alignmentsX = centerFull.alignmentsX) ∧
    (∀ alpha beta : Int, ∃ out, alphabeta baseShuffle 2 centerFull 0 alpha beta Player.X = some out ∧
      out.game.grid = centerFull.grid ∧ out.game.alignmentsO = centerFull.alignmentsO ∧
      out.game.alignmentsX = centerFull.alignmentsX)) :=
  ⟨by decide, by decide,
    chooseNextMove_restores_state baseShuffle centerFull 0 Player.X 2 (by decide) (by decide)⟩

/-- C5: in every state, for a player in {X, O}, any depth and any shuffles, `chooseNextMove`
returns, and the column it returns is between 0 and 6. -/
theorem chooseNextMove_column_in_range (shuffle : Nat → List Nat) (s : ConnectFour) (rng : Nat)
    (p : Player) (depth : Nat) (hp : p ≠ Player.EMPTY) :
    ∃ t rng2 c, chooseNextMove shuffle s rng p depth = some (t, rng2, c) ∧ c ≤ 6 := by
  rw [chooseNextMove_eq]
  split
  · exact ⟨s, rng, 3, rfl, by omega⟩
  · obtain ⟨out, h1, -, -, -, h5⟩ := alphabeta_frame shuffle depth s rng (-INT_MAX) INT_MAX p hp
    rw [h1]
    refine ⟨out.game, out.rng, _, rfl, ?_⟩
    cases hb : out.bestColumn with
    | none => simp
    | some c => have := h5 c hb; simp only [Option.getD_some]; omega

theorem chooseNextMove_column_in_range_witness :
    Player.O ≠ Player.EMPTY ∧
    ∃ t rng2 c, chooseNextMove baseShuffle centerFull 0 Player.O 3 = some (t, rng2, c) ∧ c ≤ 6 :=
  ⟨by decide, chooseNextMove_column_in_range baseShuffle centerFull 0 Player.O 3 (by decide)⟩

/-- C6: when the bottom cell of the center column (column 3, row 5) is Empty, `chooseNextMove`
returns 3 for every player, depth and shuffles, and the object (and the shuffle counter) is
untouched. -/
theorem chooseNextMove_center (shuffle : Nat → List Nat) (s : ConnectFour) (rng : Nat)
    (p : Player) (depth : Nat) (h : (s.grid.get 3).get 5 = Player.EMPTY) :
    chooseNextMove shuffle s rng p depth = some (s, rng, 3) := by
  rw [chooseNextMove_eq, if_pos h]

theorem chooseNextMove_center_witness :
    (emptyBoard.grid.get 3).get 5 = Player.EMPTY ∧
    chooseNextMove baseShuffle emptyBoard 0 Player.X 5 = some (emptyBoard, 0, 3) :=
  ⟨by decide, chooseNextMove_center baseShuffle emptyBoard 0 Player.X 5 (by decide)⟩

/-- C9: on a gravity-respecting state, for a valid column `c` and a player in {X, O},
`playInColumn(c, p)` followed by `eraseMove(c)` gives back the grid cell for cell. -/
theorem play_erase_grid (s : ConnectFour) (c : Nat) (p : Player) (hg : Gravity s.grid)
    (hv : s.isValidMove c = true) (hp : p ≠ Player.EMPTY) :
    ∃ s1 s2, s.playInColumn c p = some s1 ∧ s1.eraseMove c = some s2 ∧ s2.grid = s.grid := by
  obtain ⟨hc, hk, hplay⟩ := playInColumn_eq s c p hp hv
  obtain ⟨_, h0⟩ := (isValidMove_iff s c).1 hv
  obtain ⟨hk2, hrel⟩ := play_erase_cols s.grid (placedState s ⟨c, hc⟩ ⟨_, hk⟩ p).grid ⟨c, hc⟩ p hp
    h0 hk (colsRel_refl _)
  exact ⟨_, _, hplay, eraseMove_eq _ c hc hk2, colsRel_eq_of_gravity hrel hg⟩

theorem play_erase_grid_witness :
    Gravity centerFull.grid ∧ centerFull.isValidMove 2 = true ∧ Player.X ≠ Player.EMPTY ∧
    ∃ s1 s2, centerFull.playInColumn 2 Player.X = some s1 ∧ s1.eraseMove 2 = some s2 ∧
      s2.grid = centerFull.grid :=
  ⟨by decide, by decide, by decide,
    play_erase_grid centerFull 2 Player.X (by decide) (by decide) (by decide)⟩

theorem wrapInt_of_range (x : Int) (h1 : -2147483648 ≤ x) (h2 : x ≤ 2147483647) :
    wrapInt x = x := by
  unfold wrapInt; omega

theorem weighted_eq (a : Alignments) (h : weightedSum a ≤ INT_MAX) :
    weighted a = weightedSum a := by
  unfold weightedSum INT_MAX at h
  unfold weighted weightedSum
  rw [wrapInt_of_range (a.get 0 : Int) (by omega) (by omega),
    wrapInt_of_range (a.get 1 : Int) (by omega) (by omega),
    wrapInt_of_range (a.get 2 : Int) (by omega) (by omega), wrapInt_of_range _ (by omega) (by omega)]
  ring

/-- Without overflow `nodeValue(p)` is the weighted sum of `p` minus that of the opponent. -/
theorem nodeValue_of_fit (s : ConnectFour) (hX : weightedSum s.alignmentsX ≤ INT_MAX)
    (hO : weightedSum s.alignmentsO ≤ INT_MAX) :
    s.nodeValue Player.X = weightedSum s.alignmentsX - weightedSum s.alignmentsO ∧
    s.nodeValue Player.O = weightedSum s.alignmentsO - weightedSum s.alignmentsX := by
  have e1 := weighted_eq _ hX
  have e2 := weighted_eq _ hO
  have p1 : (0 : Int) ≤ weightedSum s.alignmentsX := by unfold weightedSum; omega
  have p2 : (0 : Int) ≤ weightedSum s.alignmentsO := by unfold weightedSum; omega
  unfold INT_MAX at hX hO
  constructor
  · unfold nodeValue
    rw [if_neg (by decide), e1, e2, wrapInt_of_range _ (by omega) (by omega)]
  · unfold nodeValue
    rw [if_pos rfl, e1, e2, wrapInt_of_range _ (by omega) (by omega)]

/-- C10: when both weighted bucket sums fit in `int`, `nodeValue(p)` is the weighted sum of `p`
minus the weighted sum of the opponent, for `p = X` and `p = O`, so `nodeValue(X) = -nodeValue(O)`. -/
theorem nodeValue_zero_sum (s : ConnectFour) (hX : weightedSum s.alignmentsX ≤ INT_MAX)
    (hO : weightedSum s.alignmentsO ≤ INT_MAX) :
    s.nodeValue Player.X = weightedSum s.alignmentsX - weightedSum s.alignmentsO ∧
    s.nodeValue Player.O = weightedSum s.alignmentsO - weightedSum s.alignmentsX ∧
    s.nodeValue Player.X = - s.nodeValue Player.O := by
  obtain ⟨a1, a2⟩ := nodeValue_of_fit s hX hO
  refine ⟨a1, a2, ?_⟩
  rw [a1, a2]; ring

theorem nodeValue_zero_sum_witness :
    weightedSum wonByO.alignmentsX ≤ INT_MAX ∧ weightedSum wonByO.alignmentsO ≤ INT_MAX ∧
    (wonByO.nodeValue Player.X
        = weightedSum wonByO.alignmentsX - weightedSum wonByO.alignmentsO ∧
      wonByO.nodeValue Player.O
        = weightedSum wonByO.alignmentsO - weightedSum wonByO.alignmentsX ∧
      wonByO.nodeValue Player.X = - wonByO.nodeValue Player.O) ∧
    wonByO.alignmentsX = ⟨[2, 1, 0], rfl⟩ ∧ wonByO.alignmentsO = ⟨[0, 0, 1], rfl⟩ ∧
    weightedSum wonByO.alignmentsX = 12 ∧ weightedSum wonByO.alignmentsO = 100 ∧
    wonByO.nodeValue Player.X = -88 ∧ wonByO.nodeValue Player.O = 88 :=
  ⟨by decide, by decide, nodeValue_zero_sum wonByO (by decide) (by decide),
    by decide, by decide, by decide, by decide, by decide, by decide⟩

/-! ## Scans and alignments of four -/

theorem runLength_three (f : Int → Bool) (sg k : Int) :
    runLength f sg 3 k =
      if f k then 1 + (if f (k + sg) then 1 + (if f (k + sg + sg) then 1 else 0) else 0) else 0 := by
  simp only [runLength, Nat.add_zero]

theorem runLength_two (f : Int → Bool) (sg k : Int) :
    runLength f sg 2 k = if f k then 1 + (if f (k + sg) then 1 else 0) else 0 := by
  simp only [runLength, Nat.add_zero]

theorem runLength_one (f : Int → Bool) (sg k : Int) :
    runLength f sg 1 k = if f k then 1 else 0 := by
  simp only [runLength, Nat.add_zero]

theorem fourAt_iff (f : Int → Bool) :
    (fourAt f 0 ↔ (f 0 = true ∧ f 1 = true ∧ f 2 = true ∧ f 3 = true)) ∧
    (fourAt f (-1) ↔ (f (-1) = true ∧ f 0 = true ∧ f 1 = true ∧ f 2 = true)) ∧
    (fourAt f (-2) ↔ (f (-2) = true ∧ f (-1) = true ∧ f 0 = true ∧ f 1 = true)) ∧
    (fourAt f (-3) ↔ (f (-3) = true ∧ f (-2) = true ∧ f (-1) = true ∧ f 0 = true)) := by
  unfold fourAt
  norm_num

/-- The two-sided scan finds `WIN_SCORE` exactly when four consecutive cells of the line, the
scanned cell among them, hold the player. -/
theorem biScan_eq_four (f : Int → Bool) (h0 : f 0 = true) :
    biScan f = 4 ↔ fourAt f 0 ∨ fourAt f (-1) ∨ fourAt f (-2) ∨ fourAt f (-3) := by
  have fw : runLength f 1 3 1 =
      if f 1 then 1 + (if f 2 then 1 + (if f 3 then 1 else 0) else 0) else 0 := by
    rw [runLength_three]; norm_num
  have bw3 : runLength f (-1) 3 (-1) =
      if f (-1) then 1 + (if f (-2) then 1 + (if f (-3) then 1 else 0) else 0) else 0 := by
    rw [runLength_three]; norm_num
  have bw2 : runLength f (-1) 2 (-1) = if f (-1) then 1 + (if f (-2) then 1 else 0) else 0 := by
    rw [runLength_two]; norm_num
  have bw1 : runLength f (-1) 1 (-1) = if f (-1) then 1 else 0 := by
    rw [runLength_one]
  obtain ⟨q0, q1, q2, q3⟩ := fourAt_iff f
  rw [q0, q1, q2, q3]
  unfold biScan
  rw [fw]
  cases h1 : f 1 <;> cases h2 : f 2 <;> cases h3 : f 3 <;>
    cases h4 : f (-1) <;> cases h5 : f (-2) <;> cases h6 : f (-3) <;>
    simp [WIN_SCORE, h0, bw3, bw2, bw1, h4, h5, h6]

/-- The one-sided scan finds `WIN_SCORE` exactly when the scanned cell and the three cells after
it hold the player. -/
theorem downScan_eq_four (f : Int → Bool) (h0 : f 0 = true) :
    downScan f = 4 ↔ fourAt f 0 := by
  have fw : runLength f 1 3 1 =
      if f 1 then 1 + (if f 2 then 1 + (if f 3 then 1 else 0) else 0) else 0 := by
    rw [runLength_three]; norm_num
  rw [(fourAt_iff f).1]
  unfold downScan
  rw [fw]
  cases h1 : f 1 <;> cases h2 : f 2 <;> cases h3 : f 3 <;> simp [h0]

theorem runLength_le (f : Int → Bool) (sg : Int) :
    ∀ (n : Nat) (k : Int), runLength f sg n k ≤ n := by
  intro n
  induction n with
  | zero => intro k; simp [runLength]
  | succ n ih =>
    intro k
    rw [runLength]
    split
    · have := ih (k + sg); omega
    · omega

theorem biScan_le (f : Int → Bool) : biScan f ≤ 4 := by
  unfold biScan
  simp only [WIN_SCORE]
  have h1 := runLength_le f 1 3 1
  split
  · have h2 := runLength_le f (-1) (4 - (1 + runLength f 1 3 1)) (-1)
    omega
  · omega

theorem downScan_le (f : Int → Bool) : downScan f ≤ 4 := by
  unfold downScan
  have h1 := runLength_le f 1 3 1
  omega

/-! ## Bucket updates -/

theorem alignmentsCount_small (n : Nat) (a : Alignments) (h : n < 2) : alignmentsCount n a = a := by
  unfold alignmentsCount
  simp only
  rw [dif_pos (by omega)]

theorem alignmentsCount_two (a : Alignments) :
    alignmentsCount 2 a = a.set 0 (uadd1 (a.get 0)) := by
  unfold alignmentsCount
  simp only
  rw [dif_neg (by omega), dif_neg (by omega)]
  rfl

theorem alignmentsCount_three (a : Alignments) :
    alignmentsCount 3 a =
      (if a.get 0 ≠ 0 then a.set 0 (a.get 0 - 1) else a).set 1
        (uadd1 ((if a.get 0 ≠ 0 then a.set 0 (a.get 0 - 1) else a).get 1)) := by
  unfold alignmentsCount
  simp only
  rw [dif_neg (by omega), dif_pos (by omega)]
  rfl

theorem alignmentsCount_four (a : Alignments) :
    alignmentsCount 4 a =
      (if a.get 1 ≠ 0 then a.set 1 (a.get 1 - 1) else a).set 2
        (uadd1 ((if a.get 1 ≠ 0 then a.set 1 (a.get 1 - 1) else a).get 2)) := by
  unfold alignmentsCount
  simp only
  rw [dif_neg (by omega), dif_pos (by omega)]
  rfl

theorem uadd1_le (x : Nat) : uadd1 x ≤ x + 1 := by
  unfold uadd1; omega

theorem uadd1_of_lt (x : Nat) (h : x < 4294967295) : uadd1 x = x + 1 := by
  unfold uadd1; omega

theorem get_ite_set (a : Alignments) (i j : Fin 3) (h : i ≠ j) (v : Nat) (c : Prop)
    [Decidable c] : (if c then a.set i v else a).get j = a.get j := by
  split
  · rw [Mathlib.Vector.get_set_of_ne h]
  · rfl

/-- The length-4 bucket changes only for a scan of length 4, which increments it. -/
theorem alignmentsCount_get_two (n : Nat) (a : Alignments) (hn : n ≤ 4) :
    (alignmentsCount n a).get 2 = if n = 4 then uadd1 (a.get 2) else a.get 2 := by
  interval_cases n
  · rw [alignmentsCount_small _ _ (by omega)]; rfl
  · rw [alignmentsCount_small _ _ (by omega)]; rfl
  · rw [alignmentsCount_two, Mathlib.Vector.get_set_of_ne (by decide)]; rfl
  · rw [alignmentsCount_three, Mathlib.Vector.get_set_of_ne (by decide),
      get_ite_set _ _ _ (by decide)]; rfl
  · rw [alignmentsCount_four, Mathlib.Vector.get_set_same, get_ite_set _ _ _ (by decide)]; rfl

/-- A bucket update raises no bucket by more than one. -/
theorem alignmentsCount_get_le (n : Nat) (a : Alignments) (hn : n ≤ 4) (i : Fin 3) :
    (alignmentsCount n a).get i ≤ a.get i + 1 := by
  have key : ∀ (b : Alignments) (j : Fin 3), (∀ k, b.get k ≤ a.get k) →
      (b.set j (uadd1 (b.get j))).get i ≤ a.get i + 1 := by
    intro b j hb
    rw [Mathlib.Vector.get_set_eq_if]
    split
    · rename_i h; subst h; have := uadd1_le (b.get j); have := hb j; omega
    · have := hb i; omega
  have dec : ∀ (j k : Fin 3), (if a.get j ≠ 0 then a.set j (a.get j - 1) else a).get k ≤ a.get k := by
    intro j k
    split
    · rw [Mathlib.Vector.get_set_eq_if]
      split
      · rename_i h; subst h; omega
      · exact Nat.le_refl _
    · exact Nat.le_refl _
  interval_cases n
  · rw [alignmentsCount_small _ _ (by omega)]; omega
  · rw [alignmentsCount_small _ _ (by omega)]; omega
  · rw [alignmentsCount_two]; exact key a 0 (fun _ => Nat.le_refl _)
  · rw [alignmentsCount_three]; exact key _ 1 (dec 0)
  · rw [alignmentsCount_four]; exact key _ 2 (dec 1)

theorem recordAll_nil (a : Alignments) : recordAll a [] = a := rfl

theorem recordAll_cons (a : Alignments) (n : Nat) (l : List Nat) :
    recordAll a (n :: l) = recordAll (alignmentsCount n a) l := by
  unfold recordAll; rw [List.foldl_cons]

theorem recordAll_get_le (l : List Nat) : ∀ (a : Alignments), (∀ n ∈ l, n ≤ 4) → ∀ i : Fin 3,
    (recordAll a l).get i ≤ a.get i + l.length := by
  induction l with
  | nil => intro a _ i; rw [recordAll_nil]; simp
  | cons n l ih =>
    intro a h i
    rw [recordAll_cons]
    have h1 := ih (alignmentsCount n a) (fun m hm => h m (List.mem_cons_of_mem _ hm)) i
    have h2 := alignmentsCount_get_le n a (h n (List.mem_cons_self _ _)) i
    simp only [List.length_cons]
    omega

/-- After a list of scans the length-4 bucket is nonzero exactly when it was nonzero before or
one of the scans found length 4, as long as the counter does not wrap around. -/
theorem recordAll_get_two (l : List Nat) : ∀ (a : Alignments), (∀ n ∈ l, n ≤ 4) →
    a.get 2 + l.length < 4294967296 →
    ((recordAll a l).get 2 ≠ 0 ↔ (a.get 2 ≠ 0 ∨ 4 ∈ l)) := by
  induction l with
  | nil => intro a _ _; rw [recordAll_nil]; simp
  | cons n l ih =>
    intro a h hb
    simp only [List.length_cons] at hb
    rw [recordAll_cons]
    have h2 := alignmentsCount_get_two n a (h n (List.mem_cons_self _ _))
    have h3 := uadd1_of_lt (a.get 2) (by omega)
    rw [ih (alignmentsCount n a) (fun m hm => h m (List.mem_cons_of_mem _ hm))
      (by rw [h2]; split <;> omega), h2]
    by_cases h4 : n = 4
    · subst h4
      simp only [if_true, h3, List.mem_cons, true_or, or_true, iff_true]
      left; omega
    · simp only [if_neg h4, List.mem_cons]
      constructor
      · rintro (h5 | h5)
        · exact Or.inl h5
        · exact Or.inr (Or.inr h5)
      · rintro (h5 | h5 | h5)
        · exact Or.inl h5
        · exact absurd h5.symm h4
        · exact Or.inr h5

/-! ## Cells, lines and placements -/

theorem cellIs_iff (g : Grid) (p : Player) (C R : Int) :
    cellIs g p C R = true ↔
      ∃ (c : Fin 7) (r : Fin 6), (c.val : Int) = C ∧ (r.val : Int) = R ∧ (g.get c).get r = p := by
  unfold cellIs readCell
  simp only [decide_eq_true_eq]
  constructor
  · rintro ⟨h1, h2, h3⟩
    by_cases h : C.toNat < MAX_COLUMN ∧ R.toNat < MAX_ROW
    · rw [dif_pos h] at h3
      refine ⟨⟨C.toNat, h.1⟩, ⟨R.toNat, h.2⟩, ?_, ?_, ?_⟩
      · simp only; omega
      · simp only; omega
      · exact Option.some.inj h3
    · rw [dif_neg h] at h3
      cases h3
  · rintro ⟨c, r, h1, h2, h3⟩
    have hc := c.isLt
    have hr := r.isLt
    refine ⟨by omega, by omega, ?_⟩
    have e1 : C.toNat = c.val := by omega
    have e2 : R.toNat = r.val := by omega
    rw [dif_pos ⟨by rw [e1]; exact hc, by rw [e2]; exact hr⟩]
    have f1 : (⟨C.toNat, by rw [e1]; exact hc⟩ : Fin 7) = c := Fin.ext e1
    have f2 : (⟨R.toNat, by rw [e2]; exact hr⟩ : Fin 6) = r := Fin.ext e2
    rw [f1, f2, h3]

theorem cellIs_setCell (g : Grid) (c : Fin 7) (r : Fin 6) (q p : Player) (C R : Int) :
    cellIs (setCell g c r q) p C R = true ↔
      if C = c.val ∧ R = r.val then q = p else cellIs g p C R = true := by
  rw [cellIs_iff]
  constructor
  · rintro ⟨c2, r2, h1, h2, h3⟩
    rw [get_get_setCell] at h3
    by_cases h : c2 = c ∧ r2 = r
    · rw [if_pos h] at h3
      rw [if_pos ⟨by rw [← h1, h.1], by rw [← h2, h.2]⟩]
      exact h3
    · rw [if_neg h] at h3
      rw [if_neg]
      · exact (cellIs_iff g p C R).2 ⟨c2, r2, h1, h2, h3⟩
      · rintro ⟨e1, e2⟩
        apply h
        constructor
        · apply Fin.ext; omega
        · apply Fin.ext; omega
  · intro h
    by_cases hh : C = c.val ∧ R = r.val
    · rw [if_pos hh] at h
      refine ⟨c, r, hh.1.symm, hh.2.symm, ?_⟩
      rw [get_get_setCell, if_pos ⟨rfl, rfl⟩]
      exact h
    · rw [if_neg hh] at h
      obtain ⟨c2, r2, h1, h2, h3⟩ := (cellIs_iff g p C R).1 h
      refine ⟨c2, r2, h1, h2, ?_⟩
      rw [get_get_setCell, if_neg, h3]
      rintro ⟨e1, e2⟩
      apply hh
      rw [← h1, ← h2, e1, e2]
      exact ⟨rfl, rfl⟩

theorem fourAt_lineSample (g : Grid) (p : Player) (c r dc dr k : Int) :
    fourAt (lineSample g p c r dc dr) k ↔ lineOfFour g p (c + k * dc) (r + k * dr) dc dr := by
  unfold fourAt lineSample lineOfFour
  have e1 : c + (k + 1) * dc = c + k * dc + dc := by ring
  have e2 : r + (k + 1) * dr = r + k * dr + dr := by ring
  have e3 : c + (k + 2) * dc = c + k * dc + 2 * dc := by ring
  have e4 : r + (k + 2) * dr = r + k * dr + 2 * dr := by ring
  have e5 : c + (k + 3) * dc = c + k * dc + 3 * dc := by ring
  have e6 : r + (k + 3) * dr = r + k * dr + 3 * dr := by ring
  rw [e1, e2, e3, e4, e5, e6]

theorem hasFour_iff (g : Grid) (p : Player) :
    hasFour g p ↔ ∃ C R : Int, ∃ d ∈ directions, lineOfFour g p C R d.1 d.2 := by
  unfold hasFour
  constructor
  · rintro ⟨c, r, d, hd, h⟩
    rw [fourAt_lineSample] at h
    exact ⟨_, _, d, hd, h⟩
  · rintro ⟨C, R, d, hd, h⟩
    obtain ⟨c, r, h1, h2, -⟩ := (cellIs_iff g p C R).1 h.1
    refine ⟨c, r, d, hd, ?_⟩
    rw [fourAt_lineSample, h1, h2]
    simpa using h

theorem fourThrough_iff (g : Grid) (p : Player) (c r : Nat) (d : Int × Int) :
    fourThrough g p c r d ↔
      lineOfFour g p c r d.1 d.2 ∨ lineOfFour g p (c - d.1) (r - d.2) d.1 d.2 ∨
      lineOfFour g p (c - 2 * d.1) (r - 2 * d.2) d.1 d.2 ∨
      lineOfFour g p (c - 3 * d.1) (r - 3 * d.2) d.1 d.2 := by
  unfold fourThrough
  simp only [fourAt_lineSample]
  have e0 : ∀ x y : Int, x + -((0 : Nat) : Int) * y = x := by intro x y; simp
  have e1 : ∀ x y : Int, x + -((1 : Nat) : Int) * y = x - y := by intro x y; simp; ring
  have e2 : ∀ x y : Int, x + -((2 : Nat) : Int) * y = x - 2 * y := by intro x y; simp; ring
  have e3 : ∀ x y : Int, x + -((3 : Nat) : Int) * y = x - 3 * y := by intro x y; simp; ring
  constructor
  · rintro ⟨i, h⟩
    fin_cases i
    · left; simpa [e0] using h
    · right; left
      have h' := h
      simp only [Fin.mk_one, Fin.val_one] at h'
      rw [e1, e1] at h'
      exact h'
    · right; right; left
      have h' := h
      simp only [Fin.reduceFinMk, Fin.val_two] at h'
      rw [e2, e2] at h'
      exact h'
    · right; right; right
      have h' := h
      have e : ((⟨3, by omega⟩ : Fin 4) : Nat) = 3 := rfl
      simp only [e] at h'
      rw [e3, e3] at h'
      exact h'
  · rintro (h | h | h | h)
    · exact ⟨0, by simpa using h⟩
    · refine ⟨1, ?_⟩
      simp only [Fin.val_one]
      rw [e1, e1]; exact h
    · refine ⟨2, ?_⟩
      simp only [Fin.val_two]
      rw [e2, e2]; exact h
    · refine ⟨3, ?_⟩
      have e : ((3 : Fin 4) : Nat) = 3 := rfl
      simp only [e]
      rw [e3, e3]; exact h

theorem cellIs_at (g : Grid) (p : Player) (c : Fin 7) (r : Fin 6) :
    cellIs g p c.val r.val = true ↔ (g.get c).get r = p := by
  rw [cellIs_iff]
  constructor
  · rintro ⟨c2, r2, h1, h2, h3⟩
    have e1 : c2 = c := Fin.ext (by omega)
    have e2 : r2 = r := Fin.ext (by omega)
    rw [← e1, ← e2]; exact h3
  · intro h
    exact ⟨c, r, rfl, rfl, h⟩

/-- A placement leaves every cell test for another player unchanged. -/
theorem cellIs_setCell_other (g : Grid) (c : Fin 7) (r : Fin 6) (p q : Player) (C R : Int)
    (hqp : q ≠ p) (hq : q ≠ Player.EMPTY) (he : (g.get c).get r = Player.EMPTY) :
    cellIs (setCell g c r p) q C R = true ↔ cellIs g q C R = true := by
  rw [cellIs_setCell]
  by_cases h : C = c.val ∧ R = r.val
  · rw [if_pos h, h.1, h.2, cellIs_at, he]
    constructor
    · intro e; exact absurd e.symm hqp
    · intro e; exact absurd e.symm hq
  · rw [if_neg h]

/-- A placement keeps every cell that held the player. -/
theorem cellIs_setCell_mono (g : Grid) (c : Fin 7) (r : Fin 6) (p : Player) (C R : Int)
    (h : cellIs g p C R = true) : cellIs (setCell g c r p) p C R = true := by
  rw [cellIs_setCell]
  split
  · rfl
  · exact h

theorem hasFour_setCell_other (g : Grid) (c : Fin 7) (r : Fin 6) (p q : Player)
    (hqp : q ≠ p) (hq : q ≠ Player.EMPTY) (he : (g.get c).get r = Player.EMPTY) :
    hasFour (setCell g c r p) q ↔ hasFour g q := by
  rw [hasFour_iff, hasFour_iff]
  unfold lineOfFour
  simp only [cellIs_setCell_other g c r p q _ _ hqp hq he]

/-- After `p` is placed in a cell, the alignments of four of `p` are those that existed
before and those that contain the placed cell. -/
theorem hasFour_setCell_same (g : Grid) (c : Fin 7) (r : Fin 6) (p : Player) :
    hasFour (setCell g c r p) p ↔
      hasFour g p ∨ ∃ d ∈ directions, fourThrough (setCell g c r p) p c r d := by
  constructor
  · rw [hasFour_iff]
    rintro ⟨C, R, d, hd, h0, h1, h2, h3⟩
    by_cases a0 : C = c.val ∧ R = r.val
    · right
      refine ⟨d, hd, (fourThrough_iff _ _ _ _ _).2 (Or.inl ?_)⟩
      rw [← a0.1, ← a0.2]; exact ⟨h0, h1, h2, h3⟩
    by_cases a1 : C + d.1 = c.val ∧ R + d.2 = r.val
    · right
      refine ⟨d, hd, (fourThrough_iff _ _ _ _ _).2 (Or.inr (Or.inl ?_))⟩
      have e1 : (c.val : Int) - d.1 = C := by omega
      have e2 : (r.val : Int) - d.2 = R := by omega
      rw [e1, e2]; exact ⟨h0, h1, h2, h3⟩
    by_cases a2 : C + 2 * d.1 = c.val ∧ R + 2 * d.2 = r.val
    · right
      refine ⟨d, hd, (fourThrough_iff _ _ _ _ _).2 (Or.inr (Or.inr (Or.inl ?_)))⟩
      have e1 : (c.val : Int) - 2 * d.1 = C := by omega
      have e2 : (r.val : Int) - 2 * d.2 = R := by omega
      rw [e1, e2]; exact ⟨h0, h1, h2, h3⟩
    by_cases a3 : C + 3 * d.1 = c.val ∧ R + 3 * d.2 = r.val
    · right
      refine ⟨d, hd, (fourThrough_iff _ _ _ _ _).2 (Or.inr (Or.inr (Or.inr ?_)))⟩
      have e1 : (c.val : Int) - 3 * d.1 = C := by omega
      have e2 : (r.val : Int) - 3 * d.2 = R := by omega
      rw [e1, e2]; exact ⟨h0, h1, h2, h3⟩
    left
    rw [hasFour_iff]
    rw [cellIs_setCell, if_neg a0] at h0
    rw [cellIs_setCell, if_neg a1] at h1
    rw [cellIs_setCell, if_neg a2] at h2
    rw [cellIs_setCell, if_neg a3] at h3
    exact ⟨C, R, d, hd, h0, h1, h2, h3⟩
  · rintro (h | ⟨d, hd, h⟩)
    · rw [hasFour_iff] at h ⊢
      obtain ⟨C, R, d, hd, h0, h1, h2, h3⟩ := h
      exact ⟨C, R, d, hd, cellIs_setCell_mono _ _ _ _ _ _ h0, cellIs_setCell_mono _ _ _ _ _ _ h1,
        cellIs_setCell_mono _ _ _ _ _ _ h2, cellIs_setCell_mono _ _ _ _ _ _ h3⟩
    · rw [hasFour_iff]
      rcases (fourThrough_iff _ _ _ _ _).1 h with h | h | h | h
      · exact ⟨_, _, d, hd, h⟩
      · exact ⟨_, _, d, hd, h⟩
      · exact ⟨_, _, d, hd, h⟩
      · exact ⟨_, _, d, hd, h⟩

theorem fourThrough_iff_fourAt (g : Grid) (p : Player) (c r : Nat) (d : Int × Int) :
    fourThrough g p c r d ↔
      fourAt (lineSample g p c r d.1 d.2) 0 ∨ fourAt (lineSample g p c r d.1 d.2) (-1) ∨
      fourAt (lineSample g p c r d.1 d.2) (-2) ∨ fourAt (lineSample g p c r d.1 d.2) (-3) := by
  rw [fourThrough_iff]
  simp only [fourAt_lineSample]
  have e0 : ∀ x y : Int, x + 0 * y = x := by intro x y; ring
  have e1 : ∀ x y : Int, x + -1 * y = x - y := by intro x y; ring
  have e2 : ∀ x y : Int, x + -2 * y = x - 2 * y := by intro x y; ring
  have e3 : ∀ x y : Int, x + -3 * y = x - 3 * y := by intro x y; ring
  simp only [e0, e1, e2, e3]

theorem lineSample_zero (g : Grid) (p : Player) (c : Fin 7) (r : Fin 6) (dc dr : Int) :
    lineSample g p c.val r.val dc dr 0 = true ↔ (g.get c).get r = p := by
  unfold lineSample
  simp only [zero_mul, add_zero]
  exact cellIs_at g p c r

/-- Under gravity no cell above the top piece of a column holds a piece, so an alignment of four
in a column that contains the top piece starts at it. -/
theorem fourThrough_column (g : Grid) (p : Player) (c : Fin 7) (r : Fin 6)
    (hp : p ≠ Player.EMPTY) (habove : ∀ r2 : Fin 6, r2 < r → (g.get c).get r2 = Player.EMPTY) :
    fourThrough g p c r (0, 1) ↔ fourAt (lineSample g p c r 0 1) 0 := by
  rw [fourThrough_iff_fourAt]
  have hf : lineSample g p c r 0 1 (-1) = false := by
    unfold lineSample
    rw [Bool.eq_false_iff]
    intro h
    obtain ⟨c2, r2, h1, h2, h3⟩ := (cellIs_iff _ _ _ _).1 h
    have e1 : c2 = c := Fin.ext (by omega)
    have hlt : r2 < r := by rw [Fin.lt_def]; omega
    rw [e1, habove r2 hlt] at h3
    exact hp h3.symm
  obtain ⟨_, q1, q2, q3⟩ := fourAt_iff (lineSample g p c r 0 1)
  constructor
  · rintro (h | h | h | h)
    · exact h
    · rw [q1, hf] at h; exact absurd h.1 (by decide)
    · rw [q2, hf] at h; exact absurd h.2.1 (by decide)
    · rw [q3, hf] at h; exact absurd h.2.2.1 (by decide)
  · exact Or.inl

/-- One of the four scans of a placement finds length 4 exactly when four consecutive cells in
some direction, the placed cell among them, hold the player. -/
theorem four_mem_scanLengths (g : Grid) (p : Player) (c : Fin 7) (r : Fin 6)
    (hp : p ≠ Player.EMPTY) (hcell : (g.get c).get r = p)
    (habove : ∀ r2 : Fin 6, r2 < r → (g.get c).get r2 = Player.EMPTY) :
    4 ∈ scanLengths g p c r ↔ ∃ d ∈ directions, fourThrough g p c r d := by
  have z := fun dc dr => (lineSample_zero g p c r dc dr).2 hcell
  have hcol := fourThrough_column g p c r hp habove
  have b1 := biScan_eq_four _ (z 1 (-1))
  have b2 := biScan_eq_four _ (z 1 1)
  have b3 := biScan_eq_four _ (z 1 0)
  have b0 := downScan_eq_four _ (z 0 1)
  have t1 := fourThrough_iff_fourAt g p c r (1, -1)
  have t2 := fourThrough_iff_fourAt g p c r (1, 1)
  have t3 := fourThrough_iff_fourAt g p c r (1, 0)
  simp only at t1 t2 t3
  unfold scanLengths directions
  simp only [List.mem_cons, List.mem_singleton, List.not_mem_nil, or_false, exists_eq_or_imp,
    exists_eq_left]
  rw [hcol, t1, t2, t3, ← b0, ← b1, ← b2, ← b3]
  constructor
  · rintro (h | h | h | h)
    · exact Or.inr (Or.inl h.symm)
    · exact Or.inr (Or.inr (Or.inl h.symm))
    · exact Or.inr (Or.inr (Or.inr h.symm))
    · exact Or.inl h.symm
  · rintro (h | h | h | h)
    · exact Or.inr (Or.inr (Or.inr h.symm))
    · exact Or.inl h.symm
    · exact Or.inr (Or.inl h.symm)
    · exact Or.inr (Or.inr (Or.inl h.symm))

theorem scanLengths_le (g : Grid) (p : Player) (c r : Nat) : ∀ n ∈ scanLengths g p c r, n ≤ 4 := by
  intro n hn
  unfold scanLengths at hn
  simp only [List.mem_cons, List.mem_singleton, List.not_mem_nil, or_false] at hn
  rcases hn with h | h | h | h <;> rw [h]
  · exact downScan_le _
  · exact biScan_le _
  · exact biScan_le _
  · exact biScan_le _

/-! ## The invariant of the reachable states -/

theorem emptyCells_setCell (g : Grid) (c : Fin 7) (r : Fin 6) (p : Player) :
    emptyCells (setCell g c r p) + countEmpty (g.get c)
      = emptyCells g + countEmpty ((g.get c).set r p) := by
  have h : ∀ c2, countEmpty ((setCell g c r p).get c2)
      = if c2 = c then countEmpty ((g.get c).set r p) else countEmpty (g.get c2) := by
    intro c2
    by_cases hc : c2 = c
    · subst hc; rw [get_setCell_same, if_pos rfl]
    · rw [get_setCell_ne _ _ _ _ _ hc, if_neg hc]
  unfold emptyCells
  rw [h 0, h 1, h 2, h 3, h 4, h 5, h 6]
  fin_cases c <;> simp <;> omega

theorem emptyCells_le (g : Grid) : emptyCells g ≤ 42 := by
  unfold emptyCells
  have := countEmpty_le (g.get 0)
  have := countEmpty_le (g.get 1)
  have := countEmpty_le (g.get 2)
  have := countEmpty_le (g.get 3)
  have := countEmpty_le (g.get 4)
  have := countEmpty_le (g.get 5)
  have := countEmpty_le (g.get 6)
  omega

/-- A placement on a valid column of a gravity-respecting grid: gravity is kept, one Empty cell
is lost, the cell was Empty and the cells above it are Empty. -/
theorem placement_facts (g : Grid) (c : Fin 7) (p : Player) (hp : p ≠ Player.EMPTY)
    (hg : Gravity g) (h0 : (g.get c).get 0 = Player.EMPTY)
    (hk : countEmpty (g.get c) - 1 < 6) :
    Gravity (setCell g c ⟨_, hk⟩ p) ∧
    emptyCells (setCell g c ⟨_, hk⟩ p) + 1 = emptyCells g ∧
    (g.get c).get ⟨_, hk⟩ = Player.EMPTY ∧
    ((setCell g c ⟨_, hk⟩ p).get c).get ⟨_, hk⟩ = p ∧
    ∀ r2 : Fin 6, r2 < ⟨_, hk⟩ → ((setCell g c ⟨_, hk⟩ p).get c).get r2 = Player.EMPTY := by
  obtain ⟨_, h1, hgrav, -⟩ := column_play (g.get c) p hp h0
  obtain ⟨he, hg1, hcnt, -⟩ := hgrav (hg c)
  refine ⟨?_, ?_, he, ?_, ?_⟩
  · intro c2
    by_cases hc : c2 = c
    · subst hc; rw [get_setCell_same]; exact hg1
    · rw [get_setCell_ne _ _ _ _ _ hc]; exact hg c2
  · have := emptyCells_setCell g c ⟨_, hk⟩ p
    omega
  · rw [get_get_setCell, if_pos ⟨rfl, rfl⟩]
  · intro r2 hr2
    rw [get_get_setCell, if_neg (fun h => by rw [h.2] at hr2; exact lt_irrefl _ hr2)]
    rw [(gravityColumn_iff _).1 (hg c) r2]
    rw [Fin.lt_def] at hr2
    simp only at hr2
    omega

theorem isWinner_O (s : ConnectFour) : s.isWinner Player.O = true ↔ s.alignmentsO.get 2 ≠ 0 := by
  unfold isWinner; rw [if_pos rfl]; simp

theorem isWinner_X (s : ConnectFour) : s.isWinner Player.X = true ↔ s.alignmentsX.get 2 ≠ 0 := by
  unfold isWinner; rw [if_neg (by decide)]; simp

/-- The invariant of the reachable states: gravity, the length-4 buckets tell the alignments of
four, and the length-4 buckets are far from wrapping around. -/
theorem invariant_play (s : ConnectFour) (c : Fin 7) (p : Player) (hp : p ≠ Player.EMPTY)
    (h0 : (s.grid.get c).get 0 = Player.EMPTY) (hk : countEmpty (s.grid.get c) - 1 < 6)
    (hg : Gravity s.grid)
    (hO : s.isWinner Player.O = true ↔ hasFour s.grid Player.O)
    (hX : s.isWinner Player.X = true ↔ hasFour s.grid Player.X)
    (bO : s.alignmentsO.get 2 + 4 * emptyCells s.grid ≤ 168)
    (bX : s.alignmentsX.get 2 + 4 * emptyCells s.grid ≤ 168) :
    Gravity (placedState s c ⟨_, hk⟩ p).grid ∧
    ((placedState s c ⟨_, hk⟩ p).isWinner Player.O = true
      ↔ hasFour (placedState s c ⟨_, hk⟩ p).grid Player.O) ∧
    ((placedState s c ⟨_, hk⟩ p).isWinner Player.X = true
      ↔ hasFour (placedState s c ⟨_, hk⟩ p).grid Player.X) ∧
    (placedState s c ⟨_, hk⟩ p).alignmentsO.get 2
      + 4 * emptyCells (placedState s c ⟨_, hk⟩ p).grid ≤ 168 ∧
    (placedState s c ⟨_, hk⟩ p).alignmentsX.get 2
      + 4 * emptyCells (placedState s c ⟨_, hk⟩ p).grid ≤ 168 := by
  obtain ⟨g1, e1, he, hcell, habove⟩ := placement_facts s.grid c p hp hg h0 hk
  have hmem := four_mem_scanLengths _ p c ⟨_, hk⟩ hp hcell habove
  have hle := scanLengths_le (setCell s.grid c ⟨_, hk⟩ p) p c (countEmpty (s.grid.get c) - 1)
  have hlen : (scanLengths (setCell s.grid c ⟨_, hk⟩ p) p c
      (countEmpty (s.grid.get c) - 1)).length = 4 := rfl
  have hsame := hasFour_setCell_same s.grid c ⟨_, hk⟩ p
  rw [isWinner_O] at hO ⊢
  rw [isWinner_X] at hX ⊢
  simp only at hmem
  cases p with
  | EMPTY => exact absurd rfl hp
  | O =>
    have hoth := hasFour_setCell_other s.grid c ⟨_, hk⟩ Player.O Player.X (by decide) (by decide) he
    have r2 := recordAll_get_two _ s.alignmentsO hle (by rw [hlen]; omega)
    have r3 := recordAll_get_le _ s.alignmentsO hle 2
    rw [hlen] at r3
    simp only [placedState, if_true]
    refine ⟨g1, ?_, ?_, by omega, by omega⟩
    · rw [r2, hsame, hmem, hO]
    · rw [hoth, hX]
  | X =>
    have hoth := hasFour_setCell_other s.grid c ⟨_, hk⟩ Player.X Player.O (by decide) (by decide) he
    have r2 := recordAll_get_two _ s.alignmentsX hle (by rw [hlen]; omega)
    have r3 := recordAll_get_le _ s.alignmentsX hle 2
    rw [hlen] at r3
    have hne : ¬ (Player.X = Player.O) := by decide
    simp only [placedState, if_neg hne]
    refine ⟨g1, ?_, ?_, by omega, by omega⟩
    · rw [hoth, hO]
    · rw [r2, hsame, hmem, hX]

theorem reset_grid (s : ConnectFour) :
    s.reset.grid = Mathlib.Vector.replicate 7 (Mathlib.Vector.replicate 6 Player.EMPTY) := rfl

theorem reset_alignmentsO (s : ConnectFour) : s.reset.alignmentsO = Mathlib.Vector.replicate 3 0 :=
  rfl

theorem reset_alignmentsX (s : ConnectFour) : s.reset.alignmentsX = Mathlib.Vector.replicate 3 0 :=
  rfl

theorem not_hasFour_empty (p : Player) (hp : p ≠ Player.EMPTY) :
    ¬ hasFour (Mathlib.Vector.replicate 7 (Mathlib.Vector.replicate 6 Player.EMPTY)) p := by
  rw [hasFour_iff]
  rintro ⟨C, R, d, -, h, -⟩
  obtain ⟨c, r, -, -, h3⟩ := (cellIs_iff _ _ _ _).1 h
  rw [Mathlib.Vector.get_replicate, Mathlib.Vector.get_replicate] at h3
  exact hp h3.symm

theorem invariant_reset (s : ConnectFour) :
    Gravity s.reset.grid ∧
    (s.reset.isWinner Player.O = true ↔ hasFour s.reset.grid Player.O) ∧
    (s.reset.isWinner Player.X = true ↔ hasFour s.reset.grid Player.X) ∧
    s.reset.alignmentsO.get 2 + 4 * emptyCells s.reset.grid ≤ 168 ∧
    s.reset.alignmentsX.get 2 + 4 * emptyCells s.reset.grid ≤ 168 := by
  rw [isWinner_O, isWinner_X, reset_grid, reset_alignmentsO, reset_alignmentsX]
  have h1 := not_hasFour_empty Player.O (by decide)
  have h2 := not_hasFour_empty Player.X (by decide)
  refine ⟨by decide, ?_, ?_, by decide, by decide⟩
  · simp only [h1, iff_false, not_not]; rfl
  · simp only [h2, iff_false, not_not]; rfl

theorem invariant_reachable (s : ConnectFour) (h : Reachable s) :
    Gravity s.grid ∧
    (s.isWinner Player.O = true ↔ hasFour s.grid Player.O) ∧
    (s.isWinner Player.X = true ↔ hasFour s.grid Player.X) ∧
    s.alignmentsO.get 2 + 4 * emptyCells s.grid ≤ 168 ∧
    s.alignmentsX.get 2 + 4 * emptyCells s.grid ≤ 168 := by
  induction h with
  | reset s => exact invariant_reset s
  | play s t c p _ hp hv hplay ih =>
    obtain ⟨hc, hk, heq⟩ := playInColumn_eq s c p hp hv
    obtain ⟨_, h0⟩ := (isValidMove_iff s c).1 hv
    rw [heq] at hplay
    cases hplay
    obtain ⟨i1, i2, i3, i4, i5⟩ := ih
    exact invariant_play s ⟨c, hc⟩ p hp h0 hk i1 i2 i3 i4 i5

/-- C1: in every state reached from `reset()` by calls `playInColumn(c, p)` with `p` in {X, O}
on columns valid at the time of the call, for each player `p` in {X, O}, `isWinner(p)` is true
exactly when the grid contains four consecutive cells equal to `p` along a row, a column, an
ascending or a descending diagonal. -/
theorem isWinner_iff_hasFour (s : ConnectFour) (p : Player) (h : Reachable s)
    (hp : p ≠ Player.EMPTY) : s.isWinner p = true ↔ hasFour s.grid p := by
  obtain ⟨-, i2, i3, -, -⟩ := invariant_reachable s h
  cases p with
  | EMPTY => exact absurd rfl hp
  | O => exact i2
  | X => exact i3

theorem reachable_playMoves (ms : List (Nat × Player)) :
    ∀ s t : ConnectFour, Reachable s → s.playMoves ms = some t → Reachable t := by
  induction ms with
  | nil =>
    intro s t hs h
    rw [playMoves] at h
    cases h
    exact hs
  | cons m ms ih =>
    intro s t hs h
    obtain ⟨c, p⟩ := m
    rw [playMoves] at h
    by_cases hc : p ≠ Player.EMPTY ∧ s.isValidMove c = true
    · rw [if_pos hc] at h
      cases hplay : s.playInColumn c p with
      | none => rw [hplay] at h; cases h
      | some u =>
        rw [hplay] at h
        exact ih u t (Reachable.play s u c p hs hc.1 hc.2 hplay) h
    · rw [if_neg hc] at h
      cases h

theorem reachable_getD_playMoves (ms : List (Nat × Player)) (s d : ConnectFour)
    (hs : Reachable s) (hd : Reachable d) : Reachable ((s.playMoves ms).getD d) := by
  cases h : s.playMoves ms with
  | none => exact hd
  | some t => exact reachable_playMoves ms s t hs h

theorem reachable_emptyBoard : Reachable emptyBoard := by
  have h : emptyBoard = emptyBoard.reset := by decide
  rw [h]
  exact Reachable.reset emptyBoard

theorem reachable_threeInRow : Reachable threeInRow :=
  reachable_getD_playMoves _ _ _ (Reachable.reset emptyBoard) reachable_emptyBoard

theorem reachable_fourInRow : Reachable fourInRow :=
  reachable_getD_playMoves _ _ _ (Reachable.reset emptyBoard) reachable_emptyBoard

theorem reachable_wonByO : Reachable wonByO :=
  reachable_getD_playMoves _ _ _ (Reachable.reset emptyBoard) reachable_emptyBoard

theorem isWinner_iff_hasFour_witness :
    Reachable fourInRow ∧ Player.X ≠ Player.EMPTY ∧
    (fourInRow.isWinner Player.X = true ↔ hasFour fourInRow.grid Player.X) :=
  ⟨reachable_fourInRow, by decide,
    isWinner_iff_hasFour fourInRow Player.X reachable_fourInRow (by decide)⟩

theorem isWinner_neg_placedState (s : ConnectFour) (c : Fin 7) (r : Fin 6) (p : Player)
    (hp : p ≠ Player.EMPTY) : (placedState s c r p).isWinner p.neg = s.isWinner p.neg := by
  cases p with
  | EMPTY => exact absurd rfl hp
  | O =>
    have hne : ¬ (Player.X = Player.O) := by decide
    simp only [Player.neg, isWinner, placedState, if_neg hne, if_true]
  | X =>
    have hne : ¬ (Player.X = Player.O) := by decide
    simp only [Player.neg, isWinner, placedState, if_neg hne, if_true]

/-- C2 (amended): in a state reached from `reset()` by valid moves, after a player `p` in {X, O}
plays a valid column, `isWinner` of the opponent is what it was before the move, and if the move
makes four consecutive `p` cells through the placed cell in some direction then `isWinner(p)` is
true. -/
theorem play_completing_four (s : ConnectFour) (c : Nat) (p : Player) (h : Reachable s)
    (hp : p ≠ Player.EMPTY) (hv : s.isValidMove c = true) :
    ∃ t, s.playInColumn c p = some t ∧
      t.isWinner p.neg = s.isWinner p.neg ∧
      ((∃ d ∈ directions, fourThrough t.grid p t.lastBoxColumn t.lastBoxRow d) →
        t.isWinner p = true) := by
  obtain ⟨hc, hk, heq⟩ := playInColumn_eq s c p hp hv
  refine ⟨_, heq, isWinner_neg_placedState s _ _ p hp, ?_⟩
  intro hfour
  have hfour2 := (hasFour_setCell_same s.grid ⟨c, hc⟩ ⟨_, hk⟩ p).2 (Or.inr hfour)
  obtain ⟨-, i2, i3, -, -⟩ := invariant_reachable _ (Reachable.play s _ c p h hp hv heq)
  cases p with
  | EMPTY => exact absurd rfl hp
  | O => exact i2.2 hfour2
  | X => exact i3.2 hfour2

theorem play_completing_four_witness :
    Reachable threeInRow ∧ Player.X ≠ Player.EMPTY ∧ threeInRow.isValidMove 3 = true ∧
    ∃ t, threeInRow.playInColumn 3 Player.X = some t ∧
      t.isWinner Player.X.neg = threeInRow.isWinner Player.X.neg ∧
      ((∃ d ∈ directions, fourThrough t.grid Player.X t.lastBoxColumn t.lastBoxRow d) →
        t.isWinner Player.X = true) :=
  ⟨reachable_threeInRow, by decide, by decide,
    play_completing_four threeInRow 3 Player.X reachable_threeInRow (by decide) (by decide)⟩

/-- C2 as stated fails: after the valid moves X:1, O:0, X:1, O:0, X:1, O:0, X:2, O:0 (players in
turn) O has four in column 0 and X three in column 1; X plays column 1 and completes four in that
column through the placed cell (column 1, row 2), yet `isWinner(O)` is true after the move. -/
theorem play_completing_four_counterexample :
    Reachable wonByO ∧ wonByO.isValidMove 1 = true ∧
    (wonByO.playInColumn 1 Player.X).map (fun t =>
      (decide (fourThrough t.grid Player.X 1 2 (0, 1)), t.lastBoxColumn, t.lastBoxRow,
        t.isWinner Player.X, t.isWinner Player.O)) = some (true, 1, 2, true, true) :=
  ⟨reachable_wonByO, by decide, by decide⟩

/-! ## Values of the search -/

theorem isValidMove_congr (s t : ConnectFour) (h : t.grid = s.grid) (c : Nat) :
    t.isValidMove c = s.isValidMove c := by
  unfold isValidMove; rw [h]

theorem isValidMove_lt (s : ConnectFour) (c : Nat) (h : s.isValidMove c = true) : c < 7 := by
  obtain ⟨hc, -⟩ := (isValidMove_iff s c).1 h
  exact hc

theorem sameBoard_refl (s : ConnectFour) : SameBoard s s := ⟨rfl, rfl, rfl⟩

theorem isWinner_congr (s t : ConnectFour) (h : SameBoard s t) (p : Player) :
    t.isWinner p = s.isWinner p := by
  unfold isWinner; rw [h.2.1, h.2.2]

/-- The call `playInColumn` for a player in {X, O} never reads the last-move pointer. -/
theorem playInColumn_sameBoard (s t : ConnectFour) (h : SameBoard s t) (c : Nat) (p : Player)
    (hp : p ≠ Player.EMPTY) (hv : s.isValidMove c = true) :
    t.playInColumn c p = s.playInColumn c p := by
  obtain ⟨g, lc, lr, aO, aX⟩ := s
  obtain ⟨g2, lc2, lr2, aO2, aX2⟩ := t
  obtain ⟨h1, h2, h3⟩ := h
  simp only at h1 h2 h3
  subst h1 h2 h3
  obtain ⟨hc, hk, e1⟩ := playInColumn_eq ⟨g2, lc, lr, aO2, aX2⟩ c p hp hv
  obtain ⟨hc2, hk2, e2⟩ := playInColumn_eq ⟨g2, lc2, lr2, aO2, aX2⟩ c p hp hv
  rw [e1, e2]
  simp only [placedState]

theorem afterPlay_eq (s : ConnectFour) (c : Nat) (p : Player) (hp : p ≠ Player.EMPTY)
    (hv : s.isValidMove c = true) :
    ∃ (hc : c < 7) (hk : countEmpty (s.grid.get ⟨c, hc⟩) - 1 < 6),
      s.afterPlay c p = placedState s ⟨c, hc⟩ ⟨_, hk⟩ p ∧
      s.playInColumn c p = some (s.afterPlay c p) := by
  obtain ⟨hc, hk, e⟩ := playInColumn_eq s c p hp hv
  refine ⟨hc, hk, ?_, ?_⟩
  · unfold afterPlay; rw [e]; rfl
  · unfold afterPlay; rw [e]; rfl

theorem placedState_grid (s : ConnectFour) (c : Fin 7) (r : Fin 6) (p : Player) :
    (placedState s c r p).grid = setCell s.grid c r p := rfl

theorem afterPlay_gravity (s : ConnectFour) (c : Nat) (p : Player) (hp : p ≠ Player.EMPTY)
    (hv : s.isValidMove c = true) (hg : Gravity s.grid) : Gravity (s.afterPlay c p).grid := by
  obtain ⟨hc, hk, e, -⟩ := afterPlay_eq s c p hp hv
  obtain ⟨_, h0⟩ := (isValidMove_iff s c).1 hv
  rw [e, placedState_grid]
  exact (placement_facts s.grid ⟨c, hc⟩ p hp hg h0 hk).1

theorem afterPlay_tame (n : Nat) (s : ConnectFour) (c : Nat) (p : Player)
    (hp : p ≠ Player.EMPTY) (hv : s.isValidMove c = true) (hg : Gravity s.grid)
    (ht : Tame n s) : Tame n (s.afterPlay c p) := by
  obtain ⟨hc, hk, e, -⟩ := afterPlay_eq s c p hp hv
  obtain ⟨_, h0⟩ := (isValidMove_iff s c).1 hv
  obtain ⟨-, e1, -, -, -⟩ := placement_facts s.grid ⟨c, hc⟩ p hp hg h0 hk
  rw [e]
  intro i
  have hle := scanLengths_le (setCell s.grid ⟨c, hc⟩ ⟨_, hk⟩ p) p c (countEmpty (s.grid.get ⟨c, hc⟩) - 1)
  have hlen : (scanLengths (setCell s.grid ⟨c, hc⟩ ⟨_, hk⟩ p) p c
      (countEmpty (s.grid.get ⟨c, hc⟩) - 1)).length = 4 := rfl
  have rO := recordAll_get_le _ s.alignmentsO hle i
  have rX := recordAll_get_le _ s.alignmentsX hle i
  rw [hlen] at rO rX
  have t1 := (ht i).1
  have t2 := (ht i).2
  simp only [placedState]
  by_cases hpO : p = Player.O
  · simp only [if_pos hpO]
    constructor <;> omega
  · simp only [if_neg hpO]
    constructor <;> omega

theorem tame_of_bucketsAtMost (k : Nat) (s : ConnectFour) (h : bucketsAtMost k s) :
    Tame (k + 168) s := by
  intro i
  have := emptyCells_le s.grid
  have := h i
  omega

theorem weightedSum_bounds (a : Alignments) (n : Nat) (h : ∀ i : Fin 3, a.get i ≤ n) :
    0 ≤ weightedSum a ∧ weightedSum a ≤ 111 * (n : Int) := by
  unfold weightedSum
  have h0 := h 0
  have h1 := h 1
  have h2 := h 2
  constructor <;> omega

/-- The heuristic stays strictly inside the `int` range while the buckets are tame. -/
theorem nodeValue_bounds (n : Nat) (s : ConnectFour) (p : Player) (hp : p ≠ Player.EMPTY)
    (ht : Tame n s) (hn : 111 * n ≤ 2147483646) :
    -2147483646 ≤ s.nodeValue p ∧ s.nodeValue p ≤ 2147483646 := by
  have bO := weightedSum_bounds s.alignmentsO n (fun i => by have := (ht i).1; omega)
  have bX := weightedSum_bounds s.alignmentsX n (fun i => by have := (ht i).2; omega)
  obtain ⟨a1, a2⟩ := nodeValue_of_fit s (by unfold INT_MAX; omega) (by unfold INT_MAX; omega)
  cases p with
  | EMPTY => exact absurd rfl hp
  | O => rw [a2]; constructor <;> omega
  | X => rw [a1]; constructor <;> omega

theorem wrapInt_neg (x : Int) (h1 : -INT_MAX ≤ x) (h2 : x ≤ INT_MAX) : wrapInt (-x) = -x := by
  unfold INT_MAX at h1 h2
  exact wrapInt_of_range _ (by omega) (by omega)

theorem win_score (d : Nat) (h : 100 * (d + 1) ≤ 2147483646) :
    wrapInt (-100 * wrapInt (uadd1 d)) = -100 * ((d : Int) + 1) := by
  have e : uadd1 d = d + 1 := by unfold uadd1; omega
  have e2 : wrapInt ((d + 1 : Nat) : Int) = (d : Int) + 1 := by
    rw [wrapInt_of_range _ (by omega) (by omega)]
    push_cast
    ring
  rw [e, e2, wrapInt_of_range _ (by omega) (by omega)]

/-! ### The maximum of a list -/

theorem maxOf_cons (x : Int) (l : List Int) (h : l ≠ []) : maxOf (x :: l) = max x (maxOf l) := by
  cases l with
  | nil => exact absurd rfl h
  | cons y l => rfl

theorem le_maxOf (l : List Int) : ∀ x ∈ l, x ≤ maxOf l := by
  induction l with
  | nil => intro x hx; cases hx
  | cons y l ih =>
    intro x hx
    by_cases hl : l = []
    · subst hl
      simp only [List.mem_singleton] at hx
      rw [hx]; exact le_refl _
    · rw [maxOf_cons _ _ hl]
      rcases List.mem_cons.1 hx with h | h
      · rw [h]; exact le_max_left _ _
      · exact le_trans (ih x h) (le_max_right _ _)

theorem maxOf_le (l : List Int) (m : Int) (hl : l ≠ []) (h : ∀ x ∈ l, x ≤ m) : maxOf l ≤ m := by
  induction l with
  | nil => exact absurd rfl hl
  | cons y l ih =>
    by_cases hl2 : l = []
    · subst hl2
      exact h y (List.mem_singleton_self y)
    · rw [maxOf_cons _ _ hl2]
      exact max_le (h y (List.mem_cons_self _ _))
        (ih hl2 (fun x hx => h x (List.mem_cons_of_mem _ hx)))

theorem maxOf_mem (l : List Int) (hl : l ≠ []) : maxOf l ∈ l := by
  induction l with
  | nil => exact absurd rfl hl
  | cons y l ih =>
    by_cases hl2 : l = []
    · subst hl2
      exact List.mem_singleton_self y
    · rw [maxOf_cons _ _ hl2]
      rcases max_choice y (maxOf l) with h | h
      · rw [h]; exact List.mem_cons_self _ _
      · rw [h]; exact List.mem_cons_of_mem _ (ih hl2)

/-! ### The unpruned negamax -/

theorem mem_validColumns (s : ConnectFour) (c : Nat) :
    c ∈ s.validColumns ↔ s.isValidMove c = true := by
  unfold validColumns
  rw [List.mem_filter, List.mem_range]
  constructor
  · exact fun h => h.2
  · exact fun h => ⟨isValidMove_lt s c h, h⟩

theorem isGameOver_iff (s : ConnectFour) : s.isGameOver = true ↔ s.validColumns = [] := by
  unfold isGameOver validColumns
  rw [List.all_eq_true, List.filter_eq_nil_iff]
  constructor
  · intro h c hc hv
    have := h c hc
    rw [hv] at this
    exact absurd this (by decide)
  · intro h c hc
    have := h c hc
    cases hv : s.isValidMove c
    · rfl
    · exact absurd hv this

theorem negamax_zero (s : ConnectFour) (p : Player) :
    negamax 0 s p = if s.isWinner p.neg then -100 * ((0 : Int) + 1) else s.nodeValue p := by
  rw [negamax]

theorem negamax_succ (d : Nat) (s : ConnectFour) (p : Player) :
    negamax (d + 1) s p =
      if s.isWinner p.neg then -100 * (((d + 1 : Nat) : Int) + 1)
      else if s.validColumns = [] then 0
      else maxOf (s.validColumns.map fun c => moveValue d s p c) := by
  rw [negamax]
  rfl

/-- The unpruned negamax stays strictly inside the `int` range. -/
theorem negamax_bounds (n : Nat) (hn : 111 * n ≤ 2147483646) :
    ∀ (d : Nat) (s : ConnectFour) (p : Player), p ≠ Player.EMPTY → Gravity s.grid → Tame n s →
      100 * (d + 1) ≤ 2147483646 →
      -2147483646 ≤ negamax d s p ∧ negamax d s p ≤ 2147483646 := by
  intro d
  induction d with
  | zero =>
    intro s p hp _ ht _
    rw [negamax_zero]
    split
    · constructor <;> omega
    · exact nodeValue_bounds n s p hp ht hn
  | succ d ih =>
    intro s p hp hg ht hd
    rw [negamax_succ]
    split
    · constructor <;> omega
    · split
      · constructor <;> omega
      · rename_i hne
        have hb : ∀ x ∈ s.validColumns.map (fun c => moveValue d s p c),
            -2147483646 ≤ x ∧ x ≤ 2147483646 := by
          intro x hx
          obtain ⟨c, hc, rfl⟩ := List.mem_map.1 hx
          have hv := (mem_validColumns s c).1 hc
          have := ih (s.afterPlay c p) p.neg (neg_ne_EMPTY p hp)
            (afterPlay_gravity s c p hp hv hg) (afterPlay_tame n s c p hp hv hg ht) (by omega)
          unfold moveValue
          constructor <;> omega
        have hne2 : s.validColumns.map (fun c => moveValue d s p c) ≠ [] := by
          intro h
          exact hne (List.map_eq_nil_iff.1 h)
        constructor
        · exact (hb _ (maxOf_mem _ hne2)).1
        · exact maxOf_le _ _ hne2 (fun x hx => (hb x hx).2)

/-- After a placement on a valid column of a gravity-respecting state and any call that gives
the grid back, `eraseMove` returns to the grid before the placement. -/
theorem erase_restores (s t : ConnectFour) (c : Nat) (p : Player) (hp : p ≠ Player.EMPTY)
    (hv : s.isValidMove c = true) (hg : Gravity s.grid)
    (ht : t.grid = (s.afterPlay c p).grid) :
    ∃ e, t.eraseMove c = some e ∧ e.grid = s.grid := by
  obtain ⟨hc, hk, e, -⟩ := afterPlay_eq s c p hp hv
  obtain ⟨_, h0⟩ := (isValidMove_iff s c).1 hv
  rw [e, placedState_grid] at ht
  obtain ⟨hk2, hrel⟩ := play_erase_cols s.grid t.grid ⟨c, hc⟩ p hp h0 hk
    (by rw [ht]; exact colsRel_refl _)
  exact ⟨_, eraseMove_eq t c hc hk2, colsRel_eq_of_gravity hrel hg⟩

theorem sameBoard_restoredState (s e : ConnectFour) (h : e.grid = s.grid) :
    SameBoard s (restoredState e s.alignmentsO s.alignmentsX) :=
  ⟨h, rfl, rfl⟩

/-! ### The frame after an iteration -/

theorem stepFrame_game (f : Frame) (g : ConnectFour) (r : Nat) (sc : Int) (c : Nat) :
    (stepFrame f g r sc c).game = g := rfl

theorem stepFrame_bestScore (f : Frame) (g : ConnectFour) (r : Nat) (sc : Int) (c : Nat) :
    (stepFrame f g r sc c).bestScore = if sc > f.bestScore then sc else f.bestScore := rfl

theorem stepFrame_alpha (f : Frame) (g : ConnectFour) (r : Nat) (sc : Int) (c : Nat)
    (h : f.bestScore ≤ f.alpha) :
    (stepFrame f g r sc c).alpha = if sc > f.alpha then sc else f.alpha := by
  unfold stepFrame
  simp only
  by_cases h1 : sc > f.alpha
  · have h2 : sc > f.bestScore := by omega
    rw [if_pos h1, if_pos h1, if_pos h2]
  · rw [if_neg h1, if_neg h1]

theorem stepFrame_bestColumn (f : Frame) (g : ConnectFour) (r : Nat) (sc : Int) (c : Nat)
    (h : f.bestScore ≤ f.alpha) :
    (stepFrame f g r sc c).bestColumn = if sc > f.bestScore then some c else f.bestColumn := by
  unfold stepFrame
  simp only
  by_cases h1 : sc > f.alpha
  · have h2 : sc > f.bestScore := by omega
    rw [if_pos h1, if_pos h2]
  · rw [if_neg h1]

theorem breaksLoop_iff (f : Frame) (sc beta : Int) (h : f.bestScore ≤ f.alpha) :
    breaksLoop f sc beta ↔ sc > f.alpha ∧ sc > beta := by
  unfold breaksLoop
  constructor
  · rintro ⟨h1, h2⟩
    have h3 : sc > f.bestScore := by omega
    rw [if_pos h3] at h2
    exact ⟨h1, h2⟩
  · rintro ⟨h1, h2⟩
    have h3 : sc > f.bestScore := by omega
    rw [if_pos h3]
    exact ⟨h1, h2⟩

/-- The `for` loop of `alphabeta` on a gravity-respecting state, when every recursive call gives
the grid back and returns a value that bounds the unpruned value of its move from the side its
window allows. `bestScore` only grows; when it ends below `beta` it bounds the value of every
valid column of the list from above; when it ends above the `alpha` at the start, `bestColumn`
holds a valid column of the list whose value it bounds from below. -/
theorem searchLoop_value (child : ConnectFour → Nat → Int → Int → Option Outcome) (d : Nat)
    (p : Player) (hp : p ≠ Player.EMPTY) (s : ConnectFour) (hg : Gravity s.grid) (beta : Int)
    (hchild : ∀ c, s.isValidMove c = true → ∀ (r : Nat) (a : Int), -INT_MAX ≤ a → a ≤ INT_MAX →
      ∃ out, child (s.afterPlay c p) r (wrapInt (-beta)) (wrapInt (-a)) = some out ∧
        out.game.grid = (s.afterPlay c p).grid ∧
        -2147483646 ≤ wrapInt (-out.score) ∧ wrapInt (-out.score) ≤ 2147483646 ∧
        (a < wrapInt (-out.score) → wrapInt (-out.score) ≤ moveValue d s p c) ∧
        (wrapInt (-out.score) < beta → moveValue d s p c ≤ wrapInt (-out.score))) :
    ∀ (cols : List Nat) (f : Frame), SameBoard s f.game → f.bestScore ≤ f.alpha →
      -INT_MAX ≤ f.bestScore → f.alpha ≤ INT_MAX → f.bestScore ≤ 2147483646 →
      ∃ f2, searchLoop child p beta s.alignmentsO s.alignmentsX cols f = some f2 ∧
        SameBoard s f2.game ∧
        f.bestScore ≤ f2.bestScore ∧ f2.bestScore ≤ 2147483646 ∧
        ((∃ c ∈ cols, s.isValidMove c = true) → -2147483646 ≤ f2.bestScore) ∧
        (f2.bestScore < beta →
          ∀ c ∈ cols, s.isValidMove c = true → moveValue d s p c ≤ f2.bestScore) ∧
        (f.alpha < f2.bestScore → ∃ c ∈ cols, s.isValidMove c = true ∧
          f2.bestColumn = some c ∧ f2.bestScore ≤ moveValue d s p c) ∧
        (f2.bestScore = f.bestScore → f2.bestColumn = f.bestColumn) := by
  intro cols
  induction cols with
  | nil =>
    intro f hs hba hb ha hbV
    refine ⟨f, rfl, hs, le_refl _, hbV, ?_, ?_, ?_, fun _ => rfl⟩
    · rintro ⟨c, hc, -⟩; cases hc
    · intro _ c hc; cases hc
    · intro h; omega
  | cons column rest ih =>
    intro f hs hba hb ha hbV
    by_cases hvf : f.game.isValidMove column = true
    · have hvs : s.isValidMove column = true := by
        rw [← isValidMove_congr s f.game hs.1]; exact hvf
      obtain ⟨-, -, -, hplay⟩ := afterPlay_eq s column p hp hvs
      have hplayf : f.game.playInColumn column p = some (s.afterPlay column p) := by
        rw [playInColumn_sameBoard s f.game hs column p hp hvs]; exact hplay
      obtain ⟨out, hout, hgrid, lo, hi, hlow, hup⟩ := hchild column hvs f.rng f.alpha
        (by omega) ha
      obtain ⟨e, herase, hegrid⟩ := erase_restores s out.game column p hp hvs hg hgrid
      rw [searchLoop_step child p beta _ _ column rest f _ e out hvf hplayf hout herase]
      have hsame := sameBoard_restoredState s e hegrid
      have eb := stepFrame_bestScore f (restoredState e s.alignmentsO s.alignmentsX) out.rng
        (wrapInt (-out.score)) column
      have ea := stepFrame_alpha f (restoredState e s.alignmentsO s.alignmentsX) out.rng
        (wrapInt (-out.score)) column hba
      have ew := stepFrame_bestColumn f (restoredState e s.alignmentsO s.alignmentsX) out.rng
        (wrapInt (-out.score)) column hba
      have egame := stepFrame_game f (restoredState e s.alignmentsO s.alignmentsX) out.rng
        (wrapInt (-out.score)) column
      have hbr := breaksLoop_iff f (wrapInt (-out.score)) beta hba
      have hI : INT_MAX = 2147483647 := rfl
      generalize stepFrame f (restoredState e s.alignmentsO s.alignmentsX) out.rng
        (wrapInt (-out.score)) column = F at eb ea ew egame ⊢
      generalize wrapInt (-out.score) = sc at eb ea ew hbr lo hi hlow hup ⊢
      have hsameF : SameBoard s F.game := by rw [egame]; exact hsame
      by_cases h1 : sc > f.alpha
      · have h2 : sc > f.bestScore := by omega
        rw [if_pos h2] at eb ew
        rw [if_pos h1] at ea
        by_cases h3 : sc > beta
        · rw [if_pos (hbr.2 ⟨h1, h3⟩)]
          exact ⟨F, rfl, hsameF, by omega, by omega, fun _ => by omega, fun h => by omega,
            fun _ => ⟨column, List.mem_cons_self _ _, hvs, ew, by rw [eb]; exact hlow h1⟩,
            fun h => by omega⟩
        · rw [if_neg (fun h => h3 (hbr.1 h).2)]
          obtain ⟨f2, r1, r2, r3, r4, r5, r6, r7, r8⟩ := ih F hsameF (by omega) (by omega)
            (by omega) (by omega)
          refine ⟨f2, r1, r2, by omega, r4, fun _ => by omega, ?_, ?_, fun h => by omega⟩
          · intro hlt c hc hv
            rcases List.mem_cons.1 hc with h | h
            · rw [h]; have := hup (by omega); omega
            · exact r6 hlt c h hv
          · intro hgt
            by_cases h4 : F.alpha < f2.bestScore
            · obtain ⟨c, hc, hv, hw, hle⟩ := r7 h4
              exact ⟨c, List.mem_cons_of_mem _ hc, hv, hw, hle⟩
            · have e2 : f2.bestScore = F.bestScore := by omega
              exact ⟨column, List.mem_cons_self _ _, hvs, by rw [r8 e2, ew],
                by rw [e2, eb]; exact hlow h1⟩
      · rw [if_neg h1] at ea
        rw [if_neg (fun h => h1 (hbr.1 h).1)]
        by_cases h2 : sc > f.bestScore
        · rw [if_pos h2] at eb ew
          obtain ⟨f2, r1, r2, r3, r4, r5, r6, r7, r8⟩ := ih F hsameF (by omega) (by omega)
            (by omega) (by omega)
          refine ⟨f2, r1, r2, by omega, r4, fun _ => by omega, ?_, ?_, fun h => by omega⟩
          · intro hlt c hc hv
            rcases List.mem_cons.1 hc with h | h
            · rw [h]; have := hup (by omega); omega
            · exact r6 hlt c h hv
          · intro hgt
            obtain ⟨c, hc, hv, hw, hle⟩ := r7 (by omega)
            exact ⟨c, List.mem_cons_of_mem _ hc, hv, hw, hle⟩
        · rw [if_neg h2] at eb ew
          obtain ⟨f2, r1, r2, r3, r4, r5, r6, r7, r8⟩ := ih F hsameF (by omega) (by omega)
            (by omega) (by omega)
          refine ⟨f2, r1, r2, by omega, r4, fun _ => by omega, ?_, ?_, ?_⟩
          · intro hlt c hc hv
            rcases List.mem_cons.1 hc with h | h
            · rw [h]; have := hup (by omega); omega
            · exact r6 hlt c h hv
          · intro hgt
            obtain ⟨c, hc, hv, hw, hle⟩ := r7 (by omega)
            exact ⟨c, List.mem_cons_of_mem _ hc, hv, hw, hle⟩
          · intro h
            rw [r8 (by omega), ew]
    · rw [searchLoop_skip _ _ _ _ _ _ _ _ hvf]
      have hvs : ¬ s.isValidMove column = true := by
        rw [← isValidMove_congr s f.game hs.1]; exact hvf
      obtain ⟨f2, h1, h2, h3, h4, h5, h6, h7, h8⟩ := ih f hs hba hb ha hbV
      refine ⟨f2, h1, h2, h3, h4, ?_, ?_, ?_, h8⟩
      · rintro ⟨c, hc, hv⟩
        rcases List.mem_cons.1 hc with h | h
        · rw [h] at hv; exact absurd hv hvs
        · exact h5 ⟨c, h, hv⟩
      · intro hlt c hc hv
        rcases List.mem_cons.1 hc with h | h
        · rw [h] at hv; exact absurd hv hvs
        · exact h6 hlt c h hv
      · intro hgt
        obtain ⟨c, hc, hv, hw, hle⟩ := h7 hgt
        exact ⟨c, List.mem_cons_of_mem _ hc, hv, hw, hle⟩

theorem mem_shuffle (shuffle : Nat → List Nat) (hsh : IsShuffle shuffle) (n c : Nat)
    (hc : c < 7) : c ∈ shuffle n := by
  rw [(hsh n).mem_iff]
  unfold baseColumns
  interval_cases c <;> decide

/-- From the value property of the calls at depth `d` to the assumption of `searchLoop_value` on
the recursive call. -/
theorem child_of_value (shuffle : Nat → List Nat) (n d : Nat) (p : Player)
    (hp : p ≠ Player.EMPTY) (s : ConnectFour) (hg : Gravity s.grid) (ht : Tame n s)
    (beta : Int) (hb1 : -INT_MAX ≤ beta) (hb2 : beta ≤ INT_MAX)
    (hval : ∀ (t : ConnectFour) (rng : Nat) (alpha beta : Int), Gravity t.grid → Tame n t →
      -INT_MAX ≤ alpha → alpha ≤ INT_MAX → -INT_MAX ≤ beta → beta ≤ INT_MAX →
      ∃ out, alphabeta shuffle d t rng alpha beta p.neg = some out ∧ out.game.grid = t.grid ∧
        -2147483646 ≤ out.score ∧ out.score ≤ 2147483646 ∧
        (out.score < beta → negamax d t p.neg ≤ out.score) ∧
        (alpha < out.score → out.score ≤ negamax d t p.neg)) :
    ∀ c, s.isValidMove c = true → ∀ (r : Nat) (a : Int), -INT_MAX ≤ a → a ≤ INT_MAX →
      ∃ out, (fun g r a b => alphabeta shuffle d g r a b p.neg) (s.afterPlay c p) r
          (wrapInt (-beta)) (wrapInt (-a)) = some out ∧
        out.game.grid = (s.afterPlay c p).grid ∧
        -2147483646 ≤ wrapInt (-out.score) ∧ wrapInt (-out.score) ≤ 2147483646 ∧
        (a < wrapInt (-out.score) → wrapInt (-out.score) ≤ moveValue d s p c) ∧
        (wrapInt (-out.score) < beta → moveValue d s p c ≤ wrapInt (-out.score)) := by
  intro c hv r a ha1 ha2
  have hI : INT_MAX = 2147483647 := rfl
  rw [wrapInt_neg beta hb1 hb2, wrapInt_neg a ha1 ha2]
  obtain ⟨out, h1, h2, h3, h4, h5, h6⟩ := hval (s.afterPlay c p) r (-beta) (-a)
    (afterPlay_gravity s c p hp hv hg) (afterPlay_tame n s c p hp hv hg ht)
    (by omega) (by omega) (by omega) (by omega)
  refine ⟨out, h1, h2, ?_⟩
  rw [wrapInt_neg out.score (by omega) (by omega)]
  unfold moveValue
  refine ⟨by omega, by omega, ?_, ?_⟩
  · intro h; have := h5 (by omega); omega
  · intro h; have := h6 (by omega); omega

/-- The value returned by `alphabeta` on a gravity-respecting state with tame buckets and a
depth whose win score fits in `int`: it lies strictly inside the `int` range, it bounds the
unpruned negamax from above when it is below `beta` and from below when it is above `alpha`. The
call gives the grid back. -/
theorem alphabeta_value (shuffle : Nat → List Nat) (hsh : IsShuffle shuffle) (n : Nat)
    (hn : 111 * n ≤ 2147483646) :
    ∀ (d : Nat) (p : Player) (s : ConnectFour) (rng : Nat) (alpha beta : Int),
      p ≠ Player.EMPTY → 100 * (d + 1) ≤ 2147483646 → Gravity s.grid → Tame n s →
      -INT_MAX ≤ alpha → alpha ≤ INT_MAX → -INT_MAX ≤ beta → beta ≤ INT_MAX →
      ∃ out, alphabeta shuffle d s rng alpha beta p = some out ∧ out.game.grid = s.grid ∧
        -2147483646 ≤ out.score ∧ out.score ≤ 2147483646 ∧
        (out.score < beta → negamax d s p ≤ out.score) ∧
        (alpha < out.score → out.score ≤ negamax d s p) := by
  intro d
  induction d with
  | zero =>
    intro p s rng alpha beta hp hd hg ht ha1 ha2 hb1 hb2
    rw [alphabeta_zero, negamax_zero]
    by_cases hw : s.isWinner p.neg = true
    · rw [if_pos hw, if_pos hw, win_score 0 hd]
      simp only [Nat.cast_zero]
      exact ⟨_, rfl, rfl, by simp only; omega, by simp only; omega, fun _ => le_refl _,
        fun _ => le_refl _⟩
    · rw [if_neg hw, if_neg hw]
      have := nodeValue_bounds n s p hp ht hn
      exact ⟨_, rfl, rfl, this.1, this.2, fun _ => le_refl _, fun _ => le_refl _⟩
  | succ d ih =>
    intro p s rng alpha beta hp hd hg ht ha1 ha2 hb1 hb2
    have hI : INT_MAX = 2147483647 := rfl
    rw [alphabeta_succ, negamax_succ]
    by_cases hw : s.isWinner p.neg = true
    · rw [if_pos hw, if_pos hw, win_score (d + 1) hd]
      refine ⟨_, rfl, rfl, ?_, ?_, fun _ => le_refl _, fun _ => le_refl _⟩
      · simp only; push_cast; omega
      · simp only; push_cast; omega
    · rw [if_neg hw, if_neg hw]
      by_cases hgo : s.isGameOver = true
      · rw [if_pos hgo, if_pos ((isGameOver_iff s).1 hgo)]
        exact ⟨_, rfl, rfl, by simp only; omega, by simp only; omega, fun _ => le_refl _,
          fun _ => le_refl _⟩
      · have hne : ¬ s.validColumns = [] := fun h => hgo ((isGameOver_iff s).2 h)
        rw [if_neg hgo, if_neg hne]
        obtain ⟨f2, r1, r2, r3, r4, r5, r6, r7, -⟩ := searchLoop_value
          (fun g r a b => alphabeta shuffle d g r a b p.neg) d p hp s hg beta
          (child_of_value shuffle n d p hp s hg ht beta hb1 hb2
            (fun t rng2 a b h1 h2 h3 h4 h5 h6 =>
              ih p.neg t rng2 a b (neg_ne_EMPTY p hp) (by omega) h1 h2 h3 h4 h5 h6))
          (shuffle rng) ⟨s, rng + 1, -INT_MAX, none, alpha⟩ (sameBoard_refl s) ha1
          (le_refl _) ha2 (by simp only; omega)
        rw [r1]
        simp only at r3 r7
        obtain ⟨c0, hc0⟩ := List.exists_mem_of_ne_nil _ hne
        have hv0 := (mem_validColumns s c0).1 hc0
        have hlow := r5 ⟨c0, mem_shuffle shuffle hsh rng c0 (isValidMove_lt s c0 hv0), hv0⟩
        have hne2 : s.validColumns.map (fun c => moveValue d s p c) ≠ [] :=
          fun h => hne (List.map_eq_nil_iff.1 h)
        refine ⟨_, rfl, r2.1, hlow, r4, ?_, ?_⟩
        · intro hlt
          apply maxOf_le _ _ hne2
          intro x hx
          obtain ⟨c, hc, rfl⟩ := List.mem_map.1 hx
          have hv := (mem_validColumns s c).1 hc
          exact r6 hlt c (mem_shuffle shuffle hsh rng c (isValidMove_lt s c hv)) hv
        · intro hgt
          obtain ⟨c, -, hv, -, hle⟩ := r7 hgt
          exact le_trans hle (le_maxOf _ _ (List.mem_map.2 ⟨c, (mem_validColumns s c).2 hv, rfl⟩))

/-! ## Claims on the value and the column of the search -/

theorem isShuffle_baseShuffle : IsShuffle baseShuffle := fun _ => List.Perm.refl _

theorem depth_fits (d : Nat) (h : 100 * ((d : Int) + 1) ≤ INT_MAX) :
    100 * (d + 1) ≤ 2147483646 := by
  unfold INT_MAX at h; omega

theorem tame_of_limit (s : ConnectFour) (h : bucketsAtMost 19000000 s) :
    Tame 19000168 s := tame_of_bucketsAtMost 19000000 s h

/-- The search at the root, when it recurses: the call returns with the grid it was given,
`bestColumn` holds a valid column, the returned score is the unpruned negamax score of that
column, and no valid column has a greater one. -/
theorem alphabeta_root (shuffle : Nat → List Nat) (hsh : IsShuffle shuffle) (s : ConnectFour)
    (rng : Nat) (p : Player) (d : Nat) (hp : p ≠ Player.EMPTY) (hg : Gravity s.grid)
    (hd : 100 * (d + 2) ≤ 2147483646) (hw : s.isWinner p.neg = false)
    (hv : ∃ c, s.isValidMove c = true) (ht : Tame 19000168 s) :
    ∃ out c, alphabeta shuffle (d + 1) s rng (-INT_MAX) INT_MAX p = some out ∧
      out.game.grid = s.grid ∧ out.bestColumn = some c ∧ s.isValidMove c = true ∧
      out.score = moveValue d s p c ∧
      ∀ c2, s.isValidMove c2 = true → moveValue d s p c2 ≤ moveValue d s p c := by
  have hI : INT_MAX = 2147483647 := rfl
  obtain ⟨c0, hv0⟩ := hv
  have hgo : ¬ s.isGameOver = true := by
    intro h
    have := (isGameOver_iff s).1 h
    have hm := (mem_validColumns s c0).2 hv0
    rw [this] at hm
    cases hm
  rw [alphabeta_succ, if_neg (by rw [hw]; decide), if_neg hgo]
  obtain ⟨f2, r1, r2, r3, r4, r5, r6, r7, -⟩ := searchLoop_value
    (fun g r a b => alphabeta shuffle d g r a b p.neg) d p hp s hg INT_MAX
    (child_of_value shuffle 19000168 d p hp s hg ht INT_MAX (by omega) (by omega)
      (fun t rng2 a b h1 h2 h3 h4 h5 h6 =>
        alphabeta_value shuffle hsh 19000168 (by omega) d p.neg t rng2 a b (neg_ne_EMPTY p hp)
          (by omega) h1 h2 h3 h4 h5 h6))
    (shuffle rng) ⟨s, rng + 1, -INT_MAX, none, -INT_MAX⟩ (sameBoard_refl s) (le_refl _)
    (le_refl _) (by simp only; omega) (by simp only; omega)
  rw [r1]
  simp only at r3 r7
  have hlow := r5 ⟨c0, mem_shuffle shuffle hsh rng c0 (isValidMove_lt s c0 hv0), hv0⟩
  obtain ⟨c, -, hvc, hw2, hle⟩ := r7 (by omega)
  have hup := r6 (by omega)
  have hc := hup c (mem_shuffle shuffle hsh rng c (isValidMove_lt s c hvc)) hvc
  refine ⟨_, c, rfl, r2.1, hw2, hvc, le_antisymm hle hc, ?_⟩
  intro c2 hv2
  exact le_trans (hup c2 (mem_shuffle shuffle hsh rng c2 (isValidMove_lt s c2 hv2)) hv2) hle

/-- The call `chooseNextMove` when the search recurses: it returns a valid column whose unpruned negamax
score is the greatest among the valid columns. -/
theorem chooseNextMove_search (shuffle : Nat → List Nat) (hsh : IsShuffle shuffle)
    (s : ConnectFour) (rng : Nat) (p : Player) (d : Nat) (hp : p ≠ Player.EMPTY)
    (hg : Gravity s.grid) (hcenter : (s.grid.get 3).get 5 ≠ Player.EMPTY) (hd1 : 1 ≤ d)
    (hd : 100 * ((d : Int) + 1) ≤ INT_MAX) (hw : s.isWinner p.neg = false)
    (hv : ∃ c, s.isValidMove c = true) (hb : bucketsAtMost 19000000 s) :
    ∃ t rng2 c, chooseNextMove shuffle s rng p d = some (t, rng2, c) ∧
      s.isValidMove c = true ∧
      ∀ c2, s.isValidMove c2 = true → moveValue (d - 1) s p c2 ≤ moveValue (d - 1) s p c := by
  obtain ⟨e, rfl⟩ : ∃ e, d = e + 1 := ⟨d - 1, by omega⟩
  have hd2 := depth_fits _ hd
  obtain ⟨out, c, h1, -, h3, h4, -, h6⟩ := alphabeta_root shuffle hsh s rng p e hp hg
    (by omega) hw hv (tame_of_limit s hb)
  rw [chooseNextMove_eq, if_neg hcenter, h1]
  refine ⟨out.game, out.rng, c, ?_, h4, h6⟩
  simp only [Option.map_some', h3, Option.getD_some]

/-- C4 (amended): on a gravity-respecting board with a playable column, for a player in {X, O}
and any shuffles, the column returned by `chooseNextMove(p, depth)` is a valid move when the
center bottom cell is Empty, and also when the search recurses and its values stay in range:
depth at least 1 with `100 * (depth + 1)` within `int`, the opponent of `p` has not won, and the
buckets are at most 19 000 000. -/
theorem chooseNextMove_valid (shuffle : Nat → List Nat) (hsh : IsShuffle shuffle)
    (s : ConnectFour) (rng : Nat) (p : Player) (d : Nat) (hp : p ≠ Player.EMPTY)
    (hg : Gravity s.grid) (hv : ∃ c, s.isValidMove c = true)
    (hcase : (s.grid.get 3).get 5 = Player.EMPTY ∨
      (1 ≤ d ∧ 100 * ((d : Int) + 1) ≤ INT_MAX ∧ s.isWinner p.neg = false ∧
        bucketsAtMost 19000000 s)) :
    ∃ t rng2 c, chooseNextMove shuffle s rng p d = some (t, rng2, c) ∧
      s.isValidMove c = true := by
  by_cases hcenter : (s.grid.get 3).get 5 = Player.EMPTY
  · rw [chooseNextMove_eq, if_pos hcenter]
    refine ⟨s, rng, 3, rfl, ?_⟩
    rw [isValidMove_iff]
    refine ⟨by omega, ?_⟩
    by_contra hne
    exact hg 3 0 5 (by decide) hne hcenter
  · rcases hcase with h | ⟨h1, h2, h3, h4⟩
    · exact absurd h hcenter
    · obtain ⟨t, rng2, c, e1, e2, -⟩ := chooseNextMove_search shuffle hsh s rng p d hp hg
        hcenter h1 h2 h3 hv h4
      exact ⟨t, rng2, c, e1, e2⟩

theorem chooseNextMove_valid_witness :
    IsShuffle baseShuffle ∧ Player.X ≠ Player.EMPTY ∧ Gravity centerFull.grid ∧
    (∃ c, centerFull.isValidMove c = true) ∧
    ((centerFull.grid.get 3).get 5 = Player.EMPTY ∨
      (1 ≤ 1 ∧ 100 * (((1 : Nat) : Int) + 1) ≤ INT_MAX ∧
        centerFull.isWinner Player.X.neg = false ∧ bucketsAtMost 19000000 centerFull)) ∧
    ∃ t rng2 c, chooseNextMove baseShuffle centerFull 0 Player.X 1 = some (t, rng2, c) ∧
      centerFull.isValidMove c = true :=
  ⟨isShuffle_baseShuffle, by decide, by decide, ⟨0, by decide⟩,
    Or.inr ⟨by decide, by decide, by decide, by decide⟩,
    chooseNextMove_valid baseShuffle isShuffle_baseShuffle centerFull 0 Player.X 1 (by decide)
      (by decide) ⟨0, by decide⟩ (Or.inr ⟨by decide, by decide, by decide, by decide⟩)⟩

/-- C4 as stated fails at depth 0: on the board reached by X and O playing column 3 in turn six
times, six columns are playable, the search at depth 0 assigns nothing to `bestColumn`, and
`chooseNextMove` returns 3, a full column. -/
theorem chooseNextMove_valid_counterexample :
    Reachable centerFull ∧ Gravity centerFull.grid ∧ centerFull.isValidMove 0 = true ∧
    (chooseNextMove baseShuffle centerFull 0 Player.X 0).map
      (fun r => (r.2.2, centerFull.isValidMove r.2.2)) = some (3, false) := by
  refine ⟨?_, by decide, by decide, by decide⟩
  have h : centerFull = (emptyBoard.reset.playMoves [(3, Player.X), (3, Player.O),
      (3, Player.X), (3, Player.O), (3, Player.X), (3, Player.O)]).getD emptyBoard := by
    decide
  rw [h]
  exact reachable_getD_playMoves _ _ _ (Reachable.reset emptyBoard) reachable_emptyBoard

theorem isValidMove_false_iff (s : ConnectFour) (c : Fin 7) :
    s.isValidMove c.val = false ↔ (s.grid.get c).get 0 ≠ Player.EMPTY := by
  rw [← Bool.not_eq_true, isValidMove_iff]
  constructor
  · intro h he
    exact h ⟨c.isLt, he⟩
  · rintro h ⟨_, he⟩
    exact h he

theorem isGameOver_iff_forall (s : ConnectFour) :
    s.isGameOver = true ↔ ∀ c : Nat, c < 7 → s.isValidMove c = false := by
  unfold isGameOver
  rw [List.all_eq_true]
  constructor
  · intro h c hc
    have := h c (List.mem_range.mpr hc)
    simpa using this
  · intro h c hc
    have := h c (List.mem_range.mp hc)
    simp [this]

theorem top_empty_of_gravity (col : Column) (hg : gravityColumn col) (r : Fin 6)
    (he : col.get r = Player.EMPTY) : col.get 0 = Player.EMPTY := by
  by_contra h0
  by_cases hr : r = 0
  · exact h0 (hr ▸ he)
  · have hlt : (0 : Fin 6) < r := by
      rw [Fin.lt_def]
      have : r.val ≠ 0 := fun h => hr (Fin.ext h)
      simp only [Fin.val_zero]
      omega
    exact hg 0 r hlt h0 he

/-- C11: `isGameOver()` is true exactly when `isValidMove(c)` is false for every column `c` of
`0 .. 6`, that is when the top cell of every column is occupied; on a board that respects
gravity this is the case exactly when all 42 cells are occupied; a full board always gives
`true`. -/
theorem isGameOver_iff_full (s : ConnectFour) :
    (s.isGameOver = true ↔ ∀ c : Nat, c < 7 → s.isValidMove c = false) ∧
    (∀ c : Fin 7, s.isValidMove c.val = false ↔ (s.grid.get c).get 0 ≠ Player.EMPTY) ∧
    (Gravity s.grid → (s.isGameOver = true ↔ fullGrid s.grid)) ∧
    (fullGrid s.grid → s.isGameOver = true) := by
  have hfull : fullGrid s.grid → s.isGameOver = true := by
    intro hf
    rw [isGameOver_iff_forall]
    intro c hc
    exact (isValidMove_false_iff s ⟨c, hc⟩).mpr (hf ⟨c, hc⟩ 0)
  refine ⟨isGameOver_iff_forall s, isValidMove_false_iff s, fun hg => ⟨?_, hfull⟩, hfull⟩
  intro hover c r he
  rw [isGameOver_iff_forall] at hover
  have h0 := top_empty_of_gravity _ (hg c) r he
  exact (isValidMove_false_iff s c).mp (hover c.val c.isLt) h0

theorem isGameOver_iff_full_witness :
    Gravity drawnBoard.grid ∧ (drawnBoard.isGameOver = true ↔ fullGrid drawnBoard.grid) ∧
    fullGrid drawnBoard.grid ∧ drawnBoard.isGameOver = true :=
  ⟨by decide, (isGameOver_iff_full drawnBoard).2.2.1 (by decide), by decide,
    (isGameOver_iff_full drawnBoard).2.2.2 (by decide)⟩

theorem gravity_setCell_erase (g : Grid) (c : Fin 7) (hg : Gravity g)
    (hk : countEmpty (g.get c) < 6) : Gravity (setCell g c ⟨_, hk⟩ Player.EMPTY) := by
  intro c2
  by_cases h : c2 = c
  · subst h
    rw [get_setCell_same]
    exact ((column_erase (g.get c2)).2 hk).1.mp (hg c2)
  · rw [get_setCell_ne _ _ _ _ _ h]
    exact hg c2

theorem countEmpty_lt_of_piece (col : Column) (hg : gravityColumn col)
    (h : ∃ r : Fin 6, col.get r ≠ Player.EMPTY) : countEmpty col < 6 := by
  obtain ⟨r, hr⟩ := h
  have := (gravityColumn_iff col).mp hg r
  have h2 : ¬ r.val < countEmpty col := fun hlt => hr (this.mpr hlt)
  have := r.isLt
  omega

theorem eraseMove_gravity (s : ConnectFour) (c : Nat) (hc : c < 7) (hg : Gravity s.grid)
    (h : ∃ r : Fin 6, (s.grid.get ⟨c, hc⟩).get r ≠ Player.EMPTY) :
    ∃ t, s.eraseMove c = some t ∧ Gravity t.grid := by
  have hk := countEmpty_lt_of_piece _ (hg ⟨c, hc⟩) h
  refine ⟨_, eraseMove_eq s c hc hk, ?_⟩
  exact gravity_setCell_erase s.grid ⟨c, hc⟩ hg hk

theorem playInColumn_gravity (s : ConnectFour) (c : Nat) (p : Player) (hg : Gravity s.grid)
    (hp : p ≠ Player.EMPTY) (hv : s.isValidMove c = true) :
    ∃ t, s.playInColumn c p = some t ∧ Gravity t.grid := by
  obtain ⟨hc, hk, _, h2⟩ := afterPlay_eq s c p hp hv
  exact ⟨_, h2, afterPlay_gravity s c p hp hv hg⟩

theorem gravity_reachableUndo (s : ConnectFour) (h : ReachableUndo s) : Gravity s.grid := by
  induction h with
  | reset s => exact (invariant_reset s).1
  | play s t c p _ hp hv hplay ih =>
    obtain ⟨t2, h1, h2⟩ := playInColumn_gravity s c p ih hp hv
    rw [hplay] at h1
    cases h1
    exact h2
  | erase s t c hc _ hpiece herase ih =>
    obtain ⟨t2, h1, h2⟩ := eraseMove_gravity s c hc ih hpiece
    rw [herase] at h1
    cases h1
    exact h2

theorem columnShape_of_gravity (col : Column) (hg : gravityColumn col) :
    ∃ k, k ≤ 6 ∧ columnShape col k := by
  refine ⟨countEmpty col, countEmpty_le col, fun r => ⟨fun h => ?_, fun h he => ?_⟩⟩
  · exact ((gravityColumn_iff col).mp hg r).mpr h
  · have := ((gravityColumn_iff col).mp hg r).mp he
    omega

theorem reachableUndo_of_reachable (s : ConnectFour) (h : Reachable s) : ReachableUndo s := by
  induction h with
  | reset s => exact ReachableUndo.reset s
  | play s t c p _ hp hv hplay ih => exact ReachableUndo.play s t c p ih hp hv hplay

/-- C12: gravity is an invariant of the board. The state after `reset()` satisfies it; a call
`playInColumn(c, p)` with `p` in `{X, O}` on a valid column returns and preserves it; a call
`eraseMove(c)` on a column holding at least one piece returns and preserves it; hence in every
state reached by such calls each column consists of `k` (0..6) Empty cells at rows `0 .. k - 1`
followed by occupied cells at rows `k .. 5`. -/
theorem gravity_invariant :
    (∀ s : ConnectFour, Gravity s.reset.grid) ∧
    (∀ (s : ConnectFour) (c : Nat) (p : Player), Gravity s.grid → p ≠ Player.EMPTY →
      s.isValidMove c = true → ∃ t, s.playInColumn c p = some t ∧ Gravity t.grid) ∧
    (∀ (s : ConnectFour) (c : Nat) (hc : c < 7), Gravity s.grid →
      (∃ r : Fin 6, (s.grid.get ⟨c, hc⟩).get r ≠ Player.EMPTY) →
      ∃ t, s.eraseMove c = some t ∧ Gravity t.grid) ∧
    (∀ s : ConnectFour, ReachableUndo s →
      Gravity s.grid ∧ ∀ c : Fin 7, ∃ k, k ≤ 6 ∧ columnShape (s.grid.get c) k) :=
  ⟨fun s => (invariant_reset s).1,
   fun s c p hg hp hv => playInColumn_gravity s c p hg hp hv,
   fun s c hc hg h => eraseMove_gravity s c hc hg h,
   fun s h => ⟨gravity_reachableUndo s h,
     fun c => columnShape_of_gravity _ (gravity_reachableUndo s h c)⟩⟩

theorem gravity_invariant_witness :
    (∃ t, threeInRow.playInColumn 2 Player.O = some t ∧ Gravity t.grid) ∧
    (∃ t, threeInRow.eraseMove 2 = some t ∧ Gravity t.grid) ∧
    (Gravity threeInRow.grid ∧ ∀ c : Fin 7, ∃ k, k ≤ 6 ∧ columnShape (threeInRow.grid.get c) k) :=
  ⟨gravity_invariant.2.1 threeInRow 2 Player.O (by decide) (by decide) (by decide),
   gravity_invariant.2.2.1 threeInRow 2 (by decide) (by decide) ⟨5, by decide⟩,
   gravity_invariant.2.2.2 threeInRow (reachableUndo_of_reachable _ reachable_threeInRow)⟩

/-- C13: on a state that respects gravity, `playInColumn(c, p)` with `p` in `{X, O}` on a valid
column changes exactly one cell of the grid: the Empty cell of column `c` with the greatest row
index becomes `p`, every other cell keeps its content, and the last-move pointer holds the
coordinates of that cell. -/
theorem playInColumn_lowest_empty (s : ConnectFour) (c : Nat) (p : Player)
    (hg : Gravity s.grid) (hv : s.isValidMove c = true) (hp : p ≠ Player.EMPTY) :
    ∃ (t : ConnectFour) (hc : c < 7) (r : Fin 6), s.playInColumn c p = some t ∧
      (s.grid.get ⟨c, hc⟩).get r = Player.EMPTY ∧
      (∀ r2 : Fin 6, (s.grid.get ⟨c, hc⟩).get r2 = Player.EMPTY → r2 ≤ r) ∧
      (∀ (c2 : Fin 7) (r2 : Fin 6), (t.grid.get c2).get r2 =
        if c2 = ⟨c, hc⟩ ∧ r2 = r then p else (s.grid.get c2).get r2) ∧
      t.lastBoxColumn = c ∧ t.lastBoxRow = r.val := by
  obtain ⟨hc, hk, hplay⟩ := playInColumn_eq s c p hp hv
  have hcol := (gravityColumn_iff _).mp (hg ⟨c, hc⟩)
  obtain ⟨_, h1, _⟩ := column_play (s.grid.get ⟨c, hc⟩) p hp ((isValidMove_iff s c).mp hv).2
  refine ⟨_, hc, ⟨_, hk⟩, hplay, ?_, ?_, ?_, rfl, rfl⟩
  · apply (hcol _).mpr
    simp only
    omega
  · intro r2 he
    have := (hcol r2).mp he
    rw [Fin.le_def]
    simp only
    omega
  · intro c2 r2
    rw [placedState_grid, get_get_setCell]

theorem playInColumn_lowest_empty_witness :
    Gravity centerFull.grid ∧ centerFull.isValidMove 2 = true ∧ Player.O ≠ Player.EMPTY ∧
    ∃ (t : ConnectFour) (hc : 2 < 7) (r : Fin 6), centerFull.playInColumn 2 Player.O = some t ∧
      (centerFull.grid.get ⟨2, hc⟩).get r = Player.EMPTY ∧
      (∀ r2 : Fin 6, (centerFull.grid.get ⟨2, hc⟩).get r2 = Player.EMPTY → r2 ≤ r) ∧
      (∀ (c2 : Fin 7) (r2 : Fin 6), (t.grid.get c2).get r2 =
        if c2 = ⟨2, hc⟩ ∧ r2 = r then Player.O else (centerFull.grid.get c2).get r2) ∧
      t.lastBoxColumn = 2 ∧ t.lastBoxRow = r.val :=
  ⟨by decide, by decide, by decide,
    playInColumn_lowest_empty centerFull 2 Player.O (by decide) (by decide) (by decide)⟩

theorem terminal_score_zero : wrapInt (-100 * wrapInt (uadd1 0)) = -100 := by decide

theorem alphabeta_zero_of_not_won (shuffle : Nat → List Nat) (s : ConnectFour) (rng : Nat)
    (alpha beta : Int) (p : Player) (h : s.isWinner p.neg = false) :
    alphabeta shuffle 0 s rng alpha beta p = some ⟨s, rng, s.nodeValue p, none⟩ := by
  rw [alphabeta_zero, h]
  rfl

theorem alphabeta_zero_of_won (shuffle : Nat → List Nat) (s : ConnectFour) (rng : Nat)
    (alpha beta : Int) (p : Player) (h : s.isWinner p.neg = true) :
    alphabeta shuffle 0 s rng alpha beta p = some ⟨s, rng, -100, none⟩ := by
  rw [alphabeta_zero, h, terminal_score_zero]
  rfl

/-- C14 (amended): a search with remaining depth 0 makes no placement and no shuffle: it
returns with the object and the shuffle counter unchanged and writes no column. Its score is
the heuristic evaluation `nodeValue(p)` when the opponent of `p` has no recorded four
(`isWinner(-p)` false), and the terminal-win score `-100 * (0 + 1) = -100` when `isWinner(-p)`
is true. -/
theorem alphabeta_depth_zero (shuffle : Nat → List Nat) (s : ConnectFour) (rng : Nat)
    (alpha beta : Int) (p : Player) :
    (s.isWinner p.neg = false →
      alphabeta shuffle 0 s rng alpha beta p = some ⟨s, rng, s.nodeValue p, none⟩) ∧
    (s.isWinner p.neg = true →
      alphabeta shuffle 0 s rng alpha beta p = some ⟨s, rng, -100, none⟩) :=
  ⟨alphabeta_zero_of_not_won shuffle s rng alpha beta p,
   alphabeta_zero_of_won shuffle s rng alpha beta p⟩

theorem alphabeta_depth_zero_witness :
    threeInRow.isWinner Player.X.neg = false ∧
    alphabeta baseShuffle 0 threeInRow 0 (-INT_MAX) INT_MAX Player.X
      = some ⟨threeInRow, 0, threeInRow.nodeValue Player.X, none⟩ ∧
    wonByO.isWinner Player.X.neg = true ∧
    alphabeta baseShuffle 0 wonByO 0 (-INT_MAX) INT_MAX Player.X
      = some ⟨wonByO, 0, -100, none⟩ :=
  ⟨by decide,
   (alphabeta_depth_zero baseShuffle threeInRow 0 (-INT_MAX) INT_MAX Player.X).1 (by decide),
   by decide,
   (alphabeta_depth_zero baseShuffle wonByO 0 (-INT_MAX) INT_MAX Player.X).2 (by decide)⟩

/-- C14 as stated fails: after the valid moves X:1, O:0, X:1, O:0, X:1, O:0, X:2, O:0 player O
has four in column 0; the search for X with remaining depth 0 returns the terminal-win score
`-100`, while the heuristic evaluation `nodeValue(X)` of that position is `-88`. -/
theorem alphabeta_depth_zero_counterexample :
    Reachable wonByO ∧
    (alphabeta baseShuffle 0 wonByO 0 (-INT_MAX) INT_MAX Player.X).map (fun out => out.score)
      = some (-100) ∧
    wonByO.nodeValue Player.X = -88 :=
  ⟨reachable_wonByO, by decide, by decide⟩

theorem reachable_drawnBoard : Reachable drawnBoard :=
  reachable_getD_playMoves _ _ _ (Reachable.reset emptyBoard) reachable_emptyBoard

theorem isWinner_neg_false (s : ConnectFour) (p : Player) (hp : p ≠ Player.EMPTY)
    (hX : s.isWinner Player.X = false) (hO : s.isWinner Player.O = false) :
    s.isWinner p.neg = false := by
  cases p
  · exact hX
  · exact absurd rfl hp
  · exact hO

/-- C15 (amended): on a full board on which `isWinner` is false for both players, for either
player to move, the search with a remaining depth above 0 returns 0, and the search with
remaining depth 0 returns the heuristic evaluation `nodeValue(p)`; in both cases the object is
left unchanged. -/
theorem alphabeta_full_board (shuffle : Nat → List Nat) (s : ConnectFour) (rng : Nat)
    (alpha beta : Int) (p : Player) (depth : Nat) (hfull : fullGrid s.grid)
    (hX : s.isWinner Player.X = false) (hO : s.isWinner Player.O = false)
    (hp : p ≠ Player.EMPTY) :
    alphabeta shuffle (depth + 1) s rng alpha beta p = some ⟨s, rng, 0, none⟩ ∧
    alphabeta shuffle 0 s rng alpha beta p = some ⟨s, rng, s.nodeValue p, none⟩ := by
  have hw := isWinner_neg_false s p hp hX hO
  refine ⟨?_, alphabeta_zero_of_not_won shuffle s rng alpha beta p hw⟩
  have hover : s.isGameOver = true := by
    rw [isGameOver_iff_forall]
    intro c hc
    exact (isValidMove_false_iff s ⟨c, hc⟩).mpr (hfull ⟨c, hc⟩ 0)
  rw [alphabeta_succ, hw, hover]
  rfl

theorem alphabeta_full_board_witness :
    fullGrid drawnBoard.grid ∧ drawnBoard.isWinner Player.X = false ∧
    drawnBoard.isWinner Player.O = false ∧ Player.O ≠ Player.EMPTY ∧
    alphabeta baseShuffle (2 + 1) drawnBoard 0 (-INT_MAX) INT_MAX Player.O
      = some ⟨drawnBoard, 0, 0, none⟩ ∧
    alphabeta baseShuffle 0 drawnBoard 0 (-INT_MAX) INT_MAX Player.O
      = some ⟨drawnBoard, 0, drawnBoard.nodeValue Player.O, none⟩ :=
  ⟨by decide, by decide, by decide, by decide,
    alphabeta_full_board baseShuffle drawnBoard 0 (-INT_MAX) INT_MAX Player.O 2
      (by decide) (by decide) (by decide) (by decide)⟩

/-- C15 as stated fails: the game `drawnMoves` (42 valid moves, X and O in turn) ends on a full
board on which `isWinner` is false for both players; the search with remaining depth 0 returns
`-21` for X to move and `21` for O to move, not 0. -/
theorem alphabeta_full_board_counterexample :
    Reachable drawnBoard ∧ fullGrid drawnBoard.grid ∧
    drawnBoard.isWinner Player.X = false ∧ drawnBoard.isWinner Player.O = false ∧
    (alphabeta baseShuffle 0 drawnBoard 0 (-INT_MAX) INT_MAX Player.X).map (fun out => out.score)
      = some (-21) ∧
    (alphabeta baseShuffle 0 drawnBoard 0 (-INT_MAX) INT_MAX Player.O).map (fun out => out.score)
      = some 21 :=
  ⟨reachable_drawnBoard, by decide, by decide, by decide, by decide, by decide⟩

theorem runLength_true (f : Int → Bool) (sg : Int) :
    ∀ (n : Nat) (k : Int) (j : Nat), j < runLength f sg n k → f (k + j * sg) = true := by
  intro n
  induction n with
  | zero => intro k j h; simp [runLength] at h
  | succ n ih =>
    intro k j h
    unfold runLength at h
    by_cases hf : f k = true
    · rw [if_pos hf] at h
      cases j with
      | zero => simpa using hf
      | succ j =>
        have := ih (k + sg) j (by omega)
        rw [← this]
        congr 1
        push_cast
        ring
    · rw [if_neg hf] at h
      omega

theorem runLength_stop (f : Int → Bool) (sg : Int) :
    ∀ (n : Nat) (k : Int), runLength f sg n k < n →
      f (k + (runLength f sg n k : Nat) * sg) = false := by
  intro n
  induction n with
  | zero => intro k h; omega
  | succ n ih =>
    intro k h
    unfold runLength at h ⊢
    by_cases hf : f k = true
    · rw [if_pos hf] at h ⊢
      have := ih (k + sg) (by omega)
      rw [← this]
      congr 1
      push_cast
      ring
    · rw [if_neg hf]
      simpa using hf

theorem runLength_min (f : Int → Bool) (sg : Int) :
    ∀ (n m : Nat) (k : Int), n ≤ m → runLength f sg n k = min n (runLength f sg m k) := by
  intro n
  induction n with
  | zero => intro m k _; simp [runLength]
  | succ n ih =>
    intro m k h
    obtain ⟨m2, rfl⟩ : ∃ m2, m = m2 + 1 := ⟨m - 1, by omega⟩
    unfold runLength
    by_cases hf : f k = true
    · rw [if_pos hf, if_pos hf, ih m2 (k + sg) (by omega)]
      omega
    · rw [if_neg hf, if_neg hf]
      omega

theorem runLength_lt_of_false (f : Int → Bool) (sg : Int) (n : Nat) (k : Int) (j : Nat)
    (h : f (k + j * sg) = false) : runLength f sg n k ≤ j := by
  by_contra hlt
  have := runLength_true f sg n k j (by omega)
  rw [h] at this
  exact Bool.false_ne_true this

/-- The maximal run around index 0 of a sequence that is `true` at 0 and `false` at `7` and at
`-7`, and the lengths found by the scans. -/
theorem runAround_exists (f : Int → Bool) (h0 : f 0 = true) (hp : f 7 = false)
    (hm : f (-7) = false) :
    ∃ a b : Nat, runAround f a b ∧ biScan f = min 4 (a + b + 1) ∧
      downScan f = min 4 (a + 1) ∧ (f (-1) = false → b = 0) := by
  have ha : runLength f 1 7 1 ≤ 6 := runLength_lt_of_false f 1 7 1 6 (by simpa using hp)
  have hb : runLength f (-1) 7 (-1) ≤ 6 :=
    runLength_lt_of_false f (-1) 7 (-1) 6 (by simpa using hm)
  refine ⟨runLength f 1 7 1, runLength f (-1) 7 (-1), ⟨?_, ?_, ?_⟩, ?_, ?_, ?_⟩
  · intro k hk1 hk2
    rcases lt_trichotomy k 0 with hneg | hz | hpos
    · have := runLength_true f (-1) 7 (-1) (-k - 1).toNat (by omega)
      rw [← this]
      congr 1
      omega
    · rw [hz]; exact h0
    · have := runLength_true f 1 7 1 (k - 1).toNat (by omega)
      rw [← this]
      congr 1
      omega
  · have := runLength_stop f 1 7 1 (by omega)
    rw [← this]
    congr 1
    omega
  · have := runLength_stop f (-1) 7 (-1) (by omega)
    rw [← this]
    congr 1
    omega
  · unfold biScan
    simp only
    rw [runLength_min f 1 3 7 1 (by omega)]
    by_cases h : 1 + min 3 (runLength f 1 7 1) < WIN_SCORE
    · rw [if_pos h, runLength_min f (-1) _ 7 (-1) (by simp only [WIN_SCORE]; omega)]
      simp only [WIN_SCORE] at h ⊢
      omega
    · rw [if_neg h]
      simp only [WIN_SCORE] at h
      omega
  · unfold downScan
    rw [runLength_min f 1 3 7 1 (by omega)]
    omega
  · intro h1
    unfold runLength
    rw [if_neg (by rw [h1]; exact Bool.false_ne_true)]

theorem cellIs_range (g : Grid) (p : Player) (C R : Int) (h : cellIs g p C R = true) :
    0 ≤ C ∧ C < 7 ∧ 0 ≤ R ∧ R < 6 := by
  obtain ⟨c, r, hc, hr, _⟩ := (cellIs_iff g p C R).mp h
  have := c.isLt
  have := r.isLt
  omega

theorem cellIs_false_of_range (g : Grid) (p : Player) (C R : Int)
    (h : ¬ (0 ≤ C ∧ C < 7 ∧ 0 ≤ R ∧ R < 6)) : cellIs g p C R = false := by
  by_contra hc
  exact h (cellIs_range g p C R (by simpa using hc))

theorem runAround_unique (f : Int → Bool) (a b a2 b2 : Nat) (h : runAround f a b)
    (h2 : runAround f a2 b2) : a = a2 ∧ b = b2 := by
  obtain ⟨hin, hfa, hfb⟩ := h
  obtain ⟨hin2, hfa2, hfb2⟩ := h2
  constructor
  · rcases lt_trichotomy a a2 with hlt | heq | hgt
    · have := hin2 (a + 1) (by omega) (by omega)
      rw [hfa] at this
      exact absurd this Bool.false_ne_true
    · exact heq
    · have := hin (a2 + 1) (by omega) (by omega)
      rw [hfa2] at this
      exact absurd this Bool.false_ne_true
  · rcases lt_trichotomy b b2 with hlt | heq | hgt
    · have := hin2 (-(b : Int) - 1) (by omega) (by omega)
      rw [hfb] at this
      exact absurd this Bool.false_ne_true
    · exact heq
    · have := hin (-(b2 : Int) - 1) (by omega) (by omega)
      rw [hfb2] at this
      exact absurd this Bool.false_ne_true

theorem lineSample_far (g : Grid) (p : Player) (c r : Nat) (dc dr : Int)
    (hd : dc = 1 ∨ (dc = 0 ∧ dr = 1)) (hc : c < 7) (hr : r < 6) :
    lineSample g p c r dc dr 7 = false ∧ lineSample g p c r dc dr (-7) = false := by
  unfold lineSample
  constructor <;> apply cellIs_false_of_range <;> rcases hd with h | ⟨h, h2⟩ <;> subst_vars <;> omega

theorem lineSample_runs (g : Grid) (p : Player) (c : Fin 7) (r : Fin 6) (dc dr : Int)
    (hd : dc = 1 ∨ (dc = 0 ∧ dr = 1)) (hcell : (g.get c).get r = p) :
    ∃ a b : Nat, runAround (lineSample g p c.val r.val dc dr) a b ∧
      biScan (lineSample g p c.val r.val dc dr) = min 4 (a + b + 1) ∧
      downScan (lineSample g p c.val r.val dc dr) = min 4 (a + 1) ∧
      (lineSample g p c.val r.val dc dr (-1) = false → b = 0) :=
  runAround_exists _ ((lineSample_zero g p c r dc dr).mpr hcell)
    (lineSample_far g p c.val r.val dc dr hd c.isLt r.isLt).1
    (lineSample_far g p c.val r.val dc dr hd c.isLt r.isLt).2

theorem lineSample_above (g : Grid) (p : Player) (c : Fin 7) (r : Fin 6)
    (hp : p ≠ Player.EMPTY)
    (habove : ∀ r2 : Fin 6, r2 < r → (g.get c).get r2 = Player.EMPTY) :
    lineSample g p c.val r.val 0 1 (-1) = false := by
  unfold lineSample
  by_cases hr : r.val = 0
  · apply cellIs_false_of_range
    omega
  · have hlt : r.val - 1 < 6 := by have := r.isLt; omega
    have he := habove ⟨r.val - 1, hlt⟩ (by rw [Fin.lt_def]; simp only; omega)
    have hcell : cellIs g p (c.val : Int) ((r.val - 1 : Nat) : Int) = false := by
      by_contra hne
      have := (cellIs_at g p c ⟨r.val - 1, hlt⟩).mp (by simpa using hne)
      rw [he] at this
      exact hp this.symm
    rw [← hcell]
    congr 1
    omega

theorem placedState_eq_chain (s : ConnectFour) (c : Fin 7) (r : Fin 6) (p : Player)
    (n1 n2 n3 n4 : Nat)
    (h1 : downScan (lineSample (setCell s.grid c r p) p c.val r.val 0 1) = n1)
    (h2 : biScan (lineSample (setCell s.grid c r p) p c.val r.val 1 (-1)) = n2)
    (h3 : biScan (lineSample (setCell s.grid c r p) p c.val r.val 1 1) = n3)
    (h4 : biScan (lineSample (setCell s.grid c r p) p c.val r.val 1 0) = n4) :
    placedState s c r p
      = ((((placedCell s c r p).recordScore p n1).recordScore p n2).recordScore p
          n3).recordScore p n4 := by
  apply ConnectFour.eq_of_fields
  · simp only [recordScore_grid, placedState, placedCell]
  · simp only [recordScore_lastBoxColumn, placedState, placedCell]
  · simp only [recordScore_lastBoxRow, placedState, placedCell]
  · rw [recordScore4_O, ← h1, ← h2, ← h3, ← h4]
    simp only [placedState, placedCell, scanLengths]
  · rw [recordScore4_X, ← h1, ← h2, ← h3, ← h4]
    simp only [placedState, placedCell, scanLengths]

/-- C16: on a state that respects gravity, `playInColumn(c, p)` with `p` in `{X, O}` on a valid
column places the piece in row `r` (the number of Empty cells of the column minus one), and
each of the four scans returns `min(4, n)`, where `n` is the number of cells of the maximal run
of consecutive `p` cells through the placed cell in its direction: `a + 1` for the column (the
run does not extend above the placed cell), `a + b + 1` for the two diagonals and the row, `a`
cells on one side and `b` on the other. Each `score*` function passes that length to the bucket
update, and the call returns the object updated with these four lengths in the order column,
ascending diagonal, descending diagonal, row. -/
theorem scans_compute_run (s : ConnectFour) (c : Nat) (p : Player) (hg : Gravity s.grid)
    (hv : s.isValidMove c = true) (hp : p ≠ Player.EMPTY) :
    ∃ (hc : c < 7) (r : Fin 6) (n1 n2 n3 n4 : Nat),
      r.val + 1 = countEmpty (s.grid.get ⟨c, hc⟩) ∧
      (∃ a, runAround (lineSample (setCell s.grid ⟨c, hc⟩ r p) p c r.val 0 1) a 0 ∧
        n1 = min 4 (a + 1)) ∧
      (∃ a b, runAround (lineSample (setCell s.grid ⟨c, hc⟩ r p) p c r.val 1 (-1)) a b ∧
        n2 = min 4 (a + b + 1)) ∧
      (∃ a b, runAround (lineSample (setCell s.grid ⟨c, hc⟩ r p) p c r.val 1 1) a b ∧
        n3 = min 4 (a + b + 1)) ∧
      (∃ a b, runAround (lineSample (setCell s.grid ⟨c, hc⟩ r p) p c r.val 1 0) a b ∧
        n4 = min 4 (a + b + 1)) ∧
      (∀ st : ConnectFour, st.grid = setCell s.grid ⟨c, hc⟩ r p → st.lastBoxColumn = c →
        st.lastBoxRow = r.val →
        (st.scanColumn p = some n1 ∧ st.scoreColumn p = some (st.recordScore p n1)) ∧
        (st.scanDiagAsc p = some n2 ∧ st.scoreDiagAsc p = some (st.recordScore p n2)) ∧
        (st.scanDiagDesc p = some n3 ∧ st.scoreDiagDesc p = some (st.recordScore p n3)) ∧
        (st.scanRow p = some n4 ∧ st.scoreRow p = some (st.recordScore p n4))) ∧
      s.playInColumn c p
        = some (((((placedCell s ⟨c, hc⟩ r p).recordScore p n1).recordScore p n2).recordScore p
            n3).recordScore p n4) := by
  obtain ⟨hc, hk, hplay⟩ := playInColumn_eq s c p hp hv
  obtain ⟨_, hpos, _⟩ := column_play (s.grid.get ⟨c, hc⟩) p hp ((isValidMove_iff s c).mp hv).2
  obtain ⟨_, _, _, hcell, habove⟩ :=
    placement_facts s.grid ⟨c, hc⟩ p hp hg ((isValidMove_iff s c).mp hv).2 hk
  obtain ⟨a1, b1, hrun1, _, hd1, hb1⟩ :=
    lineSample_runs _ p ⟨c, hc⟩ ⟨_, hk⟩ 0 1 (Or.inr ⟨rfl, rfl⟩) hcell
  obtain ⟨a2, b2, hrun2, hs2, _, _⟩ :=
    lineSample_runs _ p ⟨c, hc⟩ ⟨_, hk⟩ 1 (-1) (Or.inl rfl) hcell
  obtain ⟨a3, b3, hrun3, hs3, _, _⟩ :=
    lineSample_runs _ p ⟨c, hc⟩ ⟨_, hk⟩ 1 1 (Or.inl rfl) hcell
  obtain ⟨a4, b4, hrun4, hs4, _, _⟩ :=
    lineSample_runs _ p ⟨c, hc⟩ ⟨_, hk⟩ 1 0 (Or.inl rfl) hcell
  have hz : b1 = 0 := hb1 (lineSample_above _ p ⟨c, hc⟩ ⟨_, hk⟩ hp habove)
  subst hz
  refine ⟨hc, ⟨_, hk⟩, min 4 (a1 + 1), min 4 (a2 + b2 + 1), min 4 (a3 + b3 + 1),
    min 4 (a4 + b4 + 1), ?_, ⟨a1, hrun1, rfl⟩, ⟨a2, b2, hrun2, rfl⟩, ⟨a3, b3, hrun3, rfl⟩,
    ⟨a4, b4, hrun4, rfl⟩, ?_, ?_⟩
  · simp only
    omega
  · intro st hgrid hcol hrow
    have hc2 : st.lastBoxColumn < 7 := by rw [hcol]; exact hc
    have hr2 : st.lastBoxRow < 6 := by rw [hrow]; exact hk
    have e1 := scanColumn_eq st p hc2 hr2
    have e2 := scanDiagAsc_eq st p hc2 hr2
    have e3 := scanDiagDesc_eq st p hc2 hr2
    have e4 := scanRow_eq st p hc2 hr2
    rw [hgrid, hcol, hrow] at e1 e2 e3 e4
    rw [hd1] at e1
    rw [hs2] at e2
    rw [hs3] at e3
    rw [hs4] at e4
    unfold scoreColumn scoreDiagAsc scoreDiagDesc scoreRow
    rw [e1, e2, e3, e4]
    exact ⟨⟨rfl, rfl⟩, ⟨rfl, rfl⟩, ⟨rfl, rfl⟩, ⟨rfl, rfl⟩⟩
  · rw [hplay]
    exact congrArg some (placedState_eq_chain s ⟨c, hc⟩ ⟨_, hk⟩ p _ _ _ _ hd1 hs2 hs3 hs4)

theorem scans_compute_run_witness :
    Gravity threeInRow.grid ∧ threeInRow.isValidMove 3 = true ∧ Player.X ≠ Player.EMPTY ∧
    ∃ (hc : 3 < 7) (r : Fin 6) (n1 n2 n3 n4 : Nat),
      r.val + 1 = countEmpty (threeInRow.grid.get ⟨3, hc⟩) ∧
      (∃ a, runAround (lineSample (setCell threeInRow.grid ⟨3, hc⟩ r Player.X) Player.X
          (3 : Nat) r.val 0 1) a 0 ∧ n1 = min 4 (a + 1)) ∧
      (∃ a b, runAround (lineSample (setCell threeInRow.grid ⟨3, hc⟩ r Player.X) Player.X
          (3 : Nat) r.val 1 (-1)) a b ∧ n2 = min 4 (a + b + 1)) ∧
      (∃ a b, runAround (lineSample (setCell threeInRow.grid ⟨3, hc⟩ r Player.X) Player.X
          (3 : Nat) r.val 1 1) a b ∧ n3 = min 4 (a + b + 1)) ∧
      (∃ a b, runAround (lineSample (setCell threeInRow.grid ⟨3, hc⟩ r Player.X) Player.X
          (3 : Nat) r.val 1 0) a b ∧ n4 = min 4 (a + b + 1)) ∧
      (∀ st : ConnectFour, st.grid = setCell threeInRow.grid ⟨3, hc⟩ r Player.X →
        st.lastBoxColumn = 3 → st.lastBoxRow = r.val →
        (st.scanColumn Player.X = some n1 ∧
          st.scoreColumn Player.X = some (st.recordScore Player.X n1)) ∧
        (st.scanDiagAsc Player.X = some n2 ∧
          st.scoreDiagAsc Player.X = some (st.recordScore Player.X n2)) ∧
        (st.scanDiagDesc Player.X = some n3 ∧
          st.scoreDiagDesc Player.X = some (st.recordScore Player.X n3)) ∧
        (st.scanRow Player.X = some n4 ∧
          st.scoreRow Player.X = some (st.recordScore Player.X n4))) ∧
      threeInRow.playInColumn 3 Player.X
        = some (((((placedCell threeInRow ⟨3, hc⟩ r Player.X).recordScore Player.X
            n1).recordScore Player.X n2).recordScore Player.X n3).recordScore Player.X n4) :=
  ⟨by decide, by decide, by decide,
    scans_compute_run threeInRow 3 Player.X (by decide) (by decide) (by decide)⟩

theorem alignmentsCount_large (n : Nat) (a : Alignments) (h1 : 4 < n) (h2 : n < 4294967296) :
    alignmentsCount n a = a := by
  unfold alignmentsCount
  simp only
  rw [dif_pos (by omega)]

theorem get_demoted (a : Alignments) (i : Fin 3) :
    (if a.get i ≠ 0 then a.set i (a.get i - 1) else a).get i
      = if a.get i = 0 then 0 else a.get i - 1 := by
  by_cases h : a.get i = 0
  · rw [if_neg (by simpa using h), if_pos h, h]
  · rw [if_pos h, if_neg h, Mathlib.Vector.get_set_same]

/-- C17: the bucket update `alignmentsCount(L, buckets)` on 32-bit unsigned values. For `L < 2`
and for `L > 4` no bucket changes. For `L` in `{2, 3, 4}` the bucket of length `L` (index
`L - 2`) is incremented by one (modulo `2^32`, which is `+ 1` below `2^32 - 1`), the bucket of
length `L - 1`, when `L ≥ 3`, is decremented by one if it is nonzero and stays 0 otherwise, and
every other bucket is unchanged. -/
theorem alignmentsCount_rule (L : Nat) (a : Alignments) (hL : L < 4294967296) :
    (L < 2 ∨ 4 < L → alignmentsCount L a = a) ∧
    (L = 2 → (alignmentsCount L a).get 0 = uadd1 (a.get 0) ∧
      (alignmentsCount L a).get 1 = a.get 1 ∧ (alignmentsCount L a).get 2 = a.get 2) ∧
    (L = 3 → (alignmentsCount L a).get 0 = (if a.get 0 = 0 then 0 else a.get 0 - 1) ∧
      (alignmentsCount L a).get 1 = uadd1 (a.get 1) ∧ (alignmentsCount L a).get 2 = a.get 2) ∧
    (L = 4 → (alignmentsCount L a).get 0 = a.get 0 ∧
      (alignmentsCount L a).get 1 = (if a.get 1 = 0 then 0 else a.get 1 - 1) ∧
      (alignmentsCount L a).get 2 = uadd1 (a.get 2)) ∧
    (∀ x : Nat, x < 4294967295 → uadd1 x = x + 1) := by
  refine ⟨?_, ?_, ?_, ?_, uadd1_of_lt⟩
  · rintro (h | h)
    · exact alignmentsCount_small L a h
    · exact alignmentsCount_large L a h hL
  · rintro rfl
    rw [alignmentsCount_two]
    refine ⟨Mathlib.Vector.get_set_same _ _ _, ?_, ?_⟩
    · exact Mathlib.Vector.get_set_of_ne (by decide) _
    · exact Mathlib.Vector.get_set_of_ne (by decide) _
  · rintro rfl
    rw [alignmentsCount_three]
    refine ⟨?_, ?_, ?_⟩
    · rw [Mathlib.Vector.get_set_of_ne (by decide), get_demoted]
    · rw [Mathlib.Vector.get_set_same, get_ite_set a 0 1 (by decide)]
    · rw [Mathlib.Vector.get_set_of_ne (by decide), get_ite_set a 0 2 (by decide)]
  · rintro rfl
    rw [alignmentsCount_four]
    refine ⟨?_, ?_, ?_⟩
    · rw [Mathlib.Vector.get_set_of_ne (by decide), get_ite_set a 1 0 (by decide)]
    · rw [Mathlib.Vector.get_set_of_ne (by decide), get_demoted]
    · rw [Mathlib.Vector.get_set_same, get_ite_set a 1 2 (by decide)]

theorem alignmentsCount_rule_witness :
    ((alignmentsCount 3 ⟨[5, 7, 9], rfl⟩).get 0 = (if (5 : Nat) = 0 then 0 else 5 - 1) ∧
      (alignmentsCount 3 ⟨[5, 7, 9], rfl⟩).get 1 = uadd1 7 ∧
      (alignmentsCount 3 ⟨[5, 7, 9], rfl⟩).get 2 = 9) ∧
    alignmentsCount 1 ⟨[5, 7, 9], rfl⟩ = ⟨[5, 7, 9], rfl⟩ ∧
    uadd1 7 = 7 + 1 :=
  ⟨(alignmentsCount_rule 3 ⟨[5, 7, 9], rfl⟩ (by decide)).2.2.1 rfl,
   (alignmentsCount_rule 1 ⟨[5, 7, 9], rfl⟩ (by decide)).1 (Or.inl (by decide)),
   (alignmentsCount_rule 3 ⟨[5, 7, 9], rfl⟩ (by decide)).2.2.2.2 7 (by decide)⟩

theorem sameBoard_reset (s0 : ConnectFour) : SameBoard emptyBoard s0.reset :=
  ⟨by rw [reset_grid]; decide, by rw [reset_alignmentsO]; decide,
    by rw [reset_alignmentsX]; decide⟩

theorem playMoves_sameBoard (s t : ConnectFour) (h : SameBoard s t) (c : Nat) (p : Player)
    (rest : List (Nat × Player)) (hp : p ≠ Player.EMPTY) (hv : s.isValidMove c = true) :
    t.playMoves ((c, p) :: rest) = s.playMoves ((c, p) :: rest) := by
  rw [playMoves, playMoves, isValidMove_congr s t h.1 c, playInColumn_sameBoard s t h c p hp hv]

theorem vertical_run_empty : ∀ (c : Fin 7) (p : Player), p ≠ Player.EMPTY →
    emptyBoard.isValidMove c.val = true ∧
    (emptyBoard.playMoves [(c.val, p), (c.val, p)]).map
        (fun t => (t.bucketsOf p, t.bucketsOf p.neg))
      = some (⟨[1, 0, 0], rfl⟩, ⟨[0, 0, 0], rfl⟩) ∧
    (emptyBoard.playMoves [(c.val, p), (c.val, p), (c.val, p)]).map
        (fun t => (t.bucketsOf p, t.bucketsOf p.neg))
      = some (⟨[0, 1, 0], rfl⟩, ⟨[0, 0, 0], rfl⟩) := by
  decide

/-- C18: growing a vertical run demotes the shorter bucket. From the empty board after `reset()`,
for every column `c` of `0 .. 6` and every player `P` in `{X, O}`: the moves are valid, after
`P` has played column `c` twice the buckets of `P` are `(1, 0, 0)`, after the third play in
column `c` they are `(0, 1, 0)`, and the buckets of the opponent stay `(0, 0, 0)`. -/
theorem vertical_run_buckets (s0 : ConnectFour) (c : Nat) (p : Player) (hc : c < 7)
    (hp : p ≠ Player.EMPTY) :
    (s0.reset.playMoves [(c, p), (c, p)]).map (fun t => (t.bucketsOf p, t.bucketsOf p.neg))
      = some (⟨[1, 0, 0], rfl⟩, ⟨[0, 0, 0], rfl⟩) ∧
    (s0.reset.playMoves [(c, p), (c, p), (c, p)]).map
        (fun t => (t.bucketsOf p, t.bucketsOf p.neg))
      = some (⟨[0, 1, 0], rfl⟩, ⟨[0, 0, 0], rfl⟩) := by
  obtain ⟨hv, h2, h3⟩ := vertical_run_empty ⟨c, hc⟩ p hp
  simp only at hv h2 h3
  rw [playMoves_sameBoard emptyBoard s0.reset (sameBoard_reset s0) c p _ hp hv,
    playMoves_sameBoard emptyBoard s0.reset (sameBoard_reset s0) c p _ hp hv]
  exact ⟨h2, h3⟩

theorem vertical_run_buckets_witness :
    0 < 7 ∧ Player.X ≠ Player.EMPTY ∧
    (emptyBoard.reset.playMoves [(0, Player.X), (0, Player.X)]).map
        (fun t => (t.bucketsOf Player.X, t.bucketsOf Player.X.neg))
      = some (⟨[1, 0, 0], rfl⟩, ⟨[0, 0, 0], rfl⟩) ∧
    (emptyBoard.reset.playMoves [(0, Player.X), (0, Player.X), (0, Player.X)]).map
        (fun t => (t.bucketsOf Player.X, t.bucketsOf Player.X.neg))
      = some (⟨[0, 1, 0], rfl⟩, ⟨[0, 0, 0], rfl⟩) :=
  ⟨by decide, by decide, vertical_run_buckets emptyBoard 0 Player.X (by decide) (by decide)⟩

theorem reachable_spread : Reachable spread :=
  reachable_getD_playMoves _ _ _ (Reachable.reset emptyBoard) reachable_emptyBoard

theorem bucketsOf_placedState (s : ConnectFour) (c : Fin 7) (r : Fin 6) (p : Player)
    (hp : p ≠ Player.EMPTY) :
    (placedState s c r p).bucketsOf p
        = recordAll (s.bucketsOf p) (scanLengths (setCell s.grid c r p) p c r) ∧
    (placedState s c r p).bucketsOf p.neg = s.bucketsOf p.neg := by
  cases p
  · simp only [bucketsOf, placedState, Player.neg, reduceCtorEq, ↓reduceIte, and_self]
  · exact absurd rfl hp
  · simp only [bucketsOf, placedState, Player.neg, reduceCtorEq, ↓reduceIte, and_self]

/-- C19 (amended): the demotion depends on the value of the bucket, not on the line. For every
state, every valid column `c` and every player `P` in `{X, O}`, `playInColumn(c, P)` returns;
the buckets of `P` after the call are the buckets before it updated successively by
`alignmentsCount` with the four scan lengths at the placed cell, and the buckets of the
opponent are unchanged. In an update with a length `L` in `{3, 4}` the bucket of length `L - 1`
is decremented if and only if it is nonzero when the update runs. -/
theorem demotion_by_bucket_value (s : ConnectFour) (c : Nat) (p : Player)
    (hp : p ≠ Player.EMPTY) (hv : s.isValidMove c = true) :
    (∃ t, s.playInColumn c p = some t ∧
      t.bucketsOf p
        = recordAll (s.bucketsOf p) (scanLengths t.grid p t.lastBoxColumn t.lastBoxRow) ∧
      t.bucketsOf p.neg = s.bucketsOf p.neg) ∧
    (∀ a : Alignments,
      (alignmentsCount 3 a).get 0 = (if a.get 0 = 0 then 0 else a.get 0 - 1) ∧
      (alignmentsCount 4 a).get 1 = (if a.get 1 = 0 then 0 else a.get 1 - 1)) := by
  obtain ⟨hc, hk, hplay⟩ := playInColumn_eq s c p hp hv
  refine ⟨⟨_, hplay, (bucketsOf_placedState s ⟨c, hc⟩ ⟨_, hk⟩ p hp).1,
    (bucketsOf_placedState s ⟨c, hc⟩ ⟨_, hk⟩ p hp).2⟩, fun a => ⟨?_, ?_⟩⟩
  · rw [alignmentsCount_three, Mathlib.Vector.get_set_of_ne (by decide), get_demoted]
  · rw [alignmentsCount_four, Mathlib.Vector.get_set_of_ne (by decide), get_demoted]

theorem demotion_by_bucket_value_witness :
    Player.X ≠ Player.EMPTY ∧ spread.isValidMove 1 = true ∧
    (∃ t, spread.playInColumn 1 Player.X = some t ∧
      t.bucketsOf Player.X = recordAll (spread.bucketsOf Player.X)
        (scanLengths t.grid Player.X t.lastBoxColumn t.lastBoxRow) ∧
      t.bucketsOf Player.X.neg = spread.bucketsOf Player.X.neg) :=
  ⟨by decide, by decide,
    (demotion_by_bucket_value spread 1 Player.X (by decide) (by decide)).1⟩

/-- C19 as stated fails. After the valid moves X:0, O:4, X:4, O:6, X:4, O:6, X:2, O:6 the only
adjacent X cells are the vertical pair (col4,row3), (col4,row4): the length-2 bucket of X holds
1, and row 5 holds no two adjacent X cells. X plays column 1 and lands on (col1,row5): the row
scan finds 3 (cells of columns 0, 1, 2), the other scans find 1, and the length-2 bucket of X
drops from 1 to 0 although no run of two lay on row 5; the vertical pair of column 4, which was
counted for another line and is still on the board, is no longer counted. -/
theorem demotion_by_bucket_value_counterexample :
    Reachable spread ∧ spread.isValidMove 1 = true ∧
    spread.alignmentsX = ⟨[1, 0, 0], rfl⟩ ∧
    (∀ k : Fin 6, ¬ (cellIs spread.grid Player.X k.val 5 = true ∧
      cellIs spread.grid Player.X (k.val + 1) 5 = true)) ∧
    cellIs spread.grid Player.X 4 3 = true ∧ cellIs spread.grid Player.X 4 4 = true ∧
    (placedCell spread 1 5 Player.X).scanRow Player.X = some 3 ∧
    (spread.playInColumn 1 Player.X).map (fun t =>
      (t.lastBoxColumn, t.lastBoxRow, scanLengths t.grid Player.X 1 5))
      = some (1, 5, [1, 1, 1, 3]) ∧
    (spread.playInColumn 1 Player.X).map (fun t => t.alignmentsX) = some ⟨[0, 1, 0], rfl⟩ ∧
    (spread.playInColumn 1 Player.X).map (fun t =>
      (cellIs t.grid Player.X 4 3, cellIs t.grid Player.X 4 4)) = some (true, true) :=
  ⟨reachable_spread, by decide, by decide, by decide, by decide, by decide, by decide,
    by decide, by decide, by decide⟩

theorem isGameOver_congr (s t : ConnectFour) (h : t.grid = s.grid) :
    t.isGameOver = s.isGameOver := by
  unfold isGameOver
  simp only [isValidMove_congr s t h]

theorem nodeValue_congr (s t : ConnectFour) (h : SameBoard s t) (p : Player) :
    t.nodeValue p = s.nodeValue p := by
  unfold nodeValue
  rw [h.2.1, h.2.2]

theorem searchLoop_congr (child : ConnectFour → Nat → Int → Int → Option Outcome)
    (p : Player) (hp : p ≠ Player.EMPTY) (beta : Int) (pO pX : Alignments) :
    ∀ (cols : List Nat) (g g2 : ConnectFour) (rng : Nat) (bs : Int) (bc : Option Nat)
      (al : Int), SameBoard g g2 →
      (searchLoop child p beta pO pX cols ⟨g2, rng, bs, bc, al⟩).map Frame.core
        = (searchLoop child p beta pO pX cols ⟨g, rng, bs, bc, al⟩).map Frame.core := by
  intro cols
  induction cols with
  | nil =>
    intro g g2 rng bs bc al h
    simp only [searchLoop, Option.map_some', Frame.core, h.1, h.2.1, h.2.2]
  | cons column rest ih =>
    intro g g2 rng bs bc al h
    by_cases hv : g.isValidMove column = true
    · have hv2 : g2.isValidMove column = true := by rw [isValidMove_congr g g2 h.1]; exact hv
      have hplay := playInColumn_sameBoard g g2 h column p hp hv
      have e : searchLoop child p beta pO pX (column :: rest) ⟨g2, rng, bs, bc, al⟩
          = searchLoop child p beta pO pX (column :: rest) ⟨g, rng, bs, bc, al⟩ := by
        rw [searchLoop, searchLoop]
        simp only [hv, hv2, hplay, if_true]
      rw [e]
    · have hv2 : ¬ g2.isValidMove column = true := by rw [isValidMove_congr g g2 h.1]; exact hv
      rw [searchLoop_skip child p beta pO pX column rest _ hv2,
        searchLoop_skip child p beta pO pX column rest _ hv]
      exact ih g g2 rng bs bc al h

theorem alphabeta_congr (shuffle : Nat → List Nat) (d : Nat) (s s2 : ConnectFour) (rng : Nat)
    (alpha beta : Int) (p : Player) (hp : p ≠ Player.EMPTY) (h : SameBoard s s2) :
    (alphabeta shuffle d s2 rng alpha beta p).map Outcome.core
      = (alphabeta shuffle d s rng alpha beta p).map Outcome.core := by
  cases d with
  | zero =>
    rw [alphabeta_zero, alphabeta_zero, isWinner_congr s s2 h, nodeValue_congr s s2 h]
    split <;> simp only [Option.map_some', Outcome.core, h.1, h.2.1, h.2.2]
  | succ d =>
    rw [alphabeta_succ, alphabeta_succ, isWinner_congr s s2 h, isGameOver_congr s s2 h.1]
    split
    · simp only [Option.map_some', Outcome.core, h.1, h.2.1, h.2.2]
    · split
      · simp only [Option.map_some', Outcome.core, h.1, h.2.1, h.2.2]
      · have e := searchLoop_congr (fun g r a b => alphabeta shuffle d g r a b p.neg) p hp beta
          s.alignmentsO s.alignmentsX (shuffle rng) s s2 (rng + 1) (-INT_MAX) none alpha h
        rw [h.2.1, h.2.2]
        have e2 := congrArg (Option.map fun x : Grid × Alignments × Alignments × Nat × Int ×
          Option Nat × Int => (x.1, x.2.1, x.2.2.1, x.2.2.2.1, x.2.2.2.2.1, x.2.2.2.2.2.1)) e
        simp only [Option.map_map] at e2 ⊢
        exact e2

theorem chooseNextMove_congr (shuffle : Nat → List Nat) (s s2 : ConnectFour) (rng : Nat)
    (p : Player) (depth : Nat) (hp : p ≠ Player.EMPTY) (h : SameBoard s s2) :
    ∃ t t2 rng2 col, chooseNextMove shuffle s rng p depth = some (t, rng2, col) ∧
      chooseNextMove shuffle s2 rng p depth = some (t2, rng2, col) ∧ SameBoard t t2 := by
  rw [chooseNextMove_eq, chooseNextMove_eq, h.1]
  split
  · exact ⟨s, s2, rng, 3, rfl, rfl, h⟩
  · obtain ⟨out, ho, -⟩ := alphabeta_frame shuffle depth s rng (-INT_MAX) INT_MAX p hp
    obtain ⟨out2, ho2, -⟩ := alphabeta_frame shuffle depth s2 rng (-INT_MAX) INT_MAX p hp
    have e := alphabeta_congr shuffle depth s s2 rng (-INT_MAX) INT_MAX p hp h
    rw [ho, ho2] at e
    simp only [Option.map_some', Option.some.injEq, Outcome.core, Prod.mk.injEq] at e
    obtain ⟨e1, e2, e3, e4, -, e6⟩ := e
    rw [ho, ho2]
    refine ⟨out.game, out2.game, out.rng, out.bestColumn.getD 3, rfl, ?_, e1, e2, e3⟩
    simp only [Option.map_some', e4, e6]

/-- C20: the last-move pointer is never read before it is overwritten. For two states with the
same grid and the same bucket arrays, whatever their values of `lastBoxColumn` and
`lastBoxRow`, and for `p` in `{X, O}`: on a valid column `playInColumn(c, p)` returns in both
and yields the same object (same grid, same bucket arrays, same last-move pointer);
`chooseNextMove`, with the same shuffles, returns in both with the same column, after the same
number of shuffles, and leaves objects with the same grid and the same bucket arrays. -/
theorem last_move_pointer_unread (shuffle : Nat → List Nat) (s s2 : ConnectFour) (c : Nat)
    (p : Player) (rng depth : Nat) (hg : s2.grid = s.grid)
    (hO : s2.alignmentsO = s.alignmentsO) (hX : s2.alignmentsX = s.alignmentsX)
    (hp : p ≠ Player.EMPTY) :
    (s.isValidMove c = true →
      ∃ t, s.playInColumn c p = some t ∧ s2.playInColumn c p = some t) ∧
    (∃ t t2 rng2 col, chooseNextMove shuffle s rng p depth = some (t, rng2, col) ∧
      chooseNextMove shuffle s2 rng p depth = some (t2, rng2, col) ∧
      t2.grid = t.grid ∧ t2.alignmentsO = t.alignmentsO ∧ t2.alignmentsX = t.alignmentsX) := by
  have h : SameBoard s s2 := ⟨hg, hO, hX⟩
  refine ⟨fun hv => ?_, chooseNextMove_congr shuffle s s2 rng p depth hp h⟩
  obtain ⟨hc, hk, e⟩ := playInColumn_eq s c p hp hv
  exact ⟨_, e, by rw [playInColumn_sameBoard s s2 h c p hp hv]; exact e⟩

theorem last_move_pointer_unread_witness :
    centerFullStale.grid = centerFull.grid ∧
    centerFullStale.alignmentsO = centerFull.alignmentsO ∧
    centerFullStale.alignmentsX = centerFull.alignmentsX ∧
    centerFullStale.lastBoxColumn ≠ centerFull.lastBoxColumn ∧
    centerFull.isValidMove 2 = true ∧ Player.X ≠ Player.EMPTY ∧
    (∃ t, centerFull.playInColumn 2 Player.X = some t ∧
      centerFullStale.playInColumn 2 Player.X = some t) ∧
    (∃ t t2 rng2 col, chooseNextMove baseShuffle centerFull 0 Player.X 2 = some (t, rng2, col) ∧
      chooseNextMove baseShuffle centerFullStale 0 Player.X 2 = some (t2, rng2, col) ∧
      t2.grid = t.grid ∧ t2.alignmentsO = t.alignmentsO ∧ t2.alignmentsX = t.alignmentsX) :=
  ⟨rfl, rfl, rfl, by decide, by decide, by decide,
    (last_move_pointer_unread baseShuffle centerFull centerFullStale 2 Player.X 0 2
      rfl rfl rfl (by decide)).1 (by decide),
    (last_move_pointer_unread baseShuffle centerFull centerFullStale 2 Player.X 0 2
      rfl rfl rfl (by decide)).2⟩

theorem condBoth_reject (g : Grid) (p : Player) (column row : Nat)
    (h : ¬ (column < 7 ∧ row < 6)) : condBoth g p column row = some false := by
  unfold condBoth
  rw [if_neg h]

theorem condColumnOnly_reject (g : Grid) (p : Player) (column row : Nat) (h : ¬ column < 7) :
    condColumnOnly g p column row = some false := by
  unfold condColumnOnly
  rw [if_neg h]

theorem condRowOnly_reject (g : Grid) (p : Player) (column row : Nat) (h : ¬ row < 6) :
    condRowOnly g p column row = some false := by
  unfold condRowOnly
  rw [if_neg h]

/-- The loop of `scanVisits` is the loop of `scanLoop`: every evaluation of the condition but
the last one increments the score. -/
theorem scanLoop_visits (cond : Nat → Nat → Option Bool) (stepC stepR : Nat → Nat) :
    ∀ (fuel column row score n : Nat),
      scanLoop cond stepC stepR fuel column row score = some n →
      n + 1 = score + (scanVisits cond stepC stepR fuel column row score).length := by
  intro fuel
  induction fuel with
  | zero => intro column row score n h; simp [scanLoop] at h
  | succ fuel ih =>
    intro column row score n h
    rw [scanLoop] at h
    rw [scanVisits]
    cases hc : cond column row with
    | none => rw [hc] at h; simp at h
    | some b =>
      rw [hc] at h
      simp only at h ⊢
      by_cases hb : b = true ∧ score < WIN_SCORE
      · rw [if_pos hb] at h ⊢
        have := ih _ _ _ _ h
        rw [List.length_cons]
        omega
      · rw [if_neg hb] at h ⊢
        simp only [Option.some.injEq] at h
        rw [List.length_cons, List.length_nil]
        omega

theorem scanVisits_fst (cond : Nat → Nat → Option Bool) (stepR : Nat → Nat) :
    ∀ (fuel column row score : Nat),
      ∀ v ∈ scanVisits cond id stepR fuel column row score, v.1 = column := by
  intro fuel
  induction fuel with
  | zero => intro column row score v hv; simp [scanVisits] at hv
  | succ fuel ih =>
    intro column row score v hv
    rw [scanVisits, List.mem_cons] at hv
    rcases hv with rfl | hv
    · rfl
    · cases hc : cond column row with
      | none => rw [hc] at hv; simp at hv
      | some b =>
        rw [hc] at hv
        simp only at hv
        split at hv
        · exact ih _ _ _ v hv
        · simp at hv

theorem scanVisits_snd (cond : Nat → Nat → Option Bool) (stepC : Nat → Nat) :
    ∀ (fuel column row score : Nat),
      ∀ v ∈ scanVisits cond stepC id fuel column row score, v.2 = row := by
  intro fuel
  induction fuel with
  | zero => intro column row score v hv; simp [scanVisits] at hv
  | succ fuel ih =>
    intro column row score v hv
    rw [scanVisits, List.mem_cons] at hv
    rcases hv with rfl | hv
    · rfl
    · cases hc : cond column row with
      | none => rw [hc] at hv; simp at hv
      | some b =>
        rw [hc] at hv
        simp only at hv
        split at hv
        · exact ih _ _ _ v hv
        · simp at hv

theorem twoSidedVisits_snd (cond : Nat → Nat → Option Bool) (fwdC bwdC : Nat → Nat)
    (c r : Nat) : ∀ v ∈ twoSidedVisits cond fwdC id bwdC id c r, v.2 = r := by
  intro v hv
  unfold twoSidedVisits at hv
  rw [List.mem_append] at hv
  rcases hv with hv | hv
  · exact scanVisits_snd cond fwdC _ _ _ _ v hv
  · split at hv
    · simp at hv
    · split at hv
      · exact scanVisits_snd cond bwdC _ _ _ _ v hv
      · simp at hv

theorem columnAccesses_range (s : ConnectFour) (p : Player) (hc : s.lastBoxColumn < 7) :
    ∀ a ∈ s.columnAccesses p, a.1 < 7 ∧ a.2 < 6 := by
  intro a ha
  unfold columnAccesses at ha
  rw [List.mem_filter] at ha
  have h1 := scanVisits_fst _ _ _ _ _ _ a ha.1
  have h2 : a.2 < 6 := by simpa using ha.2
  exact ⟨by rw [h1]; exact hc, h2⟩

theorem diagAscAccesses_range (s : ConnectFour) (p : Player) :
    ∀ a ∈ s.diagAscAccesses p, a.1 < 7 ∧ a.2 < 6 := by
  intro a ha
  unfold diagAscAccesses at ha
  rw [List.mem_filter] at ha
  simpa using ha.2

theorem diagDescAccesses_range (s : ConnectFour) (p : Player) :
    ∀ a ∈ s.diagDescAccesses p, a.1 < 7 ∧ a.2 < 6 := by
  intro a ha
  unfold diagDescAccesses at ha
  rw [List.mem_filter] at ha
  simpa using ha.2

theorem rowAccesses_range (s : ConnectFour) (p : Player) (hr : s.lastBoxRow < 6) :
    ∀ a ∈ s.rowAccesses p, a.1 < 7 ∧ a.2 < 6 := by
  intro a ha
  unfold rowAccesses at ha
  rw [List.mem_filter] at ha
  have h2 := twoSidedVisits_snd _ _ _ _ _ a ha.1
  have h1 : a.1 < 7 := by simpa using ha.2
  exact ⟨h1, by rw [h2]; exact hr⟩

theorem countReads_range (c : Nat) (hc : c < 7) :
    ∀ a ∈ (List.range MAX_ROW).map (fun row => (c, row)), a.1 < 7 ∧ a.2 < 6 := by
  intro a ha
  rw [List.mem_map] at ha
  obtain ⟨row, hrow, rfl⟩ := ha
  exact ⟨hc, List.mem_range.mp hrow⟩

theorem playAccesses_range (s : ConnectFour) (c : Nat) (p : Player) (hp : p ≠ Player.EMPTY)
    (hv : s.isValidMove c = true) : ∀ a ∈ s.playAccesses c p, a.1 < 7 ∧ a.2 < 6 := by
  obtain ⟨hc, h0⟩ := (isValidMove_iff s c).1 hv
  obtain ⟨hk, h1, -, -⟩ := column_play (s.grid.get ⟨c, hc⟩) p hp h0
  have hu := usub1_pos _ h1 (countEmpty_le (s.grid.get ⟨c, hc⟩))
  have hr : usub1 (countEmpty (s.grid.get ⟨c, hc⟩)) < MAX_ROW := by rw [hu]; exact hk
  intro a ha
  unfold playAccesses at ha
  rw [List.mem_append] at ha
  rcases ha with ha | ha
  · exact countReads_range c hc a ha
  · rw [dif_pos (show c < MAX_COLUMN from hc)] at ha
    simp only at ha
    rw [dif_pos hr, List.mem_cons, List.mem_append, List.mem_append, List.mem_append] at ha
    rcases ha with rfl | ((ha | ha) | ha) | ha
    · exact ⟨hc, hr⟩
    · exact columnAccesses_range _ p (by simp only [placedCell]; exact hc) a ha
    · exact diagAscAccesses_range _ p a ha
    · exact diagDescAccesses_range _ p a ha
    · exact rowAccesses_range _ p (by simp only [placedCell]; exact hr) a ha

theorem mem_playAccesses_write (s : ConnectFour) (c : Nat) (p : Player) (hc : c < 7)
    (hr : usub1 (countEmpty (s.grid.get ⟨c, hc⟩)) < 6) :
    (c, usub1 (countEmpty (s.grid.get ⟨c, hc⟩))) ∈ s.playAccesses c p := by
  unfold playAccesses
  rw [List.mem_append, dif_pos (show c < MAX_COLUMN from hc)]
  simp only
  rw [dif_pos (show usub1 (countEmpty (s.grid.get ⟨c, hc⟩)) < MAX_ROW from hr)]
  exact Or.inr (List.mem_cons_self _ _)

theorem eraseAccesses_range (s : ConnectFour) (c : Nat) (hc : c < 7)
    (hk : countEmpty (s.grid.get ⟨c, hc⟩) < 6) :
    (c, countEmpty (s.grid.get ⟨c, hc⟩)) ∈ s.eraseAccesses c ∧
    ∀ a ∈ s.eraseAccesses c, a.1 < 7 ∧ a.2 < 6 := by
  unfold eraseAccesses
  rw [dif_pos (show c < MAX_COLUMN from hc)]
  refine ⟨List.mem_append.mpr (Or.inr (List.mem_singleton.mpr rfl)), fun a ha => ?_⟩
  rw [List.mem_append] at ha
  rcases ha with ha | ha
  · exact countReads_range c hc a ha
  · rw [List.mem_singleton] at ha
    subst ha
    exact ⟨hc, hk⟩

/-- C21: index safety under the precondition of the caller, on a state that respects gravity.
For a valid column `c` and `p` in `{X, O}`: the column holds an Empty cell, the decremented
`firstFullBox` is the number of Empty cells minus one (no wrap-around) and is the row written;
every cell index used by `playInColumn(c, p)`, the write and every read of the four scans, has
its column in `0 .. 6` and its row in `0 .. 5`; and the call returns. For a column `c` of
`0 .. 6` holding at least one piece: `eraseMove(c)` writes at the row given by the number of
Empty cells, every index it uses is in range, and the call returns. A position that fails the
tests `< MAX_COLUMN` / `< MAX_ROW` of a loop condition, such as the wrapped value
`0 - 1 = 4294967295`, ends the loop without indexing the grid. -/
theorem index_safety (s : ConnectFour) (c : Nat) (p : Player) (hg : Gravity s.grid) :
    (s.isValidMove c = true → p ≠ Player.EMPTY →
      (∃ hc : c < 7, 1 ≤ countEmpty (s.grid.get ⟨c, hc⟩) ∧
        usub1 (countEmpty (s.grid.get ⟨c, hc⟩)) = countEmpty (s.grid.get ⟨c, hc⟩) - 1 ∧
        (c, countEmpty (s.grid.get ⟨c, hc⟩) - 1) ∈ s.playAccesses c p) ∧
      (∀ a ∈ s.playAccesses c p, a.1 ≤ 6 ∧ a.2 ≤ 5) ∧
      ∃ t, s.playInColumn c p = some t) ∧
    (∀ hc : c < 7, (∃ r : Fin 6, (s.grid.get ⟨c, hc⟩).get r ≠ Player.EMPTY) →
      (c, countEmpty (s.grid.get ⟨c, hc⟩)) ∈ s.eraseAccesses c ∧
      (∀ a ∈ s.eraseAccesses c, a.1 ≤ 6 ∧ a.2 ≤ 5) ∧
      ∃ t, s.eraseMove c = some t) ∧
    (usub1 0 = 4294967295 ∧ ∀ (g : Grid) (q : Player) (column row : Nat),
      (¬ (column < MAX_COLUMN ∧ row < MAX_ROW) → condBoth g q column row = some false) ∧
      (¬ column < MAX_COLUMN → condColumnOnly g q column row = some false) ∧
      (¬ row < MAX_ROW → condRowOnly g q column row = some false)) := by
  refine ⟨fun hv hp => ?_, fun hc hpiece => ?_, by decide, fun g q column row =>
    ⟨condBoth_reject g q column row, condColumnOnly_reject g q column row,
      condRowOnly_reject g q column row⟩⟩
  · obtain ⟨hc, h0⟩ := (isValidMove_iff s c).1 hv
    obtain ⟨hk, h1, -, -⟩ := column_play (s.grid.get ⟨c, hc⟩) p hp h0
    have hu := usub1_pos _ h1 (countEmpty_le (s.grid.get ⟨c, hc⟩))
    obtain ⟨_, _, hplay⟩ := playInColumn_eq s c p hp hv
    refine ⟨⟨hc, h1, hu, ?_⟩, fun a ha => ?_, _, hplay⟩
    · have := mem_playAccesses_write s c p hc (by rw [hu]; exact hk)
      rw [hu] at this
      exact this
    · have := playAccesses_range s c p hp hv a ha
      omega
  · have hk := countEmpty_lt_of_piece _ (hg ⟨c, hc⟩) hpiece
    obtain ⟨hmem, hall⟩ := eraseAccesses_range s c hc hk
    refine ⟨hmem, fun a ha => ?_, _, eraseMove_eq s c hc hk⟩
    have := hall a ha
    omega

theorem index_safety_witness :
    Gravity threeInRow.grid ∧ threeInRow.isValidMove 0 = true ∧ Player.X ≠ Player.EMPTY ∧
    ((∃ hc : 0 < 7, 1 ≤ countEmpty (threeInRow.grid.get ⟨0, hc⟩) ∧
        usub1 (countEmpty (threeInRow.grid.get ⟨0, hc⟩))
          = countEmpty (threeInRow.grid.get ⟨0, hc⟩) - 1 ∧
        (0, countEmpty (threeInRow.grid.get ⟨0, hc⟩) - 1) ∈ threeInRow.playAccesses 0 Player.X) ∧
      (∀ a ∈ threeInRow.playAccesses 0 Player.X, a.1 ≤ 6 ∧ a.2 ≤ 5) ∧
      ∃ t, threeInRow.playInColumn 0 Player.X = some t) ∧
    ((0, countEmpty (threeInRow.grid.get ⟨0, by decide⟩)) ∈ threeInRow.eraseAccesses 0 ∧
      (∀ a ∈ threeInRow.eraseAccesses 0, a.1 ≤ 6 ∧ a.2 ≤ 5) ∧
      ∃ t, threeInRow.eraseMove 0 = some t) ∧
    twoSidedVisits (condBoth (placedCell threeInRow 0 4 Player.X).grid Player.X)
      uadd1 usub1 usub1 uadd1 0 4 = [(1, 3), (4294967295, 5)] ∧
    (placedCell threeInRow 0 4 Player.X).diagAscAccesses Player.X = [(1, 3)] :=
  ⟨by decide, by decide, by decide,
    (index_safety threeInRow 0 Player.X (by decide)).1 (by decide) (by decide),
    (index_safety threeInRow 0 Player.X (by decide)).2.1 (by decide) ⟨5, by decide⟩,
    by decide, by decide⟩

/-! ## The value and the column of the search on the states of a game -/

theorem isShuffle_reverseShuffle : IsShuffle reverseShuffle := fun _ => by
  show [6, 2, 1, 0, 5, 4, 3].Perm [3, 4, 5, 0, 1, 2, 6]
  decide

theorem reachable_lateBoard : Reachable lateBoard :=
  reachable_getD_playMoves _ _ _ (Reachable.reset emptyBoard) reachable_emptyBoard

theorem afterPlay_of_play (s t : ConnectFour) (c : Nat) (p : Player)
    (h : s.playInColumn c p = some t) : s.afterPlay c p = t := by
  unfold afterPlay
  rw [h]
  rfl

/-- In a state reached from `reset()` by valid moves every bucket is at most 168. -/
theorem reachable_tame (s : ConnectFour) (h : Reachable s) : Tame 168 s := by
  induction h with
  | reset s =>
    intro i
    rw [reset_alignmentsO, reset_alignmentsX, Mathlib.Vector.get_replicate]
    have := emptyCells_le s.reset.grid
    omega
  | play s t c p hs hp hv hplay ih =>
    have := afterPlay_tame 168 s c p hp hv (invariant_reachable s hs).1 ih
    rw [afterPlay_of_play s t c p hplay] at this
    exact this

theorem reachable_bucketsAtMost (s : ConnectFour) (h : Reachable s) : bucketsAtMost 168 s := by
  intro i
  have := reachable_tame s h i
  omega

/-- The states covered by the search theorems: a reachable state respects gravity and has every
bucket at most 168. -/
theorem state_in_range (s : ConnectFour)
    (hs : Reachable s ∨ (Gravity s.grid ∧ bucketsAtMost 19000000 s)) :
    Gravity s.grid ∧ bucketsAtMost 19000000 s := by
  rcases hs with h | h
  · refine ⟨(invariant_reachable s h).1, fun i => ?_⟩
    have := reachable_bucketsAtMost s h i
    omega
  · exact h

theorem alphabeta_full_window (shuffle : Nat → List Nat) (hsh : IsShuffle shuffle)
    (s : ConnectFour) (rng : Nat) (p : Player) (d : Nat) (hp : p ≠ Player.EMPTY)
    (hg : Gravity s.grid) (hd : 100 * ((d : Int) + 1) ≤ INT_MAX)
    (hb : bucketsAtMost 19000000 s) :
    ∃ out, alphabeta shuffle d s rng (-INT_MAX) INT_MAX p = some out ∧
      out.score = negamax d s p := by
  have hI : INT_MAX = 2147483647 := rfl
  obtain ⟨out, h1, -, h3, h4, h5, h6⟩ := alphabeta_value shuffle hsh 19000168 (by omega) d p s
    rng (-INT_MAX) INT_MAX hp (depth_fits d hd) hg (tame_of_limit s hb) (le_refl _) (by omega)
    (by omega) (le_refl _)
  exact ⟨out, h1, le_antisymm (h6 (by omega)) (h5 (by omega))⟩

/-- C7: alpha-beta pruning does not change the search value. On every state reached from
`reset()` by valid moves, and on every gravity-respecting state whose buckets are at most
19 000 000 (in a reachable state they are at most 168), for a player in `{X, O}`, a depth `d`
with `100 * (d + 1)` within `int` and any shuffles, `alphabeta` called with the full window
returns, and its score is exactly the value of the unpruned depth-`d` negamax; the score is the
same for any two choices of the shuffles. -/
theorem alphabeta_eq_negamax (shuffle shuffle2 : Nat → List Nat) (hsh : IsShuffle shuffle)
    (hsh2 : IsShuffle shuffle2) (s : ConnectFour) (rng rng2 : Nat) (p : Player) (d : Nat)
    (hs : Reachable s ∨ (Gravity s.grid ∧ bucketsAtMost 19000000 s))
    (hp : p ≠ Player.EMPTY) (hd : 100 * ((d : Int) + 1) ≤ INT_MAX) :
    ∃ out out2, alphabeta shuffle d s rng (-INT_MAX) INT_MAX p = some out ∧
      alphabeta shuffle2 d s rng2 (-INT_MAX) INT_MAX p = some out2 ∧
      out.score = negamax d s p ∧ out2.score = out.score := by
  obtain ⟨hg, hb⟩ := state_in_range s hs
  obtain ⟨out, h1, h2⟩ := alphabeta_full_window shuffle hsh s rng p d hp hg hd hb
  obtain ⟨out2, h3, h4⟩ := alphabeta_full_window shuffle2 hsh2 s rng2 p d hp hg hd hb
  exact ⟨out, out2, h1, h3, h2, by rw [h4, h2]⟩

set_option maxRecDepth 100000 in
set_option maxHeartbeats 4000000 in
theorem alphabeta_eq_negamax_witness :
    IsShuffle baseShuffle ∧ IsShuffle reverseShuffle ∧ Reachable lateBoard ∧
    Player.X ≠ Player.EMPTY ∧ 100 * (((2 : Nat) : Int) + 1) ≤ INT_MAX ∧
    (∃ out out2, alphabeta baseShuffle 2 lateBoard 0 (-INT_MAX) INT_MAX Player.X = some out ∧
      alphabeta reverseShuffle 2 lateBoard 5 (-INT_MAX) INT_MAX Player.X = some out2 ∧
      out.score = negamax 2 lateBoard Player.X ∧ out2.score = out.score) ∧
    negamax 2 lateBoard Player.X = 200 ∧
    (alphabeta baseShuffle 2 lateBoard 0 (-INT_MAX) INT_MAX Player.X).map
      (fun out => out.score) = some 200 ∧
    (alphabeta reverseShuffle 2 lateBoard 5 (-INT_MAX) INT_MAX Player.X).map
      (fun out => out.score) = some 200 :=
  ⟨isShuffle_baseShuffle, isShuffle_reverseShuffle, reachable_lateBoard, by decide, by decide,
    alphabeta_eq_negamax baseShuffle reverseShuffle isShuffle_baseShuffle
      isShuffle_reverseShuffle lateBoard 0 5 Player.X 2 (Or.inl reachable_lateBoard)
      (by decide) (by decide),
    by decide, by decide, by decide⟩

